import Mathlib

/-!
# FPMB server: role model, membership resolver and realtime relay

A shallow embedding of `server/internal/handlers/{teams,projects,ws,chat}.go`.

* Go `int` values are modelled by `Int`; the operations used on role flags
  (`>=`, `&`, `!= 0`) cannot overflow.
* Go maps are association lists with unique keys (`AList`); iteration order
  of a Go map is unspecified, so statements about broadcasts speak about
  who receives how many frames, not about the order.
* Pointers to rooms are addresses into an explicit heap, so that a session keeps
  the room it obtained at join time whatever happens to the registry.
* Library calls (`json.Unmarshal`, `parseWSToken`, `NewObjectID`, `time.Now`,
  the outcome of `InsertOne`) enter the handlers as arguments.
-/

namespace FPMB

/-! ## Role model (`teams.go`) -/

def RoleViewer : Int := 1
def RoleEditor : Int := 2
def RoleAdmin : Int := 4
def RoleOwner : Int := 8

/-- Go `hasPermission` of `teams.go`: `return userRole >= requiredRole`. -/
def hasPermission (userRole requiredRole : Int) : Bool :=
  decide (userRole ≥ requiredRole)

/-- Go `roleName` of `teams.go`: a `switch` over `flags & Role != 0`, first match wins. -/
def roleName (flags : Int) : String :=
  if Int.land flags RoleOwner ≠ 0 then "Owner"
  else if Int.land flags RoleAdmin ≠ 0 then "Admin"
  else if Int.land flags RoleEditor ≠ 0 then "Editor"
  else "Viewer"

/-! ## Data model (`models/models.go`) -/

/-- Go `primitive.ObjectID`: twelve bytes, represented by the number they encode. -/
structure ObjectID where
  val : Nat
  deriving DecidableEq, Repr

/-- Go `primitive.NilObjectID`: the all-zero object id. -/
def NilObjectID : ObjectID := ⟨0⟩

/-- Go `time.Time`, as an instant counted in nanoseconds. -/
abbrev Time := Nat

structure TeamMember where
  ID : ObjectID
  TeamID : ObjectID
  UserID : ObjectID
  RoleFlags : Int
  InvitedBy : ObjectID
  JoinedAt : Time
  deriving DecidableEq, Repr

structure Project where
  ID : ObjectID
  TeamID : ObjectID
  Name : String
  Description : String
  Visibility : String
  IsPublic : Bool
  IsArchived : Bool
  CreatedBy : ObjectID
  CreatedAt : Time
  UpdatedAt : Time
  deriving DecidableEq, Repr

structure ProjectMember where
  ID : ObjectID
  ProjectID : ObjectID
  UserID : ObjectID
  RoleFlags : Int
  AddedAt : Time
  deriving DecidableEq, Repr

structure ChatMessage where
  ID : ObjectID
  TeamID : ObjectID
  UserID : ObjectID
  UserName : String
  Content : String
  ReplyTo : Option ObjectID
  EditedAt : Option Time
  Deleted : Bool
  CreatedAt : Time
  deriving DecidableEq, Repr

structure Team where
  ID : ObjectID
  Name : String
  WorkspaceID : String
  AvatarURL : String
  BannerURL : String
  CreatedBy : ObjectID
  CreatedAt : Time
  UpdatedAt : Time
  deriving DecidableEq, Repr

structure BoardColumn where
  ID : ObjectID
  ProjectID : ObjectID
  Title : String
  Position : Int
  CreatedAt : Time
  UpdatedAt : Time
  deriving DecidableEq, Repr

structure User where
  ID : ObjectID
  Name : String
  Email : String
  PasswordHash : String
  AvatarURL : String
  CreatedAt : Time
  UpdatedAt : Time
  deriving DecidableEq, Repr

/-- Go `models.Notification`; the field `Type` is a reserved word here and is
named `NotifType`. -/
structure Notification where
  ID : ObjectID
  UserID : ObjectID
  NotifType : String
  Message : String
  ProjectID : ObjectID
  CardID : ObjectID
  Read : Bool
  CreatedAt : Time
  deriving DecidableEq, Repr

structure Subtask where
  ID : Int
  Text : String
  Done : Bool
  deriving DecidableEq, Repr

structure Card where
  ID : ObjectID
  ColumnID : ObjectID
  ProjectID : ObjectID
  Title : String
  Description : String
  Priority : String
  Color : String
  DueDate : Option Time
  Assignees : List String
  EstimatedMinutes : Option Int
  ActualMinutes : Option Int
  Subtasks : List Subtask
  Position : Int
  CreatedBy : ObjectID
  CreatedAt : Time
  UpdatedAt : Time
  deriving DecidableEq, Repr

/-- The collections of the document store that the handlers below read and
write, each in natural (insertion) order. -/
structure Database where
  team_members : List TeamMember
  project_members : List ProjectMember
  projects : List Project
  chat_messages : List ChatMessage
  teams : List Team := []
  board_columns : List BoardColumn := []
  users : List User := []
  notifications : List Notification := []
  cards : List Card := []
  deriving DecidableEq, Repr

/-- The two error values the membership resolver can return:
`mongo.ErrNoDocuments` (a `FindOne` without match) and `fiber.ErrForbidden`. -/
inductive Error where
  | ErrNoDocuments
  | ErrForbidden
  deriving DecidableEq, Repr

/-! ## Membership resolver (`teams.go`, `projects.go`) -/

/-- Go `GetCollection("team_members").FindOne(ctx, {team_id, user_id})`: the first
document matching the filter. -/
def findTeamMember (db : Database) (teamID userID : ObjectID) : Option TeamMember :=
  db.team_members.find? (fun m => decide (m.TeamID = teamID ∧ m.UserID = userID))

/-- Go `GetCollection("project_members").FindOne(ctx, {project_id, user_id})`. -/
def findProjectMember (db : Database) (projectID userID : ObjectID) : Option ProjectMember :=
  db.project_members.find? (fun m => decide (m.ProjectID = projectID ∧ m.UserID = userID))

/-- Go `GetCollection("projects").FindOne(ctx, {_id})`. -/
def findProject (db : Database) (projectID : ObjectID) : Option Project :=
  db.projects.find? (fun p => decide (p.ID = projectID))

/-- Go `getTeamRole` of `teams.go`. The Go function returns `(int, error)`; the
pair is kept, with `none` for a nil error. -/
def getTeamRole (db : Database) (teamID userID : ObjectID) : Int × Option Error :=
  match findTeamMember db teamID userID with
  | none => (0, some Error.ErrNoDocuments)
  | some member => (member.RoleFlags, none)

/-- Go `getProjectRole` of `projects.go`. -/
def getProjectRole (db : Database) (projectID userID : ObjectID) : Int × Option Error :=
  match findProjectMember db projectID userID with
  | some pm => (pm.RoleFlags, none)
  | none =>
    match findProject db projectID with
    | none => (0, some Error.ErrNoDocuments)
    | some project =>
      if project.TeamID = NilObjectID then (0, some Error.ErrForbidden)
      else getTeamRole db project.TeamID userID

/-! ### A small store used to instantiate the resolver theorems

Team 7 has user 1 as Editor (2) and user 2 as Viewer (1); project 5 belongs to
team 7 and has an explicit row making user 2 its Owner (8); project 6 is a
personal project whose only member is user 2. -/

def sampleTeamMember : TeamMember :=
  { ID := ⟨100⟩, TeamID := ⟨7⟩, UserID := ⟨1⟩, RoleFlags := 2, InvitedBy := ⟨2⟩, JoinedAt := 0 }

def sampleTeamProject : Project :=
  { ID := ⟨5⟩, TeamID := ⟨7⟩, Name := "roadmap", Description := "", Visibility := "private",
    IsPublic := false, IsArchived := false, CreatedBy := ⟨2⟩, CreatedAt := 0, UpdatedAt := 0 }

def samplePersonalProject : Project :=
  { ID := ⟨6⟩, TeamID := NilObjectID, Name := "notes", Description := "",
    Visibility := "private", IsPublic := false, IsArchived := false, CreatedBy := ⟨2⟩,
    CreatedAt := 0, UpdatedAt := 0 }

def sampleDatabase : Database :=
  { team_members :=
      [sampleTeamMember,
       { ID := ⟨101⟩, TeamID := ⟨7⟩, UserID := ⟨2⟩, RoleFlags := 1, InvitedBy := ⟨2⟩,
         JoinedAt := 0 }],
    project_members :=
      [{ ID := ⟨200⟩, ProjectID := ⟨5⟩, UserID := ⟨2⟩, RoleFlags := 8, AddedAt := 0 },
       { ID := ⟨201⟩, ProjectID := ⟨6⟩, UserID := ⟨2⟩, RoleFlags := 8, AddedAt := 0 }],
    projects := [sampleTeamProject, samplePersonalProject],
    chat_messages := [] }

/-! ## Realtime relay: shared data (`ws.go`, `chat.go`) -/

/-- Go `*websocket.Conn`: a connection handle; only its identity matters. -/
abbrev Conn := Nat

/-- Go `wsClient` of `ws.go`. -/
structure wsClient where
  conn : Conn
  userID : String
  name : String
  deriving DecidableEq, Repr

/-- A decoded JSON value (`interface{}` after `json.Unmarshal`); numbers are kept
as the bit pattern of their `float64`. The handlers never look inside. -/
inductive JsonValue where
  | null
  | bool (b : Bool)
  | number (bits : Nat)
  | str (s : String)
  | array (items : List JsonValue)
  | object (fields : List (String × JsonValue))

/-- Go `map[string]interface{}`. -/
abbrev JsonObject := AList (fun _ : String => JsonValue)

/-- One entry of a participant list: `map[string]string{"user_id": .., "name": ..}`. -/
structure UserEntry where
  user_id : String
  name : String
  deriving DecidableEq, Repr

/-- The values handed to `json.Marshal` / `WriteJSON` by the two handlers, one
constructor per map literal of the source; the constructor stands for the
`"type"` entry (the whiteboard and chat error frames differ in their second key).
`relay` is the whiteboard pass-through map. -/
inductive Frame where
  | wsError (payload : String)
  | join (user_id name : String) (users : List UserEntry)
  | users (users : List UserEntry)
  | leave (user_id name : String) (users : List UserEntry)
  | relay (incoming : JsonObject)
  | chatError (message : String)
  | presence (users : List UserEntry)
  | message (message : ChatMessage)
  | typing (user_id name : String)

/-- What a handler does to the outside world, in program order: a
`WriteMessage` / `WriteJSON` on a connection, a `Close`, or an `InsertOne` into
`chat_messages`. Errors of writes and of the insert are discarded by the source
(`_ =`, `_, _ =`). -/
inductive Effect where
  | write (conn : Conn) (msg : Frame)
  | close (conn : Conn)
  | insertOne (doc : ChatMessage)

/-- The frames written to connection `c`, in order. -/
def framesTo (c : Conn) : List Effect → List Frame
  | [] => []
  | Effect.write conn msg :: rest =>
    if conn = c then msg :: framesTo c rest else framesTo c rest
  | _ :: rest => framesTo c rest

/-- The documents handed to `InsertOne`, in order. -/
def inserts : List Effect → List ChatMessage
  | [] => []
  | Effect.insertOne doc :: rest => doc :: inserts rest
  | _ :: rest => inserts rest

/-- Go `whiteboardRoom` of `ws.go`: the `clients` map (the mutex has no content). -/
structure whiteboardRoom where
  clients : AList (fun _ : Conn => wsClient)

/-- Go `chatRoom` of `chat.go` has the same two fields as `whiteboardRoom`. -/
abbrev chatRoom := whiteboardRoom

/-- Go `*whiteboardRoom` / `*chatRoom`: an address in the room heap. -/
abbrev RoomPtr := Nat

/-- The package variable `wsRooms` (respectively `chatRooms`): the map from room
key to room pointer, together with the rooms the pointers designate. `next` is
the next address `&whiteboardRoom{...}` will return. -/
structure Registry where
  m : AList (fun _ : String => RoomPtr)
  heap : RoomPtr → whiteboardRoom
  next : RoomPtr

/-- The registry at process start: `m: make(map[string]*whiteboardRoom)`. -/
def Registry.init : Registry :=
  { m := ∅, heap := fun _ => ⟨∅⟩, next := 0 }

/-- Go `getRoom` of `ws.go`. -/
def getRoom (st : Registry) (boardID : String) : Registry × RoomPtr :=
  match st.m.lookup boardID with
  | some room => (st, room)
  | none =>
    let room := st.next
    ({ m := st.m.insert boardID room,
       heap := Function.update st.heap room ⟨∅⟩,
       next := st.next + 1 }, room)

/-- Go `getChatRoom` of `chat.go`. -/
def getChatRoom (st : Registry) (teamID : String) : Registry × RoomPtr :=
  match st.m.lookup teamID with
  | some room => (st, room)
  | none =>
    let room := st.next
    ({ m := st.m.insert teamID room,
       heap := Function.update st.heap room ⟨∅⟩,
       next := st.next + 1 }, room)

/-- Go `(*whiteboardRoom).broadcast`: one write per key of `clients` other than
`sender` (`none` is Go's `nil` sender, which equals no connection). -/
def whiteboardRoom.broadcast (r : whiteboardRoom) (sender : Option Conn) (msg : Frame) :
    List Effect :=
  (r.clients.keys.filter (fun conn => decide (some conn ≠ sender))).map
    (fun conn => Effect.write conn msg)

/-- Go `(*whiteboardRoom).userList`: one entry per client, no de-duplication. -/
def whiteboardRoom.userList (r : whiteboardRoom) : List UserEntry :=
  r.clients.entries.map (fun e => { user_id := e.2.userID, name := e.2.name })

/-- Go `(*chatRoom).broadcast`. -/
def chatRoom.broadcast (r : chatRoom) (sender : Option Conn) (msg : Frame) : List Effect :=
  (r.clients.keys.filter (fun conn => decide (some conn ≠ sender))).map
    (fun conn => Effect.write conn msg)

/-- Go `(*chatRoom).broadcastAll`. -/
def chatRoom.broadcastAll (r : chatRoom) (msg : Frame) : List Effect :=
  r.clients.keys.map (fun conn => Effect.write conn msg)

/-- The loop of `(*chatRoom).onlineUsers` over the clients not yet visited, with
the `seen` set and the `list` built so far. -/
def onlineUsersLoop : List wsClient → List String → List UserEntry → List UserEntry
  | [], _, list => list
  | c :: rest, seen, list =>
    if c.userID ∈ seen then onlineUsersLoop rest seen list
    else onlineUsersLoop rest (c.userID :: seen)
      (list ++ [{ user_id := c.userID, name := c.name }])

/-- Go `(*chatRoom).onlineUsers`. -/
def chatRoom.onlineUsers (r : chatRoom) : List UserEntry :=
  onlineUsersLoop (r.clients.entries.map (fun e => e.2)) [] []

/-- The local variables of one handler activation between the join and the
deferred leave: `c`, `boardID` / `teamID`, `userID`, `userName`, `room`. -/
structure Session where
  c : Conn
  key : String
  userID : String
  userName : String
  room : RoomPtr
  deriving DecidableEq, Repr

/-- Go `room.clients[c] = client` under the room lock. -/
def Registry.register (st : Registry) (room : RoomPtr) (c : Conn) (client : wsClient) :
    Registry :=
  { st with heap := Function.update st.heap room ⟨(st.heap room).clients.insert c client⟩ }

/-- Go `delete(room.clients, c); empty := len(room.clients) == 0` under the room lock. -/
def Registry.deregister (st : Registry) (room : RoomPtr) (c : Conn) : Registry × Bool :=
  let clients := (st.heap room).clients.erase c
  ({ st with heap := Function.update st.heap room ⟨clients⟩ }, decide (clients.keys.length = 0))

/-- Go `delete(wsRooms.m, boardID)` under the registry lock. -/
def Registry.deleteEntry (st : Registry) (key : String) : Registry :=
  { st with m := st.m.erase key }

/-! ## Whiteboard session handler (`WhiteboardWS` of `ws.go`)

The handler is cut at its two blocking points: `connect` is the code before the
receive loop, `onFrame` one iteration of the loop after a successful
`ReadMessage`, `onClose` the deferred function that runs when the loop ends. -/

/-- Go `WhiteboardWS`, lines before the loop. `token` is the outcome of
`parseWSToken`: the user id of the claims when the token is valid. -/
def WhiteboardWS.connect (st : Registry) (c : Conn) (boardID : String)
    (token : Option String) (userName : String) :
    Registry × List Effect × Option Session :=
  match token with
  | none => (st, [Effect.write c (Frame.wsError "unauthorized"), Effect.close c], none)
  | some userID =>
    let got := getRoom st boardID
    let room := got.2
    let st2 := got.1.register room c { conn := c, userID := userID, name := userName }
    let joinMsg := Frame.join userID userName (st2.heap room).userList
    let selfMsg := Frame.users (st2.heap room).userList
    (st2, (st2.heap room).broadcast none joinMsg ++ [Effect.write c selfMsg],
      some { c := c, key := boardID, userID := userID, userName := userName, room := room })

/-- Outcome of `json.Unmarshal(msg, &incoming)` with `incoming` a
`map[string]interface{}`: an error (text that is not JSON, or a JSON array,
number, string or boolean), no error with `incoming` left nil (the literal
`null`), or no error with the decoded object. -/
inductive wsParsed where
  | err
  | nilMap
  | object (incoming : JsonObject)

/-- One iteration of the receive loop of `WhiteboardWS`. `Except.error` is a
runtime panic (a write to a nil map). -/
def WhiteboardWS.onFrame (st : Registry) (s : Session) : wsParsed → Except String (List Effect)
  | wsParsed.err => Except.ok []
  | wsParsed.nilMap => Except.error "assignment to entry in nil map"
  | wsParsed.object incoming =>
    let incoming1 := incoming.insert "user_id" (JsonValue.str s.userID)
    let incoming2 := incoming1.insert "name" (JsonValue.str s.userName)
    Except.ok ((st.heap s.room).broadcast (some s.c) (Frame.relay incoming2))

/-- The deferred function of `WhiteboardWS`. -/
def WhiteboardWS.onClose (st : Registry) (s : Session) : Registry × List Effect :=
  let left := st.deregister s.room s.c
  let st1 := left.1
  let empty := left.2
  let leaveMsg := Frame.leave s.userID s.userName (st1.heap s.room).userList
  (if empty then st1.deleteEntry s.key else st1, (st1.heap s.room).broadcast none leaveMsg)

/-! ## Chat session handler (`TeamChatWS` of `chat.go`) -/

/-- Go `unicode.IsSpace`. -/
def isSpace (r : Char) : Bool :=
  let n := r.toNat
  n = 0x09 || n = 0x0A || n = 0x0B || n = 0x0C || n = 0x0D || n = 0x20 || n = 0x85 ||
  n = 0xA0 || n = 0x1680 || (0x2000 ≤ n && n ≤ 0x200A) || n = 0x2028 || n = 0x2029 ||
  n = 0x202F || n = 0x205F || n = 0x3000

/-- Go `strings.TrimSpace`: leading and trailing white space removed. -/
def TrimSpace (s : String) : String :=
  ⟨(s.data.dropWhile isSpace).rdropWhile isSpace⟩

/-- Value of one hexadecimal digit, as `encoding/hex` reads it. -/
def hexVal (ch : Char) : Option Nat :=
  let n := ch.toNat
  if 48 ≤ n ∧ n ≤ 57 then some (n - 48)
  else if 97 ≤ n ∧ n ≤ 102 then some (n - 87)
  else if 65 ≤ n ∧ n ≤ 70 then some (n - 55)
  else none

def hexDigits : List Char → Option (List Nat)
  | [] => some []
  | ch :: rest =>
    match hexVal ch, hexDigits rest with
    | some d, some ds => some (d :: ds)
    | _, _ => none

/-- Go `primitive.ObjectIDFromHex`: the string must be 24 bytes long and made of
hexadecimal digits. -/
def ObjectIDFromHex (s : String) : Option ObjectID :=
  if s.utf8ByteSize ≠ 24 then none
  else
    match hexDigits s.data with
    | none => none
    | some ds => some ⟨ds.foldl (fun acc d => acc * 16 + d) 0⟩

/-- What became of the `InsertOne` call within its five-second context. -/
inductive InsertOutcome where
  | inserted
  | failed
  | timedOut
  deriving DecidableEq, Repr

/-- Go `GetCollection("chat_messages").InsertOne(ctx, chatMsg)`: the store after
the call. A failed or abandoned write leaves the collection as it was. -/
def InsertOne (db : Database) (doc : ChatMessage) : InsertOutcome → Database
  | InsertOutcome.inserted => { db with chat_messages := db.chat_messages ++ [doc] }
  | InsertOutcome.failed => db
  | InsertOutcome.timedOut => db

/-- The anonymous struct `incoming` of `TeamChatWS`. -/
structure chatIncoming where
  type : String
  content : String
  deriving DecidableEq, Repr

/-- Go `TeamChatWS`, lines before the loop. -/
def TeamChatWS.connect (st : Registry) (c : Conn) (teamID : String)
    (token : Option String) (userName : String) :
    Registry × List Effect × Option Session :=
  match token with
  | none => (st, [Effect.write c (Frame.chatError "unauthorized"), Effect.close c], none)
  | some userID =>
    let got := getChatRoom st teamID
    let room := got.2
    let st2 := got.1.register room c { conn := c, userID := userID, name := userName }
    let presenceMsg := Frame.presence (chatRoom.onlineUsers (st2.heap room))
    (st2, chatRoom.broadcastAll (st2.heap room) presenceMsg,
      some { c := c, key := teamID, userID := userID, userName := userName, room := room })

/-- One iteration of the receive loop of `TeamChatWS`. `parsed` is `none` when
`json.Unmarshal` returned an error; `newID` and `now` are the values of
`primitive.NewObjectID()` and `time.Now()`; `outcome` is what the store does
with the insert. Returns the store and the effects. -/
def TeamChatWS.onFrame (st : Registry) (db : Database) (s : Session)
    (parsed : Option chatIncoming) (newID : ObjectID) (now : Time)
    (outcome : InsertOutcome) : Database × List Effect :=
  match parsed with
  | none => (db, [])
  | some incoming =>
    if incoming.type = "message" then
      let content := TrimSpace incoming.content
      if content = "" ∨ content.utf8ByteSize > 5000 then (db, [])
      else
        match ObjectIDFromHex s.key with
        | none => (db, [])
        | some teamOID =>
          match ObjectIDFromHex s.userID with
          | none => (db, [])
          | some userOID =>
            let chatMsg : ChatMessage :=
              { ID := newID, TeamID := teamOID, UserID := userOID, UserName := s.userName,
                Content := content, ReplyTo := none, EditedAt := none, Deleted := false,
                CreatedAt := now }
            (InsertOne db chatMsg outcome,
              Effect.insertOne chatMsg ::
                chatRoom.broadcastAll (st.heap s.room) (Frame.message chatMsg))
    else if incoming.type = "typing" then
      (db, chatRoom.broadcast (st.heap s.room) (some s.c) (Frame.typing s.userID s.userName))
    else (db, [])

/-- The deferred function of `TeamChatWS`. -/
def TeamChatWS.onClose (st : Registry) (s : Session) : Registry × List Effect :=
  let left := st.deregister s.room s.c
  let st1 := left.1
  let empty := left.2
  let leaveMsg := Frame.presence (chatRoom.onlineUsers (st1.heap s.room))
  (if empty then st1.deleteEntry s.key else st1,
    chatRoom.broadcast (st1.heap s.room) none leaveMsg)

/-! ## Sessions executed one at a time

`Hub` is the registry together with the locals of every handler activation that
is between its join and its deferred leave. An `Event` is one whole join
(`connect` with a valid token) or one whole leave (`onClose`), so a run of
events is an execution in which joins and leaves do not overlap. -/

structure Hub where
  reg : Registry
  sessions : Conn → Option Session

def Hub.init : Hub :=
  { reg := Registry.init, sessions := fun _ => none }

inductive Event where
  | join (key : String) (c : Conn) (userID userName : String)
  | leave (key : String) (c : Conn)
  deriving DecidableEq, Repr

/-- One whiteboard event: a join runs `WhiteboardWS.connect` and keeps the
session it returns; a leave runs `WhiteboardWS.onClose` with the session of the
connection. -/
def WhiteboardWS.step (h : Hub) : Event → Hub
  | Event.join key c userID userName =>
    let r := WhiteboardWS.connect h.reg c key (some userID) userName
    { reg := r.1, sessions := Function.update h.sessions c r.2.2 }
  | Event.leave _ c =>
    match h.sessions c with
    | none => h
    | some s =>
      { reg := (WhiteboardWS.onClose h.reg s).1, sessions := Function.update h.sessions c none }

/-- One chat event, with `TeamChatWS.connect` and `TeamChatWS.onClose`. -/
def TeamChatWS.step (h : Hub) : Event → Hub
  | Event.join key c userID userName =>
    let r := TeamChatWS.connect h.reg c key (some userID) userName
    { reg := r.1, sessions := Function.update h.sessions c r.2.2 }
  | Event.leave _ c =>
    match h.sessions c with
    | none => h
    | some s =>
      { reg := (TeamChatWS.onClose h.reg s).1, sessions := Function.update h.sessions c none }

def WhiteboardWS.run (h : Hub) (evs : List Event) : Hub :=
  evs.foldl WhiteboardWS.step h

def TeamChatWS.run (h : Hub) (evs : List Event) : Hub :=
  evs.foldl TeamChatWS.step h

/-! ### Bookkeeping on the sequence of events alone -/

/-- The connections that have joined and not left, with their room key, after
one more event. -/
def liveStep (live : List (Conn × String)) : Event → List (Conn × String)
  | Event.join key c _ _ => (c, key) :: live
  | Event.leave key c => live.erase (c, key)

def liveAfter (live : List (Conn × String)) (evs : List Event) : List (Conn × String) :=
  evs.foldl liveStep live

/-- The connections that joined room `key` during `evs` and have not left yet. -/
def present (key : String) (evs : List Event) : List Conn :=
  ((liveAfter [] evs).filter (fun e => decide (e.2 = key))).map Prod.fst

/-- Number of joins on `key` in `evs`. -/
def numJoins (key : String) : List Event → Nat
  | [] => 0
  | Event.join k _ _ _ :: rest => (if k = key then 1 else 0) + numJoins key rest
  | Event.leave _ _ :: rest => numJoins key rest

/-- Number of leaves on `key` in `evs`. -/
def numLeaves (key : String) : List Event → Nat
  | [] => 0
  | Event.join _ _ _ _ :: rest => numLeaves key rest
  | Event.leave k _ :: rest => (if k = key then 1 else 0) + numLeaves key rest

/-- An event is admissible when a join uses a connection handle that is not
currently joined anywhere, and a leave is the leave of a connection currently
joined on that key. -/
def admissible (live : List (Conn × String)) : Event → Bool
  | Event.join _ c _ _ => decide (c ∉ live.map Prod.fst)
  | Event.leave key c => decide ((c, key) ∈ live)

/-- Every event of the sequence is admissible when it happens. -/
def wellFormedFrom (live : List (Conn × String)) : List Event → Bool
  | [] => true
  | e :: rest => admissible live e && wellFormedFrom (liveStep live e) rest

def wellFormed (evs : List Event) : Bool :=
  wellFormedFrom [] evs

/-- Number of clients of the room registered under `key`, if there is one. -/
def roomSize (st : Registry) (key : String) : Option Nat :=
  (st.m.lookup key).map (fun room => (st.heap room).clients.keys.length)

/-- The relation kept between the hub and the connections `live` that have
joined and not left: every live connection has a session whose room pointer is
the one registered under its key, each registered room holds exactly the live
connections of its key and at least one, and distinct keys have distinct rooms. -/
structure Inv (h : Hub) (live : List (Conn × String)) : Prop where
  nodup : (live.map Prod.fst).Nodup
  sess_live : ∀ c s, h.sessions c = some s →
    s.c = c ∧ (c, s.key) ∈ live ∧ h.reg.m.lookup s.key = some s.room
  live_sess : ∀ c k, (c, k) ∈ live → ∃ s, h.sessions c = some s ∧ s.key = k
  room_members : ∀ k p, h.reg.m.lookup k = some p →
    p < h.reg.next ∧ (∀ c, c ∈ (h.reg.heap p).clients ↔ (c, k) ∈ live) ∧ ∃ c, (c, k) ∈ live
  absent_empty : ∀ k, h.reg.m.lookup k = none → ∀ c, (c, k) ∉ live
  inj : ∀ k1 k2 p, h.reg.m.lookup k1 = some p → h.reg.m.lookup k2 = some p → k1 = k2

/-- Two joins on board "b1" followed by the two matching leaves. -/
def sampleEvents : List Event :=
  [Event.join "b1" 1 "A" "Alice", Event.join "b1" 2 "B" "Bob",
   Event.leave "b1" 1, Event.leave "b1" 2]

/-! ### A chat session used to instantiate the chat theorems -/

def sampleTeamHex : String := "0123456789abcdef01234567"

def sampleUserHex : String := "aaaaaaaaaaaaaaaaaaaaaaaa"

/-- The chat registry after connection 1 has joined the room of `sampleTeamHex`. -/
def sampleChatRegistry : Registry :=
  (TeamChatWS.connect Registry.init 1 sampleTeamHex (some sampleUserHex) "Alice").1

/-- The session of connection 1 in `sampleChatRegistry`. -/
def sampleChatSession : Session :=
  { c := 1, key := sampleTeamHex, userID := sampleUserHex, userName := "Alice", room := 0 }

/-- Two thousand euro signs (U+20AC): 2000 characters, 6000 bytes in UTF-8. -/
def wideContent : String :=
  String.mk (List.replicate 2000 (Char.ofNat 0x20AC))

/-! ## Team and project creation (`CreateTeam` of `teams.go`, `CreatePersonalProject`
and `CreateProject` of `projects.go`)

A handler takes the store, the request (the `user_id` local, path parameters,
the parsed body or `none` when `BodyParser` fails), the values of
`primitive.NewObjectID()` and `time.Now()`, and the outcome of each `InsertOne`
in program order; it returns the store and the HTTP status. -/

/-- Go `InsertOne` on a collection: the collection after the call. -/
def insertDoc {α : Type} (coll : List α) (doc : α) : InsertOutcome → List α
  | InsertOutcome.inserted => coll ++ [doc]
  | InsertOutcome.failed => coll
  | InsertOutcome.timedOut => coll

/-- Whether the `InsertOne` call returned a non-nil error. -/
def InsertOutcome.isErr : InsertOutcome → Bool
  | InsertOutcome.inserted => false
  | InsertOutcome.failed => true
  | InsertOutcome.timedOut => true

/-- The request body of `CreateTeam`. -/
structure createTeamBody where
  Name : String
  WorkspaceID : String
  deriving DecidableEq, Repr

/-- The request body of `CreatePersonalProject` and `CreateProject`. -/
structure createProjectBody where
  Name : String
  Description : String
  IsPublic : Bool
  deriving DecidableEq, Repr

/-- Go `CreateTeam` of `teams.go`. -/
def CreateTeam (db : Database) (userIDHex : String) (body : Option createTeamBody)
    (teamID memberID : ObjectID) (now : Time) (o1 o2 : InsertOutcome) : Database × Nat :=
  match ObjectIDFromHex userIDHex with
  | none => (db, 401)
  | some userID =>
    match body with
    | none => (db, 400)
    | some body =>
      if body.Name = "" then (db, 400)
      else
        let team : Team :=
          { ID := teamID, Name := body.Name, WorkspaceID := body.WorkspaceID, AvatarURL := "",
            BannerURL := "", CreatedBy := userID, CreatedAt := now, UpdatedAt := now }
        let db1 := { db with teams := insertDoc db.teams team o1 }
        if o1.isErr then (db1, 500)
        else
          let member : TeamMember :=
            { ID := memberID, TeamID := team.ID, UserID := userID, RoleFlags := RoleOwner,
              InvitedBy := userID, JoinedAt := now }
          let db2 := { db1 with team_members := insertDoc db1.team_members member o2 }
          if o2.isErr then (db2, 500) else (db2, 201)

/-- The loop over `defaultColumns` shared by the two project handlers: one
`InsertOne` into `board_columns` per title, its error discarded. -/
def insertDefaultColumns (cols : List BoardColumn) (projectID : ObjectID) (now : Time)
    (colID : Nat → ObjectID) (colOutcome : Nat → InsertOutcome) : List BoardColumn :=
  (["To Do", "In Progress", "Done"].enum).foldl
    (fun acc it =>
      insertDoc acc
        { ID := colID it.1, ProjectID := projectID, Title := it.2, Position := it.1,
          CreatedAt := now, UpdatedAt := now }
        (colOutcome it.1))
    cols

/-- Go `CreatePersonalProject` of `projects.go`. The error of the insert into
`project_members` (outcome `o2`) is not looked at by the source. -/
def CreatePersonalProject (db : Database) (userIDHex : String)
    (body : Option createProjectBody) (projectID memberID : ObjectID) (now : Time)
    (o1 o2 : InsertOutcome) (colID : Nat → ObjectID) (colOutcome : Nat → InsertOutcome) :
    Database × Nat :=
  match ObjectIDFromHex userIDHex with
  | none => (db, 401)
  | some userID =>
    match body with
    | none => (db, 400)
    | some body =>
      if body.Name = "" then (db, 400)
      else
        let project : Project :=
          { ID := projectID, TeamID := NilObjectID, Name := body.Name,
            Description := body.Description, Visibility := "", IsPublic := body.IsPublic,
            IsArchived := false, CreatedBy := userID, CreatedAt := now, UpdatedAt := now }
        let db1 := { db with projects := insertDoc db.projects project o1 }
        if o1.isErr then (db1, 500)
        else
          let member : ProjectMember :=
            { ID := memberID, ProjectID := project.ID, UserID := userID,
              RoleFlags := RoleOwner, AddedAt := now }
          let db2 := { db1 with project_members := insertDoc db1.project_members member o2 }
          ({ db2 with board_columns :=
              insertDefaultColumns db2.board_columns project.ID now colID colOutcome }, 201)

/-- Go `CreateProject` of `projects.go`. -/
def CreateProject (db : Database) (userIDHex teamIDHex : String)
    (body : Option createProjectBody) (projectID : ObjectID) (now : Time)
    (o1 : InsertOutcome) (colID : Nat → ObjectID) (colOutcome : Nat → InsertOutcome) :
    Database × Nat :=
  match ObjectIDFromHex userIDHex with
  | none => (db, 401)
  | some userID =>
    match ObjectIDFromHex teamIDHex with
    | none => (db, 400)
    | some teamID =>
      match body with
      | none => (db, 400)
      | some body =>
        if body.Name = "" then (db, 400)
        else
          let role := getTeamRole db teamID userID
          if role.2 ≠ none ∨ hasPermission role.1 RoleEditor = false then (db, 403)
          else
            let project : Project :=
              { ID := projectID, TeamID := teamID, Name := body.Name,
                Description := body.Description, Visibility := "", IsPublic := body.IsPublic,
                IsArchived := false, CreatedBy := userID, CreatedAt := now, UpdatedAt := now }
            let db1 := { db with projects := insertDoc db.projects project o1 }
            if o1.isErr then (db1, 500)
            else
              ({ db1 with board_columns :=
                  insertDefaultColumns db1.board_columns project.ID now colID colOutcome }, 201)

/-! ## API keys (`generateAPIKey` and `CreateAPIKey` of `apikeys.go`)

Go strings and byte slices are sequences of bytes, and `raw[:10]` slices bytes,
so the strings of this file are kept as byte lists. -/

abbrev Byte := Fin 256

/-- A Go `string` or `[]byte`. -/
abbrev GoBytes := List Byte

/-- The text a sequence of ASCII bytes spells. -/
def GoBytes.asString (bs : GoBytes) : String :=
  String.mk (bs.map (fun b => Char.ofNat b.val))

/-- The literal `"fpmb_"`. -/
def fpmbPrefix : GoBytes := [102, 112, 109, 98, 95]

/-- The constant `hextable = "0123456789abcdef"` of `encoding/hex`. -/
def hextable : GoBytes :=
  [48, 49, 50, 51, 52, 53, 54, 55, 56, 57, 97, 98, 99, 100, 101, 102]

/-- Go `hex.EncodeToString`: two table characters per byte, `hextable[v>>4]` and
`hextable[v&0x0f]`. -/
def EncodeToString : GoBytes → GoBytes
  | [] => []
  | v :: rest =>
    hextable.getD (v.val / 16) 0 :: hextable.getD (v.val % 16) 0 :: EncodeToString rest

/-- A lowercase hexadecimal character: `0`-`9` or `a`-`f`. -/
def isLowerHex (b : Byte) : Bool :=
  (48 ≤ b.val && b.val ≤ 57) || (97 ≤ b.val && b.val ≤ 102)

/-- Go `generateAPIKey`. `randRead` is the outcome of `rand.Read(b)` on the
32-byte buffer `b`: `none` for an error, otherwise the byte written at each
index. `Sum256` is `sha256.Sum256`, whose result is a `[32]byte`. The result is
`none` when the function returns the error. -/
def generateAPIKey (randRead : Option (Nat → Byte)) (Sum256 : GoBytes → Fin 32 → Byte) :
    Option (GoBytes × GoBytes) :=
  match randRead with
  | none => none
  | some src =>
    let b : GoBytes := (List.range 32).map src
    let raw := fpmbPrefix ++ EncodeToString b
    let sum := Sum256 raw
    let hashed := EncodeToString (List.ofFn sum)
    some (raw, hashed)

/-- Go `s[:n]` on a string: the first `n` bytes, or `none` for the run-time
panic "slice bounds out of range" when `n > len(s)`. -/
def sliceTo (s : GoBytes) (n : Nat) : Option GoBytes :=
  if n ≤ s.length then some (s.take n) else none

/-- Go `models.APIKey`. -/
structure APIKey where
  ID : ObjectID
  UserID : ObjectID
  Name : String
  Scopes : List String
  KeyHash : GoBytes
  Prefix : GoBytes
  LastUsed : Option Time
  RevokedAt : Option Time
  CreatedAt : Time
  deriving DecidableEq, Repr

/-- How the part of `CreateAPIKey` that follows the validation of the request
ends before the store is touched: the answer 500 "Failed to generate key", a
run-time panic in `raw[:10]`, or the `models.APIKey` value that is then handed
to `InsertOne`, together with the raw key returned to the caller. -/
inductive NewAPIKey where
  | failed500
  | slicePanic
  | built (key : APIKey) (raw : GoBytes)

/-- Go `CreateAPIKey`, from the call of `generateAPIKey` to the construction of
`key`. -/
def CreateAPIKey.newKey (userID : ObjectID) (name : String) (scopes : List String)
    (randRead : Option (Nat → Byte)) (Sum256 : GoBytes → Fin 32 → Byte)
    (newID : ObjectID) (now : Time) : NewAPIKey :=
  match generateAPIKey randRead Sum256 with
  | none => NewAPIKey.failed500
  | some (raw, hashed) =>
    match sliceTo raw 10 with
    | none => NewAPIKey.slicePanic
    | some pre =>
      NewAPIKey.built
        { ID := newID, UserID := userID, Name := name, Scopes := scopes, KeyHash := hashed,
          Prefix := pre, LastUsed := none, RevokedAt := none, CreatedAt := now } raw

/-! ## Tier of a display name -/

/-- The tier value of a role name: Viewer = 1, Editor = 2, Admin = 4, Owner = 8
(the constants `RoleViewer` .. `RoleOwner` of `teams.go`). -/
def roleTier (name : String) : Int :=
  if name = "Owner" then RoleOwner
  else if name = "Admin" then RoleAdmin
  else if name = "Editor" then RoleEditor
  else RoleViewer

/-! ## Sessions interleaved at their atomic steps

Each activation of `WhiteboardWS` changes the shared state in four steps, each
under one lock: `getRoom` (registry lock), `room.clients[c] = client` (room
lock), `delete(room.clients, c)` with `empty := len(room.clients) == 0` (room
lock), and, if `empty`, `delete(wsRooms.m, boardID)` (registry lock). Between two
steps of one activation any step of another activation may run. `TeamChatWS` has
the same four steps on `chatRooms`. -/

/-- Where an activation stands: before `getRoom`; holding `room` but not yet
registered; registered and in the receive loop; removed from the room with
`empty` recorded and the cleanup pending; returned. -/
inductive Pc where
  | connecting
  | gotRoom (room : RoomPtr)
  | relaying (room : RoomPtr)
  | leaving (room : RoomPtr) (empty : Bool)
  | closed
  deriving DecidableEq, Repr

/-- One activation of the handler: its locals and where it stands. -/
structure Activation where
  key : String
  c : Conn
  userID : String
  userName : String
  pc : Pc
  deriving DecidableEq, Repr

structure Interleaved where
  reg : Registry
  acts : Conn → Option Activation

/-- The registry at process start with the given activations about to call
`getRoom`. -/
def Interleaved.start (as : List Activation) : Interleaved :=
  { reg := Registry.init,
    acts := fun c => as.find? (fun a => decide (a.c = c)) }

/-- The next atomic step of the activation of connection `c`. From the receive
loop the next step that touches the shared state is the first step of the
deferred function. -/
def Interleaved.step (s : Interleaved) (c : Conn) : Interleaved :=
  match s.acts c with
  | none => s
  | some a =>
    match a.pc with
    | Pc.connecting =>
      let got := getRoom s.reg a.key
      { reg := got.1, acts := Function.update s.acts c (some { a with pc := Pc.gotRoom got.2 }) }
    | Pc.gotRoom room =>
      { reg := s.reg.register room a.c { conn := a.c, userID := a.userID, name := a.userName },
        acts := Function.update s.acts c (some { a with pc := Pc.relaying room }) }
    | Pc.relaying room =>
      let left := s.reg.deregister room a.c
      { reg := left.1,
        acts := Function.update s.acts c (some { a with pc := Pc.leaving room left.2 }) }
    | Pc.leaving _ empty =>
      { reg := if empty then s.reg.deleteEntry a.key else s.reg,
        acts := Function.update s.acts c (some { a with pc := Pc.closed }) }
    | Pc.closed => s

/-- The state after the activations named in `schedule` have taken one step
each, in that order. -/
def Interleaved.run (s : Interleaved) (schedule : List Conn) : Interleaved :=
  schedule.foldl Interleaved.step s

/-- Two connections to board "b1". -/
def twoActivations : List Activation :=
  [{ key := "b1", c := 1, userID := "A", userName := "Alice", pc := Pc.connecting },
   { key := "b1", c := 2, userID := "B", userName := "Bob", pc := Pc.connecting }]

/-! ## Membership handlers (`teams.go`, `projects.go`) and `DeleteColumn` (`board.go`)

Same conventions as for the creation handlers: the request, the fresh ids and
times, and the outcome of each store write in program order go in; the store
and the HTTP status come out. -/

/-- What became of an `UpdateOne`, `DeleteOne` or `DeleteMany` call. -/
inductive WriteOutcome where
  | applied
  | failed
  | timedOut
  deriving DecidableEq, Repr

/-- Whether the call returned a non-nil error. -/
def WriteOutcome.isErr : WriteOutcome → Bool
  | WriteOutcome.applied => false
  | WriteOutcome.failed => true
  | WriteOutcome.timedOut => true

/-- The first document matching the filter, changed by the `$set`. -/
def updateFirst {α : Type} (p : α → Bool) (f : α → α) : List α → List α
  | [] => []
  | x :: xs => if p x then f x :: xs else x :: updateFirst p f xs

/-- Go `UpdateOne(ctx, filter, update)` on a collection. -/
def updateOne {α : Type} (coll : List α) (p : α → Bool) (f : α → α) : WriteOutcome → List α
  | WriteOutcome.applied => updateFirst p f coll
  | WriteOutcome.failed => coll
  | WriteOutcome.timedOut => coll

/-- Go `DeleteOne(ctx, filter)` on a collection: the first match is removed. -/
def deleteOne {α : Type} (coll : List α) (p : α → Bool) : WriteOutcome → List α
  | WriteOutcome.applied => coll.eraseP p
  | WriteOutcome.failed => coll
  | WriteOutcome.timedOut => coll

/-- Go `DeleteMany(ctx, filter)` on a collection: every match is removed. -/
def deleteMany {α : Type} (coll : List α) (p : α → Bool) : WriteOutcome → List α
  | WriteOutcome.applied => coll.filter (fun x => !p x)
  | WriteOutcome.failed => coll
  | WriteOutcome.timedOut => coll

/-- Go `createNotification` of `notifications.go`: one insert, its error discarded. -/
def createNotification (db : Database) (userID : ObjectID) (notifType message : String)
    (projectID cardID : ObjectID) (newID : ObjectID) (now : Time) (o : InsertOutcome) :
    Database :=
  let n : Notification :=
    { ID := newID, UserID := userID, NotifType := notifType, Message := message,
      ProjectID := projectID, CardID := cardID, Read := false, CreatedAt := now }
  { db with notifications := insertDoc db.notifications n o }

/-- The request body of `InviteTeamMember`. -/
structure inviteTeamMemberBody where
  Email : String
  RoleFlags : Int
  deriving DecidableEq, Repr

/-- The request body of the two role updates. -/
structure roleFlagsBody where
  RoleFlags : Int
  deriving DecidableEq, Repr

/-- The request body of `AddProjectMember`. -/
structure addProjectMemberBody where
  UserID : String
  RoleFlags : Int
  deriving DecidableEq, Repr

/-- Go `InviteTeamMember` of `teams.go`. -/
def InviteTeamMember (db : Database) (userIDHex teamIDHex : String)
    (body : Option inviteTeamMemberBody) (memberID notifID : ObjectID)
    (now notifNow : Time) (o1 o2 : InsertOutcome) : Database × Nat :=
  match ObjectIDFromHex userIDHex with
  | none => (db, 401)
  | some inviterID =>
    match ObjectIDFromHex teamIDHex with
    | none => (db, 400)
    | some teamID =>
      match body with
      | none => (db, 400)
      | some body =>
        if body.Email = "" then (db, 400)
        else
          let role := getTeamRole db teamID inviterID
          if role.2 ≠ none ∨ hasPermission role.1 RoleAdmin = false then (db, 403)
          else
            match db.users.find? (fun u => decide (u.Email = body.Email)) with
            | none => (db, 404)
            | some invitee =>
              match findTeamMember db teamID invitee.ID with
              | some _ => (db, 409)
              | none =>
                let flags := if body.RoleFlags = 0 then RoleViewer else body.RoleFlags
                let member : TeamMember :=
                  { ID := memberID, TeamID := teamID, UserID := invitee.ID,
                    RoleFlags := flags, InvitedBy := inviterID, JoinedAt := now }
                let db1 := { db with team_members := insertDoc db.team_members member o1 }
                if o1.isErr then (db1, 500)
                else
                  match db1.teams.find? (fun t => decide (t.ID = teamID)) with
                  | some team =>
                    (createNotification db1 invitee.ID "team_invite"
                      ("You have been invited to team \"" ++ team.Name ++ "\"")
                      NilObjectID NilObjectID notifID notifNow o2, 201)
                  | none => (db1, 201)

/-- Go `UpdateTeamMemberRole` of `teams.go`. -/
def UpdateTeamMemberRole (db : Database) (userIDHex teamIDHex targetHex : String)
    (body : Option roleFlagsBody) (o : WriteOutcome) : Database × Nat :=
  match ObjectIDFromHex userIDHex with
  | none => (db, 401)
  | some requesterID =>
    match ObjectIDFromHex teamIDHex with
    | none => (db, 400)
    | some teamID =>
      match ObjectIDFromHex targetHex with
      | none => (db, 400)
      | some targetUserID =>
        match body with
        | none => (db, 400)
        | some body =>
          let role := getTeamRole db teamID requesterID
          if role.2 ≠ none ∨ hasPermission role.1 RoleAdmin = false then (db, 403)
          else
            let updated := updateOne db.team_members
              (fun m => decide (m.TeamID = teamID ∧ m.UserID = targetUserID))
              (fun m => { m with RoleFlags := body.RoleFlags }) o
            let db1 := { db with team_members := updated }
            if o.isErr then (db1, 500) else (db1, 200)

/-- Go `RemoveTeamMember` of `teams.go`. -/
def RemoveTeamMember (db : Database) (userIDHex teamIDHex targetHex : String)
    (o : WriteOutcome) : Database × Nat :=
  match ObjectIDFromHex userIDHex with
  | none => (db, 401)
  | some requesterID =>
    match ObjectIDFromHex teamIDHex with
    | none => (db, 400)
    | some teamID =>
      match ObjectIDFromHex targetHex with
      | none => (db, 400)
      | some targetUserID =>
        let role := getTeamRole db teamID requesterID
        if role.2 ≠ none ∨ hasPermission role.1 RoleAdmin = false then (db, 403)
        else
          let remaining := deleteOne db.team_members
            (fun m => decide (m.TeamID = teamID ∧ m.UserID = targetUserID)) o
          ({ db with team_members := remaining }, 200)

/-- Go `AddProjectMember` of `projects.go`. -/
def AddProjectMember (db : Database) (userIDHex projectIDHex : String)
    (body : Option addProjectMemberBody) (memberID : ObjectID) (now : Time)
    (o : InsertOutcome) : Database × Nat :=
  match ObjectIDFromHex userIDHex with
  | none => (db, 401)
  | some requesterID =>
    match ObjectIDFromHex projectIDHex with
    | none => (db, 400)
    | some projectID =>
      match body with
      | none => (db, 400)
      | some body =>
        match ObjectIDFromHex body.UserID with
        | none => (db, 400)
        | some targetUserID =>
          let role := getProjectRole db projectID requesterID
          if role.2 ≠ none ∨ hasPermission role.1 RoleAdmin = false then (db, 403)
          else
            let flags := if body.RoleFlags = 0 then RoleViewer else body.RoleFlags
            let member : ProjectMember :=
              { ID := memberID, ProjectID := projectID, UserID := targetUserID,
                RoleFlags := flags, AddedAt := now }
            ({ db with project_members := insertDoc db.project_members member o }, 201)

/-- Go `UpdateProjectMemberRole` of `projects.go`. The error of `BodyParser` is
discarded by the source: without a parsed body `RoleFlags` is 0. -/
def UpdateProjectMemberRole (db : Database) (userIDHex projectIDHex targetHex : String)
    (body : Option roleFlagsBody) (o : WriteOutcome) : Database × Nat :=
  match ObjectIDFromHex userIDHex with
  | none => (db, 401)
  | some requesterID =>
    match ObjectIDFromHex projectIDHex with
    | none => (db, 400)
    | some projectID =>
      match ObjectIDFromHex targetHex with
      | none => (db, 400)
      | some targetUserID =>
        let roleFlagsOfBody : Int :=
          match body with
          | some b => b.RoleFlags
          | none => 0
        let role := getProjectRole db projectID requesterID
        if role.2 ≠ none ∨ hasPermission role.1 RoleAdmin = false then (db, 403)
        else
          let updated := updateOne db.project_members
            (fun m => decide (m.ProjectID = projectID ∧ m.UserID = targetUserID))
            (fun m => { m with RoleFlags := roleFlagsOfBody }) o
          ({ db with project_members := updated }, 200)

/-- Go `RemoveProjectMember` of `projects.go`. -/
def RemoveProjectMember (db : Database) (userIDHex projectIDHex targetHex : String)
    (o : WriteOutcome) : Database × Nat :=
  match ObjectIDFromHex userIDHex with
  | none => (db, 401)
  | some requesterID =>
    match ObjectIDFromHex projectIDHex with
    | none => (db, 400)
    | some projectID =>
      match ObjectIDFromHex targetHex with
      | none => (db, 400)
      | some targetUserID =>
        let role := getProjectRole db projectID requesterID
        if role.2 ≠ none ∨ hasPermission role.1 RoleAdmin = false then (db, 403)
        else
          let remaining := deleteOne db.project_members
            (fun m => decide (m.ProjectID = projectID ∧ m.UserID = targetUserID)) o
          ({ db with project_members := remaining }, 200)

/-- Go `DeleteColumn` of `board.go`: the column is deleted by `_id` and
`project_id`, the cards by `column_id` alone. -/
def DeleteColumn (db : Database) (userIDHex projectIDHex columnIDHex : String)
    (o1 o2 : WriteOutcome) : Database × Nat :=
  match ObjectIDFromHex userIDHex with
  | none => (db, 401)
  | some userID =>
    match ObjectIDFromHex projectIDHex with
    | none => (db, 400)
    | some projectID =>
      match ObjectIDFromHex columnIDHex with
      | none => (db, 400)
      | some columnID =>
        let role := getProjectRole db projectID userID
        if role.2 ≠ none ∨ hasPermission role.1 RoleAdmin = false then (db, 403)
        else
          let columns := deleteOne db.board_columns
            (fun col => decide (col.ID = columnID ∧ col.ProjectID = projectID)) o1
          let db1 := { db with board_columns := columns }
          let cards := deleteMany db1.cards (fun card => decide (card.ColumnID = columnID)) o2
          ({ db1 with cards := cards }, 200)

/-- The gate of the three team handlers, in the words of the claim: the
requester's `getTeamRole` succeeds and `hasPermission(role, RoleAdmin)` holds
(which needs the requester id and the team id to parse). -/
def teamAdminGate (db : Database) (userIDHex teamIDHex : String) : Bool :=
  match ObjectIDFromHex userIDHex, ObjectIDFromHex teamIDHex with
  | some requesterID, some teamID =>
    decide ((getTeamRole db teamID requesterID).2 = none) &&
      hasPermission (getTeamRole db teamID requesterID).1 RoleAdmin
  | _, _ => false

/-- The gate of the three project handlers and of `DeleteColumn`. -/
def projectAdminGate (db : Database) (userIDHex projectIDHex : String) : Bool :=
  match ObjectIDFromHex userIDHex, ObjectIDFromHex projectIDHex with
  | some requesterID, some projectID =>
    decide ((getProjectRole db projectID requesterID).2 = none) &&
      hasPermission (getProjectRole db projectID requesterID).1 RoleAdmin
  | _, _ => false

/-! ### A store with an Admin, used to instantiate the handler theorems

Team 7 has user 3 as Admin (4) and user 4 as Viewer (1). Project 5 belongs to
team 7. Project 6 is a personal project of user 4 with column 60 (hex 3c) and
card 600 in that column. -/

def adminDatabase : Database :=
  { team_members :=
      [{ ID := ⟨100⟩, TeamID := ⟨7⟩, UserID := ⟨3⟩, RoleFlags := 4, InvitedBy := ⟨9⟩,
         JoinedAt := 0 },
       { ID := ⟨101⟩, TeamID := ⟨7⟩, UserID := ⟨4⟩, RoleFlags := 1, InvitedBy := ⟨3⟩,
         JoinedAt := 0 }],
    project_members :=
      [{ ID := ⟨201⟩, ProjectID := ⟨6⟩, UserID := ⟨4⟩, RoleFlags := 8, AddedAt := 0 }],
    projects :=
      [{ ID := ⟨5⟩, TeamID := ⟨7⟩, Name := "roadmap", Description := "",
         Visibility := "private", IsPublic := false, IsArchived := false, CreatedBy := ⟨3⟩,
         CreatedAt := 0, UpdatedAt := 0 },
       { ID := ⟨6⟩, TeamID := NilObjectID, Name := "notes", Description := "",
         Visibility := "private", IsPublic := false, IsArchived := false, CreatedBy := ⟨4⟩,
         CreatedAt := 0, UpdatedAt := 0 }],
    chat_messages := [],
    board_columns :=
      [{ ID := ⟨60⟩, ProjectID := ⟨6⟩, Title := "To Do", Position := 0, CreatedAt := 0,
         UpdatedAt := 0 }],
    cards :=
      [{ ID := ⟨600⟩, ColumnID := ⟨60⟩, ProjectID := ⟨6⟩, Title := "write", Description := "",
         Priority := "", Color := "", DueDate := none, Assignees := [],
         EstimatedMinutes := none, ActualMinutes := none, Subtasks := [], Position := 0,
         CreatedBy := ⟨4⟩, CreatedAt := 0, UpdatedAt := 0 }] }

/-! ### A whiteboard room with two clients, used to instantiate the relay theorems -/

/-- AND with a single bit `2 ^ k` is non-zero exactly when that bit is set
(two's complement, so negative values are covered as well). -/
theorem land_two_pow_ne_zero_iff (n : Int) (k : Nat) :
    Int.land n ((2 ^ k : Nat) : Int) ≠ 0 ↔ n.testBit k = true := by
  have key : ∀ j, (Int.land n ((2 ^ k : Nat) : Int)).testBit j
      = (n.testBit j && decide (k = j)) := by
    intro j
    rw [Int.testBit_land]
    congr 1
    show Nat.testBit (2 ^ k) j = _
    exact Nat.testBit_two_pow
  constructor
  · intro h
    by_contra hb
    apply h
    have hz : ∀ j, (Int.land n ((2 ^ k : Nat) : Int)).testBit j = false := by
      intro j
      rw [key]
      by_cases hj : k = j
      · subst hj; simp [hb]
      · simp [hj]
    obtain ⟨r, hr⟩ : ∃ r : Nat, Int.land n ((2 ^ k : Nat) : Int) = (r : Int) := by
      cases n with
      | ofNat m => exact ⟨Nat.land m (2 ^ k), rfl⟩
      | negSucc m => exact ⟨Nat.ldiff (2 ^ k) m, rfl⟩
    rw [hr] at hz ⊢
    have hr0 : r = 0 := by
      apply Nat.eq_of_testBit_eq
      intro j
      have := hz j
      simpa [Int.testBit] using this
    simp [hr0]
  · intro h hz
    have := key k
    rw [hz] at this
    simp [h] at this
    revert this
    simp [Int.testBit]

theorem land_RoleOwner (n : Int) : Int.land n RoleOwner ≠ 0 ↔ n.testBit 3 = true :=
  land_two_pow_ne_zero_iff n 3

theorem land_RoleAdmin (n : Int) : Int.land n RoleAdmin ≠ 0 ↔ n.testBit 2 = true :=
  land_two_pow_ne_zero_iff n 2

theorem land_RoleEditor (n : Int) : Int.land n RoleEditor ≠ 0 ↔ n.testBit 1 = true :=
  land_two_pow_ne_zero_iff n 1

/-- C1: for all integers `userFlags` and `requiredFlags`, `hasPermission` is true
exactly when `userFlags ≥ requiredFlags`; it is an ordinal comparison and not a
bitwise test (`4 & 2 = 0` while `hasPermission 4 2` holds), and
`hasPermission 4 2`, `¬ hasPermission 2 4`, `¬ hasPermission 6 8`. -/
theorem hasPermission_iff_ge :
    (∀ userFlags requiredFlags : Int,
        hasPermission userFlags requiredFlags = true ↔ userFlags ≥ requiredFlags) ∧
    hasPermission 4 2 = true ∧ Int.land 4 2 = 0 ∧
    hasPermission 2 4 = false ∧ hasPermission 6 8 = false := by
  refine ⟨fun u r => ?_, by decide, by decide, by decide, by decide⟩
  simp [hasPermission]

/-- C2: for every integer `flags`, `roleName flags` is "Owner" if the bit of
value 8 is set (`testBit 3`, whatever the other bits), otherwise "Admin" if the
bit of value 4 is set, otherwise "Editor" if the bit of value 2 is set,
otherwise "Viewer"; with the listed values at 8, 12, 2 and 0. -/
theorem roleName_highest_tier :
    (∀ flags : Int,
      roleName flags =
        if flags.testBit 3 = true then "Owner"
        else if flags.testBit 2 = true then "Admin"
        else if flags.testBit 1 = true then "Editor"
        else "Viewer") ∧
    roleName 8 = "Owner" ∧ roleName 12 = "Owner" ∧ roleName 2 = "Editor" ∧
    roleName 0 = "Viewer" := by
  refine ⟨fun flags => ?_, by decide, by decide, by decide, by decide⟩
  unfold roleName
  simp only [land_RoleOwner, land_RoleAdmin, land_RoleEditor]

/-! ## Theorems: membership resolver -/

theorem findProjectMember_isSome_iff (db : Database) (projectID userID : ObjectID) :
    (∃ pm ∈ db.project_members, pm.ProjectID = projectID ∧ pm.UserID = userID) ↔
      ∃ pm, findProjectMember db projectID userID = some pm := by
  unfold findProjectMember
  constructor
  · rintro ⟨pm, hmem, hp, hu⟩
    cases h : db.project_members.find?
        (fun m => decide (m.ProjectID = projectID ∧ m.UserID = userID)) with
    | some r => exact ⟨r, rfl⟩
    | none =>
      rw [List.find?_eq_none] at h
      have := h pm hmem
      simp [hp, hu] at this
  · rintro ⟨pm, h⟩
    have h1 := List.find?_some h
    have h2 := List.mem_of_find?_eq_some h
    simp at h1
    exact ⟨pm, h2, h1.1, h1.2⟩

theorem findProjectMember_none_of_absent (db : Database) (projectID userID : ObjectID)
    (h : ¬ ∃ pm ∈ db.project_members, pm.ProjectID = projectID ∧ pm.UserID = userID) :
    findProjectMember db projectID userID = none := by
  cases hf : findProjectMember db projectID userID with
  | none => rfl
  | some r => exact absurd ((findProjectMember_isSome_iff db projectID userID).2 ⟨r, hf⟩) h

/-- C3: if a ProjectMember row exists for (project, user), `getProjectRole`
returns the flags of the row the lookup finds, whatever the team_members
collection holds (and those flags are the flags of any such row when the rows for
the pair agree); if no such row exists and the project has a parent team,
`getProjectRole` returns exactly what `getTeamRole team user` returns, which is
the TeamMember flags when a row is found and the not-found error otherwise. -/
theorem getProjectRole_resolution (db : Database) (projectID userID : ObjectID) :
    ((∃ pm ∈ db.project_members, pm.ProjectID = projectID ∧ pm.UserID = userID) →
      ∃ pm ∈ db.project_members, pm.ProjectID = projectID ∧ pm.UserID = userID ∧
        findProjectMember db projectID userID = some pm ∧
        ∀ tms : List TeamMember,
          getProjectRole { db with team_members := tms } projectID userID
            = (pm.RoleFlags, none)) ∧
    (∀ pm ∈ db.project_members, pm.ProjectID = projectID → pm.UserID = userID →
      (∀ pm2 ∈ db.project_members, pm2.ProjectID = projectID → pm2.UserID = userID →
        pm2.RoleFlags = pm.RoleFlags) →
      getProjectRole db projectID userID = (pm.RoleFlags, none)) ∧
    ((¬ ∃ pm ∈ db.project_members, pm.ProjectID = projectID ∧ pm.UserID = userID) →
      ∀ project, findProject db projectID = some project →
        project.TeamID ≠ NilObjectID →
        getProjectRole db projectID userID = getTeamRole db project.TeamID userID ∧
        (∀ member, findTeamMember db project.TeamID userID = some member →
          getProjectRole db projectID userID = (member.RoleFlags, none)) ∧
        (findTeamMember db project.TeamID userID = none →
          getProjectRole db projectID userID = (0, some Error.ErrNoDocuments))) := by
  refine ⟨?_, ?_, ?_⟩
  · intro hex
    obtain ⟨pm, hpm⟩ := (findProjectMember_isSome_iff db projectID userID).1 hex
    have h1 := List.find?_some hpm
    have h2 := List.mem_of_find?_eq_some hpm
    simp at h1
    refine ⟨pm, h2, h1.1, h1.2, hpm, fun tms => ?_⟩
    have : findProjectMember { db with team_members := tms } projectID userID = some pm := hpm
    simp [getProjectRole, this]
  · intro pm hmem hp hu hagree
    obtain ⟨r, hr⟩ := (findProjectMember_isSome_iff db projectID userID).1 ⟨pm, hmem, hp, hu⟩
    have h1 := List.find?_some hr
    have h2 := List.mem_of_find?_eq_some hr
    simp at h1
    have := hagree r h2 h1.1 h1.2
    simp [getProjectRole, hr, this]
  · intro hno project hproj hteam
    have hnone := findProjectMember_none_of_absent db projectID userID hno
    have hmain : getProjectRole db projectID userID = getTeamRole db project.TeamID userID := by
      simp [getProjectRole, hnone, hproj, hteam]
    refine ⟨hmain, ?_, ?_⟩
    · intro member hm
      rw [hmain]; simp [getTeamRole, hm]
    · intro hm
      rw [hmain]; simp [getTeamRole, hm]

/-- C4: for a personal project (no parent team) and a user without a
ProjectMember row for it, `getProjectRole` returns `(0, ErrForbidden)`, whatever
team memberships the store holds; the returned role passes no permission check
for any tier from Viewer up. -/
theorem getProjectRole_personal_forbidden (db : Database) (projectID userID : ObjectID)
    (project : Project) (hproj : findProject db projectID = some project)
    (hpersonal : project.TeamID = NilObjectID)
    (hno : ¬ ∃ pm ∈ db.project_members, pm.ProjectID = projectID ∧ pm.UserID = userID) :
    getProjectRole db projectID userID = (0, some Error.ErrForbidden) ∧
    (∀ tms : List TeamMember,
      getProjectRole { db with team_members := tms } projectID userID
        = (0, some Error.ErrForbidden)) ∧
    (∀ required : Int, required ≥ RoleViewer →
      hasPermission (getProjectRole db projectID userID).1 required = false) := by
  have hnone := findProjectMember_none_of_absent db projectID userID hno
  have hall : ∀ tms : List TeamMember,
      getProjectRole { db with team_members := tms } projectID userID
        = (0, some Error.ErrForbidden) := by
    intro tms
    have h1 : findProjectMember { db with team_members := tms } projectID userID = none := hnone
    have h2 : findProject { db with team_members := tms } projectID = some project := hproj
    simp [getProjectRole, h1, h2, hpersonal]
  have hself : getProjectRole db projectID userID = (0, some Error.ErrForbidden) := by
    simp [getProjectRole, hnone, hproj, hpersonal]
  refine ⟨hself, hall, ?_⟩
  intro required hreq
  rw [hself]
  simp [hasPermission, RoleViewer] at *
  omega

/-- Instance of C3: user 1 has no row for project 5 and is Editor of its team, so
the effective role is 2. -/
theorem getProjectRole_resolution_witness :
    getProjectRole sampleDatabase ⟨5⟩ ⟨1⟩ = (2, none) :=
  ((getProjectRole_resolution sampleDatabase ⟨5⟩ ⟨1⟩).2.2 (by decide)
    sampleTeamProject (by decide) (by decide)).2.1 sampleTeamMember (by decide)

/-- Instance of C4: user 1 has no row for the personal project 6, although user 1
is a member of team 7. -/
theorem getProjectRole_personal_forbidden_witness :
    getProjectRole sampleDatabase ⟨6⟩ ⟨1⟩ = (0, some Error.ErrForbidden) :=
  (getProjectRole_personal_forbidden sampleDatabase ⟨6⟩ ⟨1⟩ samplePersonalProject
    (by decide) (by decide) (by decide)).1

/-! ## Theorems: room registry -/

theorem getChatRoom_eq_getRoom : getChatRoom = getRoom := rfl

theorem TeamChatWS.connect_reg (st : Registry) (c : Conn) (key : String) (token : Option String)
    (userName : String) :
    (TeamChatWS.connect st c key token userName).1
      = (WhiteboardWS.connect st c key token userName).1 ∧
    (TeamChatWS.connect st c key token userName).2.2
      = (WhiteboardWS.connect st c key token userName).2.2 := by
  cases token <;> exact ⟨rfl, rfl⟩

theorem TeamChatWS.onClose_reg (st : Registry) (s : Session) :
    (TeamChatWS.onClose st s).1 = (WhiteboardWS.onClose st s).1 := rfl

theorem TeamChatWS.step_eq (h : Hub) (e : Event) :
    TeamChatWS.step h e = WhiteboardWS.step h e := by
  cases e with
  | join key c userID userName => rfl
  | leave key c =>
    simp only [TeamChatWS.step, WhiteboardWS.step]
    cases h.sessions c <;> rfl

theorem TeamChatWS.run_eq (h : Hub) (evs : List Event) :
    TeamChatWS.run h evs = WhiteboardWS.run h evs := by
  induction evs generalizing h with
  | nil => rfl
  | cons e rest ih =>
    simp only [TeamChatWS.run, WhiteboardWS.run, List.foldl_cons] at ih ⊢
    rw [TeamChatWS.step_eq]
    exact ih _

theorem Inv.init : Inv Hub.init [] where
  nodup := by simp
  sess_live := by intro c s h; simp [Hub.init] at h
  live_sess := by intro c k h; simp at h
  room_members := by
    intro k p h
    simp [Hub.init, Registry.init] at h
  absent_empty := by intro k _ c; simp
  inj := by
    intro k1 k2 p h
    simp [Hub.init, Registry.init] at h

theorem live_key_unique {live : List (Conn × String)} (hn : (live.map Prod.fst).Nodup)
    {c : Conn} {k1 k2 : String} (h1 : (c, k1) ∈ live) (h2 : (c, k2) ∈ live) : k1 = k2 := by
  have := List.inj_on_of_nodup_map hn h1 h2 rfl
  exact (Prod.mk.inj this).2

theorem Inv.join_existing {h : Hub} {live : List (Conn × String)} (hI : Inv h live)
    (key : String) (c : Conn) (userID userName : String) (hc : c ∉ live.map Prod.fst)
    (p : RoomPtr) (hp : h.reg.m.lookup key = some p) :
    Inv (WhiteboardWS.step h (Event.join key c userID userName)) ((c, key) :: live) := by
  have hget : getRoom h.reg key = (h.reg, p) := by simp [getRoom, hp]
  have hfresh : ∀ k, (c, k) ∉ live := fun k hk => hc (List.mem_map_of_mem Prod.fst hk)
  have hreg : (WhiteboardWS.step h (Event.join key c userID userName)).reg
      = h.reg.register p c { conn := c, userID := userID, name := userName } := by
    simp [WhiteboardWS.step, WhiteboardWS.connect, hget]
  have hsess : (WhiteboardWS.step h (Event.join key c userID userName)).sessions
      = Function.update h.sessions c
          (some { c := c, key := key, userID := userID, userName := userName, room := p }) := by
    simp [WhiteboardWS.step, WhiteboardWS.connect, hget]
  constructor
  · simpa using ⟨fun k => hfresh k, hI.nodup⟩
  · intro c' s hs
    rw [hsess] at hs
    rw [hreg]
    by_cases hcc : c' = c
    · subst hcc
      simp at hs
      subst hs
      simp [Registry.register, hp]
    · rw [Function.update_noteq hcc] at hs
      obtain ⟨h1, h2, h3⟩ := hI.sess_live c' s hs
      exact ⟨h1, List.mem_cons_of_mem _ h2, by simpa [Registry.register] using h3⟩
  · intro c' k hk
    rw [hsess]
    rcases List.mem_cons.1 hk with heq | hmem
    · cases heq
      exact ⟨_, Function.update_same _ _ _, rfl⟩
    · have hcc : c' ≠ c := fun e => hfresh k (e ▸ hmem)
      rw [Function.update_noteq hcc]
      exact hI.live_sess c' k hmem
  · intro k p' hk
    rw [hreg] at hk ⊢
    simp only [Registry.register] at hk ⊢
    obtain ⟨h1, h2, h3⟩ := hI.room_members k p' hk
    refine ⟨h1, ?_, ?_⟩
    · intro c'
      by_cases hpp : p' = p
      · subst hpp
        have hkk : k = key := hI.inj k key p' hk hp
        subst hkk
        simp [AList.mem_insert, h2 c']
      · rw [Function.update_noteq hpp]
        have hkk : k ≠ key := fun e => hpp (by subst e; rw [hp] at hk; exact (Option.some.inj hk).symm)
        simp [h2 c', hkk]
    · obtain ⟨c0, hc0⟩ := h3
      exact ⟨c0, List.mem_cons_of_mem _ hc0⟩
  · intro k hk c' hmem
    rw [hreg] at hk
    simp only [Registry.register] at hk
    rcases List.mem_cons.1 hmem with heq | hmem
    · cases heq
      rw [hp] at hk; cases hk
    · exact hI.absent_empty k hk c' hmem
  · intro k1 k2 p' h1 h2
    rw [hreg] at h1 h2
    exact hI.inj k1 k2 p' h1 h2

theorem Inv.join_fresh {h : Hub} {live : List (Conn × String)} (hI : Inv h live)
    (key : String) (c : Conn) (userID userName : String) (hc : c ∉ live.map Prod.fst)
    (hp : h.reg.m.lookup key = none) :
    Inv (WhiteboardWS.step h (Event.join key c userID userName)) ((c, key) :: live) := by
  have hfresh : ∀ k, (c, k) ∉ live := fun k hk => hc (List.mem_map_of_mem Prod.fst hk)
  have hm : (WhiteboardWS.step h (Event.join key c userID userName)).reg.m
      = h.reg.m.insert key h.reg.next := by
    simp [WhiteboardWS.step, WhiteboardWS.connect, getRoom, hp, Registry.register]
  have hnext : (WhiteboardWS.step h (Event.join key c userID userName)).reg.next
      = h.reg.next + 1 := by
    simp [WhiteboardWS.step, WhiteboardWS.connect, getRoom, hp, Registry.register]
  have hheap : (WhiteboardWS.step h (Event.join key c userID userName)).reg.heap
      = Function.update h.reg.heap h.reg.next
          ⟨(∅ : AList (fun _ : Conn => wsClient)).insert c
            { conn := c, userID := userID, name := userName }⟩ := by
    simp [WhiteboardWS.step, WhiteboardWS.connect, getRoom, hp, Registry.register]
  have hsess : (WhiteboardWS.step h (Event.join key c userID userName)).sessions
      = Function.update h.sessions c
          (some { c := c, key := key, userID := userID, userName := userName,
                  room := h.reg.next }) := by
    simp [WhiteboardWS.step, WhiteboardWS.connect, getRoom, hp]
  have hlook : ∀ k, (h.reg.m.insert key h.reg.next).lookup k
      = if k = key then some h.reg.next else h.reg.m.lookup k := by
    intro k
    by_cases hk : k = key
    · subst hk; simp
    · simp [hk, AList.lookup_insert_ne hk]
  constructor
  · simpa using ⟨fun k => hfresh k, hI.nodup⟩
  · intro c' s hs
    rw [hsess] at hs
    rw [hm, hlook]
    by_cases hcc : c' = c
    · subst hcc
      simp at hs
      subst hs
      simp
    · rw [Function.update_noteq hcc] at hs
      obtain ⟨h1, h2, h3⟩ := hI.sess_live c' s hs
      have hkk : s.key ≠ key := fun e => by rw [e, hp] at h3; cases h3
      exact ⟨h1, List.mem_cons_of_mem _ h2, by simpa [hkk] using h3⟩
  · intro c' k hk
    rw [hsess]
    rcases List.mem_cons.1 hk with heq | hmem
    · cases heq
      exact ⟨_, Function.update_same _ _ _, rfl⟩
    · have hcc : c' ≠ c := fun e => hfresh k (e ▸ hmem)
      rw [Function.update_noteq hcc]
      exact hI.live_sess c' k hmem
  · intro k p' hk
    rw [hm, hlook] at hk
    rw [hnext, hheap]
    by_cases hkk : k = key
    · subst hkk
      simp at hk
      subst hk
      refine ⟨Nat.lt_succ_self _, ?_, ⟨c, List.mem_cons_self _ _⟩⟩
      intro c'
      simp only [Function.update_same, AList.mem_insert, List.mem_cons, Prod.mk.injEq]
      constructor
      · rintro (h1 | h1)
        · exact Or.inl ⟨h1, trivial⟩
        · exact absurd h1 (AList.not_mem_empty _)
      · rintro (h1 | h1)
        · exact Or.inl h1.1
        · exact absurd h1 (hI.absent_empty k hp c')
    · simp only [hkk, if_false] at hk
      obtain ⟨h1, h2, h3⟩ := hI.room_members k p' hk
      have hpp : p' ≠ h.reg.next := Nat.ne_of_lt h1
      refine ⟨Nat.lt_succ_of_lt h1, ?_, ?_⟩
      · intro c'
        rw [Function.update_noteq hpp]
        simp [h2 c', hkk]
      · obtain ⟨c0, hc0⟩ := h3
        exact ⟨c0, List.mem_cons_of_mem _ hc0⟩
  · intro k hk c' hmem
    rw [hm, hlook] at hk
    by_cases hkk : k = key
    · simp [hkk] at hk
    · simp only [hkk, if_false] at hk
      rcases List.mem_cons.1 hmem with heq | hmem
      · cases heq; exact hkk rfl
      · exact hI.absent_empty k hk c' hmem
  · intro k1 k2 p' h1 h2
    rw [hm, hlook] at h1 h2
    by_cases hk1 : k1 = key <;> by_cases hk2 : k2 = key
    · rw [hk1, hk2]
    · simp only [hk1, if_true] at h1
      simp only [hk2, if_false] at h2
      cases h1
      exact absurd (hI.room_members k2 _ h2).1 (Nat.lt_irrefl _)
    · simp only [hk2, if_true] at h2
      simp only [hk1, if_false] at h1
      cases h2
      exact absurd (hI.room_members k1 _ h1).1 (Nat.lt_irrefl _)
    · simp only [hk1, hk2, if_false] at h1 h2
      exact hI.inj k1 k2 p' h1 h2

theorem Inv.leave {h : Hub} {live : List (Conn × String)} (hI : Inv h live)
    (key : String) (c : Conn) (hc : (c, key) ∈ live) :
    Inv (WhiteboardWS.step h (Event.leave key c)) (live.erase (c, key)) := by
  classical
  obtain ⟨s, hs, hskey⟩ := hI.live_sess c key hc
  obtain ⟨hsc, -, hsroom⟩ := hI.sess_live c s hs
  rw [hskey] at hsroom
  obtain ⟨hplt, hpmem, -⟩ := hI.room_members key s.room hsroom
  have hLn : live.Nodup := List.Nodup.of_map _ hI.nodup
  have hmem' : ∀ c' k, (c', k) ∈ live.erase (c, key) ↔ c' ≠ c ∧ (c', k) ∈ live := by
    intro c' k
    rw [List.Nodup.mem_erase_iff hLn]
    constructor
    · rintro ⟨h1, h2⟩
      refine ⟨fun e => h1 ?_, h2⟩
      subst e
      rw [live_key_unique hI.nodup h2 hc]
    · rintro ⟨h1, h2⟩
      exact ⟨fun e => h1 (Prod.mk.inj e).1, h2⟩
  have hempty : ((h.reg.heap s.room).clients.erase c).keys.length = 0 ↔
      ∀ c', (c', key) ∈ live → c' = c := by
    rw [List.length_eq_zero]
    constructor
    · intro h0 c' hc'
      by_contra hne
      have : c' ∈ (h.reg.heap s.room).clients.erase c :=
        AList.mem_erase.2 ⟨hne, (hpmem c').2 hc'⟩
      rw [AList.mem_keys, h0] at this
      exact absurd this (List.not_mem_nil _)
    · intro hall
      apply List.eq_nil_iff_forall_not_mem.2
      intro c' hc'
      have := AList.mem_erase.1 (AList.mem_keys.2 hc')
      exact this.1 (hall c' ((hpmem c').1 this.2))
  have hsess : (WhiteboardWS.step h (Event.leave key c)).sessions
      = Function.update h.sessions c none := by
    simp [WhiteboardWS.step, hs]
  have hheap : (WhiteboardWS.step h (Event.leave key c)).reg.heap
      = Function.update h.reg.heap s.room ⟨(h.reg.heap s.room).clients.erase c⟩ := by
    simp only [WhiteboardWS.step, hs, WhiteboardWS.onClose, Registry.deregister, hsc]
    split <;> rfl
  have hnext : (WhiteboardWS.step h (Event.leave key c)).reg.next = h.reg.next := by
    simp only [WhiteboardWS.step, hs, WhiteboardWS.onClose, Registry.deregister, hsc]
    split <;> rfl
  have hlook : ∀ k, (WhiteboardWS.step h (Event.leave key c)).reg.m.lookup k
      = if (∀ c', (c', key) ∈ live → c' = c) ∧ k = key then none else h.reg.m.lookup k := by
    intro k
    simp only [WhiteboardWS.step, hs, WhiteboardWS.onClose, Registry.deregister, hsc, hskey]
    by_cases he : ((h.reg.heap s.room).clients.erase c).keys.length = 0
    · have he' := hempty.1 he
      simp only [he, decide_True, if_true, Registry.deleteEntry]
      by_cases hk : k = key
      · subst hk
        simp only [AList.lookup_erase, and_true]
        rw [if_pos he']
      · simp [hk, AList.lookup_erase_ne hk]
    · have he' : ¬ ∀ c', (c', key) ∈ live → c' = c := fun hh => he (hempty.2 hh)
      simp only [he, decide_False, he', false_and, if_false]
      rfl
  have hother : ∀ {k p'}, h.reg.m.lookup k = some p' → k ≠ key → p' ≠ s.room := by
    intro k p' hk hne e
    subst e
    exact hne (hI.inj k key _ hk hsroom)
  constructor
  · exact List.Nodup.sublist ((List.erase_sublist _ _).map _) hI.nodup
  · intro c' s' hs'
    rw [hsess] at hs'
    have hcc : c' ≠ c := by
      intro e; subst e; simp at hs'
    rw [Function.update_noteq hcc] at hs'
    obtain ⟨h1, h2, h3⟩ := hI.sess_live c' s' hs'
    refine ⟨h1, (hmem' _ _).2 ⟨hcc, h2⟩, ?_⟩
    rw [hlook]
    have : ¬ ((∀ c', (c', key) ∈ live → c' = c) ∧ s'.key = key) := by
      rintro ⟨hall, hk⟩
      exact hcc (hall c' (hk ▸ h2))
    simp [this, h3]
  · intro c' k hk
    obtain ⟨hcc, hk'⟩ := (hmem' _ _).1 hk
    rw [hsess, Function.update_noteq hcc]
    exact hI.live_sess c' k hk'
  · intro k p' hk
    rw [hlook] at hk
    rw [hnext, hheap]
    by_cases hcond : (∀ c', (c', key) ∈ live → c' = c) ∧ k = key
    · rw [if_pos hcond] at hk; cases hk
    · simp only [hcond, if_false] at hk
      obtain ⟨h1, h2, h3⟩ := hI.room_members k p' hk
      refine ⟨h1, ?_, ?_⟩
      · intro c'
        by_cases hkk : k = key
        · subst hkk
          have hpp : p' = s.room := by rw [hsroom] at hk; exact (Option.some.inj hk).symm
          subst hpp
          rw [Function.update_same, hmem']
          show c' ∈ (h.reg.heap s.room).clients.erase c ↔ _
          rw [AList.mem_erase, h2 c']
        · rw [Function.update_noteq (hother hk hkk), h2 c', hmem']
          constructor
          · intro hm
            refine ⟨fun e => hkk ?_, hm⟩
            subst e
            exact live_key_unique hI.nodup hm hc
          · exact fun hm => hm.2
      · by_cases hkk : k = key
        · subst hkk
          have hne : ¬ ∀ c', (c', k) ∈ live → c' = c := fun hh => hcond ⟨hh, rfl⟩
          push_neg at hne
          obtain ⟨c0, hc0, hc0ne⟩ := hne
          exact ⟨c0, (hmem' _ _).2 ⟨hc0ne, hc0⟩⟩
        · obtain ⟨c0, hc0⟩ := h3
          refine ⟨c0, (hmem' _ _).2 ⟨fun e => hkk ?_, hc0⟩⟩
          subst e
          exact live_key_unique hI.nodup hc0 hc
  · intro k hk c' hmem
    rw [hlook] at hk
    obtain ⟨hcc, hmem2⟩ := (hmem' _ _).1 hmem
    by_cases hcond : (∀ c', (c', key) ∈ live → c' = c) ∧ k = key
    · obtain ⟨hall, hkk⟩ := hcond
      subst hkk
      exact hcc (hall c' hmem2)
    · simp only [hcond, if_false] at hk
      exact hI.absent_empty k hk c' hmem2
  · intro k1 k2 p' h1 h2
    rw [hlook] at h1 h2
    by_cases hc1 : (∀ c', (c', key) ∈ live → c' = c) ∧ k1 = key
    · rw [if_pos hc1] at h1; cases h1
    · by_cases hc2 : (∀ c', (c', key) ∈ live → c' = c) ∧ k2 = key
      · rw [if_pos hc2] at h2; cases h2
      · simp only [hc1, hc2, if_false] at h1 h2
        exact hI.inj k1 k2 p' h1 h2

theorem Inv.step {h : Hub} {live : List (Conn × String)} (hI : Inv h live) (e : Event)
    (ha : admissible live e = true) :
    Inv (WhiteboardWS.step h e) (liveStep live e) := by
  cases e with
  | join key c userID userName =>
    have hc : c ∉ live.map Prod.fst := by simpa [admissible] using ha
    cases hp : h.reg.m.lookup key with
    | none => exact hI.join_fresh key c userID userName hc hp
    | some p => exact hI.join_existing key c userID userName hc p hp
  | leave key c =>
    have hc : (c, key) ∈ live := by simpa [admissible] using ha
    exact hI.leave key c hc

theorem Inv.run {h : Hub} {live : List (Conn × String)} (hI : Inv h live) (evs : List Event)
    (hw : wellFormedFrom live evs = true) :
    Inv (WhiteboardWS.run h evs) (liveAfter live evs) := by
  induction evs generalizing h live with
  | nil => exact hI
  | cons e rest ih =>
    simp only [wellFormedFrom, Bool.and_eq_true] at hw
    exact ih (hI.step e hw.1) hw.2

theorem wellFormedFrom_take (live : List (Conn × String)) (evs : List Event) (n : Nat)
    (hw : wellFormedFrom live evs = true) : wellFormedFrom live (evs.take n) = true := by
  induction evs generalizing live n with
  | nil => simp [wellFormedFrom]
  | cons e rest ih =>
    cases n with
    | zero => simp [wellFormedFrom]
    | succ n =>
      simp only [wellFormedFrom, Bool.and_eq_true, List.take_succ_cons] at hw ⊢
      exact ⟨hw.1, ih _ n hw.2⟩

theorem countP_erase_of_mem {α : Type} [BEq α] [LawfulBEq α] (p : α → Bool) (l : List α)
    (a : α) (ha : a ∈ l) : (l.erase a).countP p + (if p a then 1 else 0) = l.countP p := by
  induction l with
  | nil => simp at ha
  | cons b t ih =>
    by_cases hb : b = a
    · subst hb
      simp [List.countP_cons]
    · have hat : a ∈ t := by
        rcases List.mem_cons.1 ha with h | h
        · exact absurd h.symm hb
        · exact h
      have hbeq : (b == a) = false := by simpa using hb
      rw [List.erase_cons, hbeq]
      simp only [Bool.false_eq_true, if_false, List.countP_cons]
      have := ih hat
      omega

theorem countP_liveAfter (key : String) (live : List (Conn × String)) (evs : List Event)
    (hw : wellFormedFrom live evs = true) :
    (liveAfter live evs).countP (fun e => decide (e.2 = key)) + numLeaves key evs
      = live.countP (fun e => decide (e.2 = key)) + numJoins key evs := by
  induction evs generalizing live with
  | nil => simp [liveAfter, numLeaves, numJoins]
  | cons e rest ih =>
    simp only [wellFormedFrom, Bool.and_eq_true] at hw
    have := ih _ hw.2
    simp only [liveAfter, List.foldl_cons] at this ⊢
    cases e with
    | join k c userID userName =>
      simp only [liveStep, List.countP_cons, numJoins, numLeaves] at this ⊢
      by_cases hk : k = key <;> simp [hk] at this ⊢ <;> omega
    | leave k c =>
      have hc : (c, k) ∈ live := by simpa [admissible] using hw.1
      have he := countP_erase_of_mem (fun e => decide (e.2 = key)) live (c, k) hc
      simp only [liveStep, numJoins, numLeaves] at this ⊢
      by_cases hk : k = key
      · subst hk
        simp only [decide_True, if_true] at he ⊢
        omega
      · simp only [hk, decide_False, if_false] at he ⊢
        have he2 : List.countP (fun e => decide (e.2 = key)) (live.erase (c, k))
            = List.countP (fun e => decide (e.2 = key)) live := by simpa using he
        omega

theorem present_length (key : String) (evs : List Event) (hw : wellFormed evs = true) :
    (present key evs).length + numLeaves key evs = numJoins key evs := by
  have := countP_liveAfter key [] evs hw
  simpa [present, List.countP_eq_length_filter] using this

theorem mem_present_iff (key : String) (evs : List Event) (c : Conn) :
    c ∈ present key evs ↔ (c, key) ∈ liveAfter [] evs := by
  simp [present]

/-- After a well-formed sequence of whiteboard events from process start: the
registry holds `key` exactly when some connection is present on it, and the room
registered under `key` holds exactly the present connections. -/
theorem registry_after_run (evs : List Event) (hw : wellFormed evs = true) (key : String) :
    (key ∈ (WhiteboardWS.run Hub.init evs).reg.m ↔ present key evs ≠ []) ∧
    roomSize (WhiteboardWS.run Hub.init evs).reg key
      = if present key evs = [] then none else some (present key evs).length := by
  have hI := Inv.init.run evs hw
  have hnd : (present key evs).Nodup := by
    unfold present
    exact List.Nodup.sublist ((List.filter_sublist _).map _) hI.nodup
  cases hp : (WhiteboardWS.run Hub.init evs).reg.m.lookup key with
  | none =>
    have hnone : present key evs = [] := by
      apply List.eq_nil_iff_forall_not_mem.2
      intro c hc
      exact hI.absent_empty key hp c ((mem_present_iff key evs c).1 hc)
    have hnot : key ∉ (WhiteboardWS.run Hub.init evs).reg.m := AList.lookup_eq_none.1 hp
    simp [hnone, hnot, roomSize, hp]
  | some p =>
    obtain ⟨-, hmem, c0, hc0⟩ := hI.room_members key p hp
    have hne : present key evs ≠ [] := by
      intro e
      have := (mem_present_iff key evs c0).2 hc0
      rw [e] at this
      exact absurd this (List.not_mem_nil _)
    have hin : key ∈ (WhiteboardWS.run Hub.init evs).reg.m := by
      rw [← AList.lookup_isSome, hp]; rfl
    have hlen : ((WhiteboardWS.run Hub.init evs).reg.heap p).clients.keys.length
        = (present key evs).length := by
      apply List.Perm.length_eq
      rw [List.perm_ext_iff_of_nodup (AList.keys_nodup _) hnd]
      intro c
      rw [← AList.mem_keys, hmem c, mem_present_iff]
    simp [hne, hin, roomSize, hp, hlen]

/-- C5: for every sequence of successful joins and matching leaves executed one
at a time (each join with a handle not currently joined, each leave the leave of
a connection joined on that key), after every step the whiteboard registry and
the chat registry contain a key exactly when at least one connection joined on
it has not yet left; once every join on the key has been matched by a leave, the
registries no longer contain the key. -/
theorem registry_contains_key_iff_present (evs : List Event) (hw : wellFormed evs = true)
    (n : Nat) (key : String) :
    (key ∈ (WhiteboardWS.run Hub.init (evs.take n)).reg.m ↔ present key (evs.take n) ≠ []) ∧
    (key ∈ (TeamChatWS.run Hub.init (evs.take n)).reg.m ↔ present key (evs.take n) ≠ []) ∧
    (numLeaves key evs = numJoins key evs →
      key ∉ (WhiteboardWS.run Hub.init evs).reg.m ∧
      key ∉ (TeamChatWS.run Hub.init evs).reg.m) := by
  have hwn : wellFormed (evs.take n) = true := wellFormedFrom_take [] evs n hw
  have h1 := (registry_after_run (evs.take n) hwn key).1
  refine ⟨h1, ?_, ?_⟩
  · rw [TeamChatWS.run_eq]; exact h1
  · intro heq
    have hlen := present_length key evs hw
    have hnil : present key evs = [] := List.length_eq_zero.1 (by omega)
    have h2 := (registry_after_run evs hw key).1
    have hnot : key ∉ (WhiteboardWS.run Hub.init evs).reg.m := fun hin => (h2.1 hin) hnil
    refine ⟨hnot, ?_⟩
    rw [TeamChatWS.run_eq]; exact hnot

/-- Instance of C5: two joins on board "b1" and the two matching leaves; the key
is gone after the last leave. -/
theorem registry_contains_key_iff_present_witness :
    "b1" ∉ (WhiteboardWS.run Hub.init sampleEvents).reg.m :=
  ((registry_contains_key_iff_present sampleEvents (by decide) 4 "b1").2.2 (by decide)).1

/-- C6: for every sequence of joins and leaves executed one at a time (each join
with a handle not currently joined, each leave following its own join), after
every step the room registered under a key, in the whiteboard and in the chat
registry, holds as many clients as there were joins minus leaves on that key so
far; no room is registered under the key when that difference is zero. -/
theorem room_size_eq_joins_minus_leaves (evs : List Event) (hw : wellFormed evs = true)
    (n : Nat) (key : String) :
    numLeaves key (evs.take n) ≤ numJoins key (evs.take n) ∧
    (∀ room, (WhiteboardWS.run Hub.init (evs.take n)).reg.m.lookup key = some room →
      ((WhiteboardWS.run Hub.init (evs.take n)).reg.heap room).clients.keys.length
        = numJoins key (evs.take n) - numLeaves key (evs.take n)) ∧
    (∀ room, (TeamChatWS.run Hub.init (evs.take n)).reg.m.lookup key = some room →
      ((TeamChatWS.run Hub.init (evs.take n)).reg.heap room).clients.keys.length
        = numJoins key (evs.take n) - numLeaves key (evs.take n)) ∧
    roomSize (WhiteboardWS.run Hub.init (evs.take n)).reg key
      = (if numJoins key (evs.take n) = numLeaves key (evs.take n) then none
         else some (numJoins key (evs.take n) - numLeaves key (evs.take n))) ∧
    roomSize (TeamChatWS.run Hub.init (evs.take n)).reg key
      = (if numJoins key (evs.take n) = numLeaves key (evs.take n) then none
         else some (numJoins key (evs.take n) - numLeaves key (evs.take n))) := by
  have hwn : wellFormed (evs.take n) = true := wellFormedFrom_take [] evs n hw
  have hlen := present_length key (evs.take n) hwn
  have hsize := (registry_after_run (evs.take n) hwn key).2
  have hsize' : roomSize (WhiteboardWS.run Hub.init (evs.take n)).reg key
      = (if numJoins key (evs.take n) = numLeaves key (evs.take n) then none
         else some (numJoins key (evs.take n) - numLeaves key (evs.take n))) := by
    rw [hsize]
    by_cases hnil : present key (evs.take n) = []
    · have h0 : (present key (evs.take n)).length = 0 := by rw [hnil]; rfl
      have heq : numJoins key (evs.take n) = numLeaves key (evs.take n) := by omega
      simp [hnil, heq]
    · have hpos : 0 < (present key (evs.take n)).length := List.length_pos.2 hnil
      have hne : numJoins key (evs.take n) ≠ numLeaves key (evs.take n) := by omega
      have hl : (present key (evs.take n)).length
          = numJoins key (evs.take n) - numLeaves key (evs.take n) := by omega
      simp [hnil, hne, hl]
  have hroom : ∀ room, (WhiteboardWS.run Hub.init (evs.take n)).reg.m.lookup key = some room →
      ((WhiteboardWS.run Hub.init (evs.take n)).reg.heap room).clients.keys.length
        = numJoins key (evs.take n) - numLeaves key (evs.take n) := by
    intro room hroom
    have := hsize'
    simp only [roomSize, hroom, Option.map_some'] at this
    by_cases heq : numJoins key (evs.take n) = numLeaves key (evs.take n)
    · simp [heq] at this
    · simp only [heq, if_false] at this
      exact Option.some.inj this
  refine ⟨by omega, hroom, ?_, hsize', ?_⟩
  · rw [TeamChatWS.run_eq]; exact hroom
  · rw [TeamChatWS.run_eq]; exact hsize'

/-- Instance of C6: after two joins and one leave on board "b1" the room holds
one client. -/
theorem room_size_eq_joins_minus_leaves_witness :
    roomSize (WhiteboardWS.run Hub.init (sampleEvents.take 3)).reg "b1" = some 1 :=
  ((room_size_eq_joins_minus_leaves sampleEvents (by decide) 3 "b1").2.2.2.1).trans
    (by decide)

/-! ## Theorems: broadcasts -/

theorem framesTo_map_write (l : List Conn) (hn : l.Nodup) (msg : Frame) (c : Conn) :
    framesTo c (l.map (fun conn => Effect.write conn msg)) = if c ∈ l then [msg] else [] := by
  induction l with
  | nil => simp [framesTo]
  | cons a t ih =>
    have hat : a ∉ t := (List.nodup_cons.1 hn).1
    have ht := ih (List.nodup_cons.1 hn).2
    simp only [List.map_cons, framesTo, List.mem_cons]
    by_cases hac : a = c
    · subst hac
      simp [ht, hat]
    · have hca : ¬ c = a := fun e => hac e.symm
      simp [hac, hca, ht]

theorem inserts_map_write (l : List Conn) (msg : Frame) :
    inserts (l.map (fun conn => Effect.write conn msg)) = [] := by
  induction l with
  | nil => rfl
  | cons a t ih => simpa [inserts] using ih

theorem framesTo_broadcast (r : whiteboardRoom) (sender : Option Conn) (msg : Frame)
    (c : Conn) :
    framesTo c (r.broadcast sender msg)
      = if c ∈ r.clients ∧ some c ≠ sender then [msg] else [] := by
  unfold whiteboardRoom.broadcast
  rw [framesTo_map_write _ ((AList.keys_nodup _).filter _)]
  simp [AList.mem_keys]

theorem framesTo_chat_broadcast (r : chatRoom) (sender : Option Conn) (msg : Frame)
    (c : Conn) :
    framesTo c (chatRoom.broadcast r sender msg)
      = if c ∈ r.clients ∧ some c ≠ sender then [msg] else [] :=
  framesTo_broadcast r sender msg c

theorem framesTo_broadcastAll (r : chatRoom) (msg : Frame) (c : Conn) :
    framesTo c (chatRoom.broadcastAll r msg) = if c ∈ r.clients then [msg] else [] := by
  unfold chatRoom.broadcastAll
  rw [framesTo_map_write _ (AList.keys_nodup _)]
  simp [AList.mem_keys]

/-- C8: for every inbound whiteboard frame that parses to a JSON object, every
frame the relay writes carries one and the same object, in which `user_id` is
the sender's authenticated user id, `name` the connect-time display name, and
every other key has the value (or absence) it has in the parsed object. -/
theorem relay_overwrites_identity (st : Registry) (s : Session) (incoming : JsonObject) :
    ∃ out : JsonObject,
      WhiteboardWS.onFrame st s (wsParsed.object incoming)
        = Except.ok ((st.heap s.room).broadcast (some s.c) (Frame.relay out)) ∧
      (∀ e ∈ (st.heap s.room).broadcast (some s.c) (Frame.relay out),
        ∃ conn, e = Effect.write conn (Frame.relay out)) ∧
      out.lookup "user_id" = some (JsonValue.str s.userID) ∧
      out.lookup "name" = some (JsonValue.str s.userName) ∧
      (∀ k, k ≠ "user_id" → k ≠ "name" → out.lookup k = incoming.lookup k) := by
  refine ⟨_, rfl, ?_, ?_, ?_, ?_⟩
  · intro e he
    simp only [whiteboardRoom.broadcast, List.mem_map] at he
    obtain ⟨conn, -, rfl⟩ := he
    exact ⟨conn, rfl⟩
  · rw [AList.lookup_insert_ne (by decide), AList.lookup_insert]
  · rw [AList.lookup_insert]
  · intro k h1 h2
    rw [AList.lookup_insert_ne h2, AList.lookup_insert_ne h1]
/-! ## Theorems: chat messages -/

theorem utf8ByteSize_go_eq_sum (l : List Char) :
    String.utf8ByteSize.go l = (l.map Char.utf8Size).sum := by
  induction l with
  | nil => rfl
  | cons c t ih =>
    show String.utf8ByteSize.go t + c.utf8Size = _
    rw [ih, List.map_cons, List.sum_cons, Nat.add_comm]

theorem utf8ByteSize_eq_sum (s : String) :
    s.utf8ByteSize = (s.data.map Char.utf8Size).sum := by
  cases s with
  | mk l => exact utf8ByteSize_go_eq_sum l

theorem utf8ByteSize_replicate (n : Nat) (c : Char) :
    (String.mk (List.replicate n c)).utf8ByteSize = n * c.utf8Size := by
  rw [utf8ByteSize_eq_sum]
  simp [List.sum_replicate]

theorem utf8ByteSize_of_ascii (s : String) (h : ∀ ch ∈ s.data, ch.toNat < 128) :
    s.utf8ByteSize = s.length := by
  rw [utf8ByteSize_eq_sum]
  cases s with
  | mk l =>
    simp only [String.length] at *
    induction l with
    | nil => rfl
    | cons c t ih =>
      have hc : c.utf8Size = 1 := by
        have := h c (List.mem_cons_self _ _)
        have h2 : c.val.toNat < 128 := this
        simp only [Char.utf8Size]
        have h3 : c.val ≤ 127 := by
          rw [UInt32.le_def]
          show c.val.toNat ≤ 127
          omega
        simp [h3]
      have := ih (fun ch hch => h ch (List.mem_cons_of_mem _ hch))
      simp [hc, this]
      omega

theorem TrimSpace_replicate (n : Nat) (c : Char) (hc : isSpace c = false) :
    TrimSpace (String.mk (List.replicate n c)) = String.mk (List.replicate n c) := by
  have h1 : (List.replicate n c).dropWhile isSpace = List.replicate n c := by
    cases n with
    | zero => rfl
    | succ n => simp [List.replicate_succ, List.dropWhile_cons, hc]
  have h2 : (List.replicate n c).rdropWhile isSpace = List.replicate n c := by
    rw [List.rdropWhile_eq_self_iff]
    intro hl
    have := List.getLast_mem hl
    rw [List.eq_of_mem_replicate this, hc]
    simp
  simp [TrimSpace, h1, h2]

theorem TeamChatWS.onFrame_message (st : Registry) (db : Database) (s : Session)
    (incoming : chatIncoming) (newID : ObjectID) (now : Time) (outcome : InsertOutcome)
    (teamOID userOID : ObjectID)
    (hteam : ObjectIDFromHex s.key = some teamOID)
    (huser : ObjectIDFromHex s.userID = some userOID)
    (htype : incoming.type = "message") :
    TeamChatWS.onFrame st db s (some incoming) newID now outcome =
      if TrimSpace incoming.content = "" ∨ (TrimSpace incoming.content).utf8ByteSize > 5000
      then (db, [])
      else
        (InsertOne db
          { ID := newID, TeamID := teamOID, UserID := userOID, UserName := s.userName,
            Content := TrimSpace incoming.content, ReplyTo := none, EditedAt := none,
            Deleted := false, CreatedAt := now } outcome,
         Effect.insertOne
          { ID := newID, TeamID := teamOID, UserID := userOID, UserName := s.userName,
            Content := TrimSpace incoming.content, ReplyTo := none, EditedAt := none,
            Deleted := false, CreatedAt := now } ::
          chatRoom.broadcastAll (st.heap s.room) (Frame.message
            { ID := newID, TeamID := teamOID, UserID := userOID, UserName := s.userName,
              Content := TrimSpace incoming.content, ReplyTo := none, EditedAt := none,
              Deleted := false, CreatedAt := now })) := by
  simp only [TeamChatWS.onFrame, htype, if_true, hteam, huser]

/-- C9, as the code has it: for a chat session whose team id and user id are
valid object ids and whose connection is registered in its room, a frame of type
"message" is accepted (one persistence call, and a "message" event reaches the
sender) if and only if its trimmed content is non-empty and at most 5000 bytes
long in UTF-8; otherwise nothing is persisted or sent. For content made of
ASCII characters the byte length is the number of characters. -/
theorem chat_message_accepted_iff_bytes (st : Registry) (db : Database) (s : Session)
    (incoming : chatIncoming) (newID : ObjectID) (now : Time) (outcome : InsertOutcome)
    (teamOID userOID : ObjectID)
    (hteam : ObjectIDFromHex s.key = some teamOID)
    (huser : ObjectIDFromHex s.userID = some userOID)
    (htype : incoming.type = "message")
    (hreg : s.c ∈ (st.heap s.room).clients) :
    ((inserts (TeamChatWS.onFrame st db s (some incoming) newID now outcome).2 ≠ [] ∧
      framesTo s.c (TeamChatWS.onFrame st db s (some incoming) newID now outcome).2 ≠ []) ↔
      (TrimSpace incoming.content ≠ "" ∧
        (TrimSpace incoming.content).utf8ByteSize ≤ 5000)) ∧
    (¬ (TrimSpace incoming.content ≠ "" ∧
        (TrimSpace incoming.content).utf8ByteSize ≤ 5000) →
      TeamChatWS.onFrame st db s (some incoming) newID now outcome = (db, [])) ∧
    ((∀ ch ∈ (TrimSpace incoming.content).data, ch.toNat < 128) →
      (TrimSpace incoming.content).utf8ByteSize = (TrimSpace incoming.content).length) := by
  have hform := TeamChatWS.onFrame_message st db s incoming newID now outcome teamOID userOID
    hteam huser htype
  refine ⟨?_, ?_, utf8ByteSize_of_ascii _⟩
  · by_cases hcond : TrimSpace incoming.content = "" ∨
        (TrimSpace incoming.content).utf8ByteSize > 5000
    · rw [hform, if_pos hcond]
      simp only [inserts, framesTo, ne_eq, not_true_eq_false, false_and, false_iff, not_and,
        Nat.not_le]
      intro hne
      rcases hcond with h | h
      · exact absurd h hne
      · exact h
    · rw [hform, if_neg hcond]
      have hc2 : TrimSpace incoming.content ≠ "" ∧
          (TrimSpace incoming.content).utf8ByteSize ≤ 5000 := by
        push_neg at hcond
        exact ⟨hcond.1, hcond.2⟩
      simp only [inserts, framesTo, framesTo_broadcastAll, hreg, if_true, ne_eq,
        List.cons_ne_nil, not_false_eq_true, and_self, true_iff]
      exact hc2
  · intro hn
    have hcond : TrimSpace incoming.content = "" ∨
        (TrimSpace incoming.content).utf8ByteSize > 5000 := by
      by_contra hc
      push_neg at hc
      exact hn ⟨hc.1, hc.2⟩
    rw [hform, if_pos hcond]

/-- Instance of C9: "hello" sent by the registered connection 1 is accepted. -/
theorem chat_message_accepted_iff_bytes_witness :
    inserts (TeamChatWS.onFrame sampleChatRegistry sampleDatabase sampleChatSession
        (some { type := "message", content := " hello " }) ⟨500⟩ 7
        InsertOutcome.inserted).2 ≠ [] ∧
    framesTo sampleChatSession.c (TeamChatWS.onFrame sampleChatRegistry sampleDatabase
        sampleChatSession (some { type := "message", content := " hello " }) ⟨500⟩ 7
        InsertOutcome.inserted).2 ≠ [] :=
  ((chat_message_accepted_iff_bytes sampleChatRegistry sampleDatabase sampleChatSession
      { type := "message", content := " hello " } ⟨500⟩ 7 InsertOutcome.inserted
      ⟨0x0123456789abcdef01234567⟩ ⟨0xaaaaaaaaaaaaaaaaaaaaaaaa⟩
      (by decide) (by decide) rfl (by decide)).1).2 (by decide)

/-- C9 as stated fails: a message of 2000 characters (euro signs, 6000 bytes),
sent in a session with valid ids by a connection registered in its room, is
non-empty after trimming and at most 5000 characters long, yet it is dropped
with no persistence call and no broadcast. -/
theorem chat_message_char_limit_counterexample :
    ObjectIDFromHex sampleChatSession.key ≠ none ∧
    ObjectIDFromHex sampleChatSession.userID ≠ none ∧
    sampleChatSession.c ∈ (sampleChatRegistry.heap sampleChatSession.room).clients ∧
    TrimSpace wideContent ≠ "" ∧ (TrimSpace wideContent).length ≤ 5000 ∧
    TeamChatWS.onFrame sampleChatRegistry sampleDatabase sampleChatSession
      (some { type := "message", content := wideContent }) ⟨500⟩ 7 InsertOutcome.inserted
      = (sampleDatabase, []) := by
  have htrim : TrimSpace wideContent = wideContent :=
    TrimSpace_replicate 2000 (Char.ofNat 0x20AC) (by decide)
  have hsize : wideContent.utf8ByteSize = 6000 := by
    have := utf8ByteSize_replicate 2000 (Char.ofNat 0x20AC)
    have h3 : (Char.ofNat 0x20AC).utf8Size = 3 := by decide
    rw [h3] at this
    exact this
  have hlen : wideContent.length = 2000 :=
    List.length_replicate 2000 (Char.ofNat 0x20AC)
  refine ⟨by decide, by decide, by decide, ?_, ?_, ?_⟩
  · rw [htrim]
    intro h
    have := congrArg String.length h
    rw [hlen] at this
    simp at this
  · rw [htrim, hlen]; omega
  · have hform := TeamChatWS.onFrame_message sampleChatRegistry sampleDatabase
      sampleChatSession { type := "message", content := wideContent } ⟨500⟩ 7
      InsertOutcome.inserted ⟨0x0123456789abcdef01234567⟩ ⟨0xaaaaaaaaaaaaaaaaaaaaaaaa⟩
      (by decide) (by decide) rfl
    rw [hform, if_pos]
    right
    show (TrimSpace wideContent).utf8ByteSize > 5000
    rw [htrim, hsize]
    omega

/-- C10: for every accepted chat message (type "message", valid ids, trimmed
content non-empty and at most 5000 bytes) there is one record, carrying the
object id of the room's team, the object id of the sender's authenticated user
id, the connect-time display name and the trimmed content, such that for every
outcome of the persistence call the handler makes one insert of that record and
writes exactly one "message" frame with that record to every connection
registered in the room (the sender included when registered) and nothing to any
other connection; only the store depends on the outcome. -/
theorem chat_message_reaches_all (st : Registry) (db : Database) (s : Session)
    (incoming : chatIncoming) (newID : ObjectID) (now : Time)
    (teamOID userOID : ObjectID)
    (hteam : ObjectIDFromHex s.key = some teamOID)
    (huser : ObjectIDFromHex s.userID = some userOID)
    (htype : incoming.type = "message")
    (hcontent : TrimSpace incoming.content ≠ "" ∧
      (TrimSpace incoming.content).utf8ByteSize ≤ 5000) :
    ∃ chatMsg : ChatMessage,
      chatMsg.ID = newID ∧ chatMsg.TeamID = teamOID ∧ chatMsg.UserID = userOID ∧
      chatMsg.UserName = s.userName ∧ chatMsg.Content = TrimSpace incoming.content ∧
      chatMsg.CreatedAt = now ∧
      (∀ outcome : InsertOutcome,
        (TeamChatWS.onFrame st db s (some incoming) newID now outcome).2
          = Effect.insertOne chatMsg ::
              chatRoom.broadcastAll (st.heap s.room) (Frame.message chatMsg) ∧
        inserts (TeamChatWS.onFrame st db s (some incoming) newID now outcome).2
          = [chatMsg] ∧
        (∀ conn, conn ∈ (st.heap s.room).clients →
          framesTo conn (TeamChatWS.onFrame st db s (some incoming) newID now outcome).2
            = [Frame.message chatMsg]) ∧
        (s.c ∈ (st.heap s.room).clients →
          framesTo s.c (TeamChatWS.onFrame st db s (some incoming) newID now outcome).2
            = [Frame.message chatMsg]) ∧
        (∀ conn, conn ∉ (st.heap s.room).clients →
          framesTo conn (TeamChatWS.onFrame st db s (some incoming) newID now outcome).2
            = [])) ∧
      (TeamChatWS.onFrame st db s (some incoming) newID now InsertOutcome.inserted).1
        = { db with chat_messages := db.chat_messages ++ [chatMsg] } ∧
      (TeamChatWS.onFrame st db s (some incoming) newID now InsertOutcome.failed).1 = db ∧
      (TeamChatWS.onFrame st db s (some incoming) newID now InsertOutcome.timedOut).1 = db := by
  have hcond : ¬ (TrimSpace incoming.content = "" ∨
      (TrimSpace incoming.content).utf8ByteSize > 5000) := by
    rintro (h | h)
    · exact hcontent.1 h
    · exact absurd hcontent.2 (by omega)
  have hform : ∀ outcome, _ := fun outcome =>
    TeamChatWS.onFrame_message st db s incoming newID now outcome teamOID userOID
      hteam huser htype
  refine ⟨{ ID := newID, TeamID := teamOID, UserID := userOID, UserName := s.userName,
            Content := TrimSpace incoming.content, ReplyTo := none, EditedAt := none,
            Deleted := false, CreatedAt := now }, rfl, rfl, rfl, rfl, rfl, rfl, ?_, ?_, ?_, ?_⟩
  · intro outcome
    rw [hform outcome, if_neg hcond]
    refine ⟨rfl, ?_, ?_, ?_, ?_⟩
    · simp only [inserts, chatRoom.broadcastAll, inserts_map_write]
    · intro conn hin
      simp only [framesTo, framesTo_broadcastAll, hin, if_true]
    · intro hin
      simp only [framesTo, framesTo_broadcastAll, hin, if_true]
    · intro conn hnot
      simp only [framesTo, framesTo_broadcastAll, hnot, if_false]
  · rw [hform, if_neg hcond]; rfl
  · rw [hform, if_neg hcond]; rfl
  · rw [hform, if_neg hcond]; rfl

/-- Instance of C10: "hello" sent by connection 1 comes back to connection 1
although the insert timed out. -/
theorem chat_message_reaches_all_witness :
    ∃ chatMsg : ChatMessage, chatMsg.Content = "hello" ∧ chatMsg.UserName = "Alice" ∧
      framesTo 1 (TeamChatWS.onFrame sampleChatRegistry sampleDatabase sampleChatSession
        (some { type := "message", content := " hello " }) ⟨500⟩ 7
        InsertOutcome.timedOut).2 = [Frame.message chatMsg] := by
  obtain ⟨chatMsg, -, -, -, hname, hcontent, -, hall, -⟩ :=
    chat_message_reaches_all sampleChatRegistry sampleDatabase sampleChatSession
      { type := "message", content := " hello " } ⟨500⟩ 7
      ⟨0x0123456789abcdef01234567⟩ ⟨0xaaaaaaaaaaaaaaaaaaaaaaaa⟩
      (by decide) (by decide) rfl (by decide)
  exact ⟨chatMsg, hcontent.trans (by decide), hname, (hall InsertOutcome.timedOut).2.2.1 1
    (by decide)⟩

/-! ## Theorems: joins, leaves and rejected connections -/

theorem framesTo_append (c : Conn) (xs ys : List Effect) :
    framesTo c (xs ++ ys) = framesTo c xs ++ framesTo c ys := by
  induction xs with
  | nil => rfl
  | cons e rest ih =>
    cases e with
    | write conn msg =>
      by_cases h : conn = c <;> simp [framesTo, h, ih]
    | close conn => simpa [framesTo] using ih
    | insertOne doc => simpa [framesTo] using ih

theorem mem_register_clients (st : Registry) (room : RoomPtr) (c conn : Conn)
    (client : wsClient) :
    conn ∈ ((st.register room c client).heap room).clients ↔
      conn = c ∨ conn ∈ (st.heap room).clients := by
  simp [Registry.register, AList.mem_insert]

/-- C11, as the code has it: on a successful whiteboard join the "join" event is
written once to every connection registered in the room after the registration,
that is to every connection that was already in the room and also to the joining
connection; the joining connection then receives the "users" snapshot as its
second frame, and no other connection receives that snapshot; connections outside
the room receive nothing. -/
theorem whiteboard_join_frames (st : Registry) (c : Conn) (boardID userID userName : String) :
    ∃ users : List UserEntry,
      framesTo c (WhiteboardWS.connect st c boardID (some userID) userName).2.1
        = [Frame.join userID userName users, Frame.users users] ∧
      (∀ conn, conn ≠ c →
        conn ∈ ((getRoom st boardID).1.heap (getRoom st boardID).2).clients →
        framesTo conn (WhiteboardWS.connect st c boardID (some userID) userName).2.1
          = [Frame.join userID userName users]) ∧
      (∀ conn, conn ≠ c →
        conn ∉ ((getRoom st boardID).1.heap (getRoom st boardID).2).clients →
        framesTo conn (WhiteboardWS.connect st c boardID (some userID) userName).2.1 = []) := by
  refine ⟨(((getRoom st boardID).1.register (getRoom st boardID).2 c
      { conn := c, userID := userID, name := userName }).heap
        (getRoom st boardID).2).userList, ?_, ?_, ?_⟩
  · simp only [WhiteboardWS.connect, framesTo_append, framesTo_broadcast,
      mem_register_clients, framesTo]
    simp
  · intro conn hne hin
    simp only [WhiteboardWS.connect, framesTo_append, framesTo_broadcast,
      mem_register_clients, framesTo]
    have hne' : ¬ c = conn := fun e => hne e.symm
    simp [hin, hne, hne']
  · intro conn hne hnot
    simp only [WhiteboardWS.connect, framesTo_append, framesTo_broadcast,
      mem_register_clients, framesTo]
    have hne' : ¬ c = conn := fun e => hne e.symm
    simp [hnot, hne, hne']

/-- C11 as stated fails: connection 2 joins board "b1" where connection 1 is
already registered; the joining connection 2 receives the "join" event before
its "users" snapshot. -/
theorem whiteboard_join_reaches_joiner_counterexample :
    framesTo 2 (WhiteboardWS.connect
        (WhiteboardWS.connect Registry.init 1 "b1" (some "A") "Alice").1
        2 "b1" (some "B") "Bob").2.1
      = [Frame.join "B" "Bob"
            [{ user_id := "B", name := "Bob" }, { user_id := "A", name := "Alice" }],
         Frame.users
            [{ user_id := "B", name := "Bob" }, { user_id := "A", name := "Alice" }]] := by
  rfl

/-! ## Theorems: participant lists -/

theorem onlineUsersLoop_spec (cs : List wsClient) (seen : List String) (list : List UserEntry)
    (hseen : ∀ u, u ∈ seen ↔ u ∈ list.map UserEntry.user_id)
    (hnd : (list.map UserEntry.user_id).Nodup) :
    ((onlineUsersLoop cs seen list).map UserEntry.user_id).Nodup ∧
    (∀ u, u ∈ (onlineUsersLoop cs seen list).map UserEntry.user_id ↔
      u ∈ list.map UserEntry.user_id ∨ u ∈ cs.map wsClient.userID) ∧
    (∀ e ∈ onlineUsersLoop cs seen list,
      e ∈ list ∨ ∃ c ∈ cs, c.userID = e.user_id ∧ c.name = e.name) := by
  induction cs generalizing seen list with
  | nil =>
    refine ⟨hnd, ?_, ?_⟩
    · intro u; simp [onlineUsersLoop]
    · intro e he; exact Or.inl he
  | cons c rest ih =>
    by_cases hc : c.userID ∈ seen
    · have hstep : onlineUsersLoop (c :: rest) seen list = onlineUsersLoop rest seen list := by
        simp [onlineUsersLoop, hc]
      rw [hstep]
      obtain ⟨h1, h2, h3⟩ := ih seen list hseen hnd
      refine ⟨h1, ?_, ?_⟩
      · intro u
        rw [h2 u]
        constructor
        · rintro (h | h)
          · exact Or.inl h
          · exact Or.inr (by simp [h])
        · rintro (h | h)
          · exact Or.inl h
          · simp only [List.map_cons, List.mem_cons] at h
            rcases h with h | h
            · exact Or.inl ((hseen u).1 (h ▸ hc))
            · exact Or.inr h
      · intro e he
        rcases h3 e he with h | ⟨c', hc', hh⟩
        · exact Or.inl h
        · exact Or.inr ⟨c', List.mem_cons_of_mem _ hc', hh⟩
    · have hstep : onlineUsersLoop (c :: rest) seen list
          = onlineUsersLoop rest (c.userID :: seen)
              (list ++ [{ user_id := c.userID, name := c.name }]) := by
        simp [onlineUsersLoop, hc]
      rw [hstep]
      have hseen' : ∀ u, u ∈ c.userID :: seen ↔
          u ∈ (list ++ [({ user_id := c.userID, name := c.name } : UserEntry)]).map
            UserEntry.user_id := by
        intro u
        simp only [List.mem_cons, List.map_append, List.map_cons, List.map_nil,
          List.mem_append, List.mem_singleton, hseen u, List.not_mem_nil, or_false,
          List.mem_cons]
        exact Or.comm
      have hnd' : ((list ++ [({ user_id := c.userID, name := c.name } : UserEntry)]).map
          UserEntry.user_id).Nodup := by
        simp only [List.map_append, List.map_cons, List.map_nil]
        rw [List.nodup_append]
        refine ⟨hnd, List.nodup_singleton _, ?_⟩
        intro u hu hu'
        rw [List.mem_singleton] at hu'
        exact hc ((hseen _).2 (hu' ▸ hu))
      obtain ⟨h1, h2, h3⟩ := ih _ _ hseen' hnd'
      refine ⟨h1, ?_, ?_⟩
      · intro u
        rw [h2 u]
        simp only [List.map_append, List.map_cons, List.map_nil, List.mem_append,
          List.mem_singleton, List.mem_cons]
        tauto
      · intro e he
        rcases h3 e he with h | ⟨c', hc', hh⟩
        · rcases List.mem_append.1 h with h | h
          · exact Or.inl h
          · rw [List.mem_singleton] at h
            subst h
            exact Or.inr ⟨c, List.mem_cons_self _ _, rfl, rfl⟩
        · exact Or.inr ⟨c', List.mem_cons_of_mem _ hc', hh⟩

theorem mem_clients_values (r : whiteboardRoom) (client : wsClient) :
    client ∈ r.clients.entries.map (fun e => e.2) ↔
      ∃ conn, r.clients.lookup conn = some client := by
  constructor
  · intro h
    obtain ⟨e, he, rfl⟩ := List.mem_map.1 h
    refine ⟨e.1, ?_⟩
    have : e.2 ∈ r.clients.lookup e.1 := AList.mem_lookup_iff.2 (by cases e; exact he)
    exact this
  · rintro ⟨conn, h⟩
    have : (⟨conn, client⟩ : Sigma (fun _ : Conn => wsClient)) ∈ r.clients.entries :=
      AList.mem_lookup_iff.1 h
    exact List.mem_map.2 ⟨_, this, rfl⟩

/-- The three facts about `onlineUsers` used by the presence theorems. -/
theorem onlineUsers_spec (r : chatRoom) :
    ((chatRoom.onlineUsers r).map UserEntry.user_id).Nodup ∧
    (∀ u, u ∈ (chatRoom.onlineUsers r).map UserEntry.user_id ↔
      ∃ conn client, r.clients.lookup conn = some client ∧ client.userID = u) ∧
    (∀ e ∈ chatRoom.onlineUsers r,
      ∃ conn client, r.clients.lookup conn = some client ∧
        client.userID = e.user_id ∧ client.name = e.name) := by
  obtain ⟨h1, h2, h3⟩ := onlineUsersLoop_spec (r.clients.entries.map (fun e => e.2)) [] []
    (by intro u; simp) (by simp)
  refine ⟨h1, ?_, ?_⟩
  · intro u
    unfold chatRoom.onlineUsers
    rw [h2 u]
    simp only [List.map_nil, List.not_mem_nil, false_or, List.mem_map]
    constructor
    · rintro ⟨client, hcl, rfl⟩
      obtain ⟨conn, hconn⟩ := (mem_clients_values r client).1 (List.mem_map.2 hcl)
      exact ⟨conn, client, hconn, rfl⟩
    · rintro ⟨conn, client, hl, rfl⟩
      exact ⟨client, List.mem_map.1 ((mem_clients_values r client).2 ⟨conn, hl⟩), rfl⟩
  · intro e he
    rcases h3 e he with h | ⟨client, hcl, hu, hn⟩
    · simp at h
    · obtain ⟨conn, hconn⟩ := (mem_clients_values r client).1 hcl
      exact ⟨conn, client, hconn, hu, hn⟩

/-- C18: for every chat room state, every userID with at least one registered
connection appears exactly once in `onlineUsers`, no other userID appears, and
each entry carries the userID and display name of one registered connection. -/
theorem onlineUsers_each_user_once (r : chatRoom) :
    (∀ u, (∃ conn client, r.clients.lookup conn = some client ∧ client.userID = u) →
      ((chatRoom.onlineUsers r).map UserEntry.user_id).count u = 1) ∧
    (∀ u, u ∈ (chatRoom.onlineUsers r).map UserEntry.user_id →
      ∃ conn client, r.clients.lookup conn = some client ∧ client.userID = u) ∧
    (∀ e ∈ chatRoom.onlineUsers r,
      ∃ conn client, r.clients.lookup conn = some client ∧
        client.userID = e.user_id ∧ client.name = e.name) := by
  obtain ⟨h1, h2, h3⟩ := onlineUsers_spec r
  exact ⟨fun u hu => List.count_eq_one_of_mem h1 ((h2 u).2 hu), fun u hu => (h2 u).1 hu, h3⟩

/-- C19, as the code has it: `userList` has exactly one entry per registered
connection, carrying that connection's userID and name, whether or not another
connection has the same userID; this is the list carried by the "join" and
"users" frames of a join and by the "leave" frame of a leave. -/
theorem userList_one_entry_per_connection (r : whiteboardRoom) :
    r.userList.length = r.clients.keys.length ∧
    r.userList.map UserEntry.user_id = r.clients.entries.map (fun e => e.2.userID) ∧
    (∀ e, e ∈ r.userList ↔
      ∃ conn client, r.clients.lookup conn = some client ∧
        e = { user_id := client.userID, name := client.name }) ∧
    (∀ (st : Registry) (c : Conn) (boardID userID userName : String),
      framesTo c (WhiteboardWS.connect st c boardID (some userID) userName).2.1
        = [Frame.join userID userName
            (((WhiteboardWS.connect st c boardID (some userID) userName).1.heap
              (getRoom st boardID).2).userList),
           Frame.users
            (((WhiteboardWS.connect st c boardID (some userID) userName).1.heap
              (getRoom st boardID).2).userList)]) ∧
    (∀ (st : Registry) (s : Session) (e : Effect), e ∈ (WhiteboardWS.onClose st s).2 →
      ∃ conn, e = Effect.write conn (Frame.leave s.userID s.userName
        (((WhiteboardWS.onClose st s).1.heap s.room).userList))) := by
  refine ⟨?_, ?_, ?_, ?_, ?_⟩
  · simp [whiteboardRoom.userList, AList.keys, List.keys]
  · simp [whiteboardRoom.userList]
  · intro e
    simp only [whiteboardRoom.userList, List.mem_map]
    constructor
    · rintro ⟨x, hx, rfl⟩
      obtain ⟨conn, hconn⟩ := (mem_clients_values r x.2).1 (List.mem_map.2 ⟨x, hx, rfl⟩)
      exact ⟨conn, x.2, hconn, rfl⟩
    · rintro ⟨conn, client, hl, rfl⟩
      obtain ⟨x, hx, hx2⟩ := List.mem_map.1 ((mem_clients_values r client).2 ⟨conn, hl⟩)
      exact ⟨x, hx, by rw [hx2]⟩
  · intro st c boardID userID userName
    simp only [WhiteboardWS.connect, framesTo_append, framesTo_broadcast,
      mem_register_clients, framesTo]
    simp
  · intro st s e he
    have hheap : (WhiteboardWS.onClose st s).1.heap = (st.deregister s.room s.c).1.heap := by
      simp only [WhiteboardWS.onClose]
      split <;> rfl
    rw [hheap]
    simp only [WhiteboardWS.onClose, whiteboardRoom.broadcast, List.mem_map] at he
    obtain ⟨conn, -, rfl⟩ := he
    exact ⟨conn, rfl⟩

/-- C19 as stated fails: user "A" joins board "b1" on connection 1 and again on
connection 2; the "join" and "users" frames written to connection 2 list the
userID "A" twice. -/
theorem userList_not_deduplicated_counterexample :
    framesTo 2 (WhiteboardWS.connect
        (WhiteboardWS.connect Registry.init 1 "b1" (some "A") "Alice").1
        2 "b1" (some "A") "Alice (phone)").2.1
      = [Frame.join "A" "Alice (phone)"
            [{ user_id := "A", name := "Alice (phone)" }, { user_id := "A", name := "Alice" }],
         Frame.users
            [{ user_id := "A", name := "Alice (phone)" }, { user_id := "A", name := "Alice" }]] := by
  rfl

/-- C12: on a chat join one "presence" frame, whose user list is `onlineUsers`
of the room after the registration, is written to every connection registered in
the room after the registration and to no other; the joining connection is among
them and its userID is listed. On a chat leave one "presence" frame, whose user
list is `onlineUsers` of the room after the removal, is written to every
connection remaining in the room and to no other. Both lists have no two entries
with the same userID. -/
theorem chat_presence_after_change :
    (∀ (st : Registry) (c : Conn) (teamID userID userName : String),
      c ∈ ((TeamChatWS.connect st c teamID (some userID) userName).1.heap
            (getChatRoom st teamID).2).clients ∧
      (TeamChatWS.connect st c teamID (some userID) userName).2.2
        = some { c := c, key := teamID, userID := userID, userName := userName,
                 room := (getChatRoom st teamID).2 } ∧
      (∀ conn, conn ∈ ((TeamChatWS.connect st c teamID (some userID) userName).1.heap
            (getChatRoom st teamID).2).clients →
        framesTo conn (TeamChatWS.connect st c teamID (some userID) userName).2.1
          = [Frame.presence (chatRoom.onlineUsers
              ((TeamChatWS.connect st c teamID (some userID) userName).1.heap
                (getChatRoom st teamID).2))]) ∧
      (∀ conn, conn ∉ ((TeamChatWS.connect st c teamID (some userID) userName).1.heap
            (getChatRoom st teamID).2).clients →
        framesTo conn (TeamChatWS.connect st c teamID (some userID) userName).2.1 = []) ∧
      userID ∈ (chatRoom.onlineUsers
          ((TeamChatWS.connect st c teamID (some userID) userName).1.heap
            (getChatRoom st teamID).2)).map UserEntry.user_id ∧
      ((chatRoom.onlineUsers
          ((TeamChatWS.connect st c teamID (some userID) userName).1.heap
            (getChatRoom st teamID).2)).map UserEntry.user_id).Nodup) ∧
    (∀ (st : Registry) (s : Session),
      (∀ conn, conn ∈ ((TeamChatWS.onClose st s).1.heap s.room).clients ↔
        conn ≠ s.c ∧ conn ∈ (st.heap s.room).clients) ∧
      (∀ conn, conn ∈ ((TeamChatWS.onClose st s).1.heap s.room).clients →
        framesTo conn (TeamChatWS.onClose st s).2
          = [Frame.presence (chatRoom.onlineUsers
              ((TeamChatWS.onClose st s).1.heap s.room))]) ∧
      (∀ conn, conn ∉ ((TeamChatWS.onClose st s).1.heap s.room).clients →
        framesTo conn (TeamChatWS.onClose st s).2 = []) ∧
      ((chatRoom.onlineUsers
          ((TeamChatWS.onClose st s).1.heap s.room)).map UserEntry.user_id).Nodup) := by
  constructor
  · intro st c teamID userID userName
    have hc : c ∈ ((TeamChatWS.connect st c teamID (some userID) userName).1.heap
        (getChatRoom st teamID).2).clients := by
      simp [TeamChatWS.connect, mem_register_clients]
    refine ⟨hc, rfl, ?_, ?_, ?_, (onlineUsers_spec _).1⟩
    · intro conn hin
      have hin' := hin
      simp only [TeamChatWS.connect] at hin' ⊢
      rw [framesTo_broadcastAll, if_pos hin']
    · intro conn hnot
      have hnot' := hnot
      simp only [TeamChatWS.connect] at hnot' ⊢
      rw [framesTo_broadcastAll, if_neg hnot']
    · rw [(onlineUsers_spec _).2.1]
      refine ⟨c, { conn := c, userID := userID, name := userName }, ?_, rfl⟩
      simp [TeamChatWS.connect, Registry.register]
  · intro st s
    have hheap : (TeamChatWS.onClose st s).1.heap s.room
        = ⟨(st.heap s.room).clients.erase s.c⟩ := by
      simp only [TeamChatWS.onClose, Registry.deregister]
      split <;> simp [Registry.deleteEntry]
    have heff : (TeamChatWS.onClose st s).2
        = chatRoom.broadcast ((TeamChatWS.onClose st s).1.heap s.room) none
            (Frame.presence (chatRoom.onlineUsers ((TeamChatWS.onClose st s).1.heap s.room))) := by
      rw [hheap]
      simp [TeamChatWS.onClose, Registry.deregister]
    refine ⟨?_, ?_, ?_, (onlineUsers_spec _).1⟩
    · intro conn
      rw [hheap]
      exact AList.mem_erase
    · intro conn hin
      rw [heff, framesTo_chat_broadcast]
      simp [hin]
    · intro conn hnot
      rw [heff, framesTo_chat_broadcast]
      simp [hnot]

/-- C13: for every chat room state and session, a frame of type "typing" writes
one "typing" event carrying the sender's authenticated userID and display name
to every connection of the room other than the sender, writes nothing to the
sender or to a connection outside the room, makes no persistence call and leaves
the store as it was. -/
theorem chat_typing_reaches_the_others (st : Registry) (db : Database) (s : Session)
    (incoming : chatIncoming) (newID : ObjectID) (now : Time) (outcome : InsertOutcome)
    (htype : incoming.type = "typing") :
    (TeamChatWS.onFrame st db s (some incoming) newID now outcome).1 = db ∧
    inserts (TeamChatWS.onFrame st db s (some incoming) newID now outcome).2 = [] ∧
    framesTo s.c (TeamChatWS.onFrame st db s (some incoming) newID now outcome).2 = [] ∧
    (∀ conn, conn ∈ (st.heap s.room).clients → conn ≠ s.c →
      framesTo conn (TeamChatWS.onFrame st db s (some incoming) newID now outcome).2
        = [Frame.typing s.userID s.userName]) ∧
    (∀ conn, conn ∉ (st.heap s.room).clients →
      framesTo conn (TeamChatWS.onFrame st db s (some incoming) newID now outcome).2 = []) ∧
    (∀ e ∈ (TeamChatWS.onFrame st db s (some incoming) newID now outcome).2,
      ∃ conn, e = Effect.write conn (Frame.typing s.userID s.userName)) := by
  have hne : ¬ incoming.type = "message" := by rw [htype]; decide
  have hform : TeamChatWS.onFrame st db s (some incoming) newID now outcome
      = (db, chatRoom.broadcast (st.heap s.room) (some s.c)
          (Frame.typing s.userID s.userName)) := by
    simp only [TeamChatWS.onFrame]
    rw [if_neg hne, if_pos htype]
  rw [hform]
  refine ⟨rfl, ?_, ?_, ?_, ?_, ?_⟩
  · exact inserts_map_write _ _
  · rw [framesTo_chat_broadcast]; simp
  · intro conn hin hne
    rw [framesTo_chat_broadcast]; simp [hin, hne]
  · intro conn hnot
    rw [framesTo_chat_broadcast]; simp [hnot]
  · intro e he
    simp only [chatRoom.broadcast, List.mem_map] at he
    obtain ⟨conn, -, rfl⟩ := he
    exact ⟨conn, rfl⟩

/-- Instance of C13: in a room holding connections 1 and 2, a "typing" frame
from connection 1 reaches connection 2. -/
theorem chat_typing_reaches_the_others_witness :
    framesTo 2 (TeamChatWS.onFrame
        (TeamChatWS.connect sampleChatRegistry 2 sampleTeamHex (some "bbbb") "Bob").1
        sampleDatabase sampleChatSession (some { type := "typing", content := "" })
        ⟨500⟩ 7 InsertOutcome.inserted).2 = [Frame.typing sampleUserHex "Alice"] :=
  (chat_typing_reaches_the_others
      (TeamChatWS.connect sampleChatRegistry 2 sampleTeamHex (some "bbbb") "Bob").1
      sampleDatabase sampleChatSession { type := "typing", content := "" }
      ⟨500⟩ 7 InsertOutcome.inserted rfl).2.2.2.1 2 (by decide) (by decide)

/-- C14: when token verification fails, the whiteboard handler and the chat
handler each write one error frame to the connection, close it and return no
session; the registry (its map, its rooms and their client sets) is returned
unchanged and no frame is written to any other connection. -/
theorem rejected_token_changes_nothing (st : Registry) (c : Conn) (key userName : String) :
    WhiteboardWS.connect st c key none userName
      = (st, [Effect.write c (Frame.wsError "unauthorized"), Effect.close c], none) ∧
    TeamChatWS.connect st c key none userName
      = (st, [Effect.write c (Frame.chatError "unauthorized"), Effect.close c], none) ∧
    framesTo c (WhiteboardWS.connect st c key none userName).2.1
      = [Frame.wsError "unauthorized"] ∧
    framesTo c (TeamChatWS.connect st c key none userName).2.1
      = [Frame.chatError "unauthorized"] ∧
    (∀ conn, conn ≠ c →
      framesTo conn (WhiteboardWS.connect st c key none userName).2.1 = [] ∧
      framesTo conn (TeamChatWS.connect st c key none userName).2.1 = []) ∧
    inserts (TeamChatWS.connect st c key none userName).2.1 = [] := by
  refine ⟨rfl, rfl, ?_, ?_, ?_, rfl⟩
  · simp [WhiteboardWS.connect, framesTo]
  · simp [TeamChatWS.connect, framesTo]
  · intro conn hne
    have hne' : ¬ c = conn := fun e => hne e.symm
    simp [WhiteboardWS.connect, TeamChatWS.connect, framesTo, hne']

/-- C17: `getRoom` and `getChatRoom` are total and coincide. If the key is
present, the registered room is returned and the registry is unchanged; if it
is absent, the returned room is registered under the key with an empty client
set, every other key keeps its entry, and (addresses being allocated fresh)
every room registered under another key keeps its clients. A second call with
the same key returns the same room and changes nothing. -/
theorem getRoom_returns_or_creates (st : Registry) (key : String) :
    getChatRoom st key = getRoom st key ∧
    (∀ room, st.m.lookup key = some room → getRoom st key = (st, room)) ∧
    (st.m.lookup key = none →
      (getRoom st key).1.m.lookup key = some (getRoom st key).2 ∧
      ((getRoom st key).1.heap (getRoom st key).2).clients = ∅ ∧
      (∀ k, k ≠ key → (getRoom st key).1.m.lookup k = st.m.lookup k) ∧
      ((∀ k p, st.m.lookup k = some p → p < st.next) →
        ∀ k p, st.m.lookup k = some p → (getRoom st key).1.heap p = st.heap p)) ∧
    getRoom (getRoom st key).1 key = ((getRoom st key).1, (getRoom st key).2) := by
  refine ⟨rfl, ?_, ?_, ?_⟩
  · intro room h
    simp [getRoom, h]
  · intro h
    refine ⟨?_, ?_, ?_, ?_⟩
    · simp [getRoom, h]
    · simp [getRoom, h]
    · intro k hk
      simp [getRoom, h, AList.lookup_insert_ne hk]
    · intro hfresh k p hkp
      have hne : p ≠ st.next := Nat.ne_of_lt (hfresh k p hkp)
      simp [getRoom, h, Function.update_noteq hne]
  · cases h : st.m.lookup key with
    | some room => simp [getRoom, h]
    | none => simp [getRoom, h]

/-- Instance of C17: in the registry holding board "b1", asking for "b2"
creates an empty room and leaves the room of "b1" with its client. -/
theorem getRoom_returns_or_creates_witness :
    (getRoom (WhiteboardWS.connect Registry.init 1 "b1" (some "A") "Alice").1 "b2").1.heap 0
      = (WhiteboardWS.connect Registry.init 1 "b1" (some "A") "Alice").1.heap 0 :=
  ((getRoom_returns_or_creates
      (WhiteboardWS.connect Registry.init 1 "b1" (some "A") "Alice").1 "b2").2.2.1
    (by decide)).2.2.2
    (by
      intro k p h
      by_cases hk : k = "b1"
      · subst hk
        have : p = 0 := by
          have h2 : (WhiteboardWS.connect Registry.init 1 "b1" (some "A") "Alice").1.m.lookup
              "b1" = some 0 := by decide
          rw [h2] at h
          exact (Option.some.inj h).symm
        subst this
        decide
      · have h2 : (WhiteboardWS.connect Registry.init 1 "b1" (some "A") "Alice").1.m.lookup k
            = none := by
          simp only [WhiteboardWS.connect, getRoom, Registry.init, Registry.register,
            AList.lookup_empty, AList.insert_empty]
          rw [AList.lookup_eq_none, AList.mem_keys, AList.keys_singleton]
          simpa using hk
        rw [h2] at h
        cases h)
    "b1" 0 (by decide)


/-! ## Theorems: creators of teams and projects -/

theorem find?_append_of_none {α : Type} (p : α → Bool) (l : List α) (a : α)
    (h : ∀ x ∈ l, p x = false) (ha : p a = true) : (l ++ [a]).find? p = some a := by
  have hnone : l.find? p = none := by
    rw [List.find?_eq_none]
    intro x hx
    simp [h x hx]
  rw [List.find?_append, hnone]
  simp [List.find?, ha]

theorem find?_append_of_none_none {α : Type} (p : α → Bool) (l : List α) (a : α)
    (h : ∀ x ∈ l, p x = false) (ha : p a = false) : (l ++ [a]).find? p = none := by
  rw [List.find?_eq_none]
  intro x hx
  rcases List.mem_append.1 hx with hx | hx
  · simp [h x hx]
  · rw [List.mem_singleton] at hx
    subst hx
    simp [ha]

/-- C16, as the code has it: after a successful `CreateTeam` (status 201, fresh
team id) the creator's `getTeamRole` for the new team is 8; after a successful
`CreatePersonalProject` (status 201, fresh project id) whose membership insert
was stored the creator's `getProjectRole` for the new project is 8; after a
successful `CreateProject` (status 201, fresh project id, team id not nil) no
membership row is written and the creator's `getProjectRole` for the new project
is the creator's role in the parent team, which is at least Editor (2). -/
theorem creator_role_after_creation :
    (∀ (db : Database) (userIDHex : String) (userID : ObjectID)
        (body : Option createTeamBody) (teamID memberID : ObjectID) (now : Time)
        (o1 o2 : InsertOutcome),
      ObjectIDFromHex userIDHex = some userID →
      (∀ m ∈ db.team_members, m.TeamID ≠ teamID) →
      (CreateTeam db userIDHex body teamID memberID now o1 o2).2 = 201 →
      getTeamRole (CreateTeam db userIDHex body teamID memberID now o1 o2).1 teamID userID
        = (8, none)) ∧
    (∀ (db : Database) (userIDHex : String) (userID : ObjectID)
        (body : Option createProjectBody) (projectID memberID : ObjectID) (now : Time)
        (o1 : InsertOutcome) (colID : Nat → ObjectID) (colOutcome : Nat → InsertOutcome),
      ObjectIDFromHex userIDHex = some userID →
      (∀ pm ∈ db.project_members, pm.ProjectID ≠ projectID) →
      (CreatePersonalProject db userIDHex body projectID memberID now o1
        InsertOutcome.inserted colID colOutcome).2 = 201 →
      getProjectRole (CreatePersonalProject db userIDHex body projectID memberID now o1
        InsertOutcome.inserted colID colOutcome).1 projectID userID = (8, none)) ∧
    (∀ (db : Database) (userIDHex teamIDHex : String) (userID teamID : ObjectID)
        (body : Option createProjectBody) (projectID : ObjectID) (now : Time)
        (o1 : InsertOutcome) (colID : Nat → ObjectID) (colOutcome : Nat → InsertOutcome),
      ObjectIDFromHex userIDHex = some userID →
      ObjectIDFromHex teamIDHex = some teamID →
      teamID ≠ NilObjectID →
      (∀ pm ∈ db.project_members, pm.ProjectID ≠ projectID) →
      (∀ p ∈ db.projects, p.ID ≠ projectID) →
      (CreateProject db userIDHex teamIDHex body projectID now o1 colID colOutcome).2 = 201 →
      (CreateProject db userIDHex teamIDHex body projectID now o1 colID colOutcome).1.project_members
        = db.project_members ∧
      getProjectRole (CreateProject db userIDHex teamIDHex body projectID now o1 colID
        colOutcome).1 projectID userID = getTeamRole db teamID userID ∧
      (getTeamRole db teamID userID).2 = none ∧
      (getTeamRole db teamID userID).1 ≥ RoleEditor) := by
  refine ⟨?_, ?_, ?_⟩
  · intro db userIDHex userID body teamID memberID now o1 o2 huser hfresh hstatus
    cases body with
    | none => simp [CreateTeam, huser] at hstatus
    | some body =>
      by_cases hname : body.Name = ""
      · simp [CreateTeam, huser, hname] at hstatus
      · cases o1 <;> cases o2 <;>
          simp [CreateTeam, huser, hname, InsertOutcome.isErr] at hstatus
        simp only [CreateTeam, huser, hname, InsertOutcome.isErr, insertDoc, if_false,
          Bool.false_eq_true, getTeamRole, findTeamMember]
        rw [find?_append_of_none]
        · rfl
        · intro m hm
          simp [hfresh m hm]
        · simp
  · intro db userIDHex userID body projectID memberID now o1 colID colOutcome huser hfresh
      hstatus
    cases body with
    | none => simp [CreatePersonalProject, huser] at hstatus
    | some body =>
      by_cases hname : body.Name = ""
      · simp [CreatePersonalProject, huser, hname] at hstatus
      · cases o1 <;>
          simp [CreatePersonalProject, huser, hname, InsertOutcome.isErr] at hstatus
        simp only [CreatePersonalProject, huser, hname, InsertOutcome.isErr, insertDoc,
          if_false, Bool.false_eq_true, getProjectRole, findProjectMember]
        rw [find?_append_of_none]
        · rfl
        · intro m hm
          simp [hfresh m hm]
        · simp
  · intro db userIDHex teamIDHex userID teamID body projectID now o1 colID colOutcome huser
      hteam hnil hfresh hfreshp hstatus
    cases body with
    | none => simp [CreateProject, huser, hteam] at hstatus
    | some body =>
      by_cases hname : body.Name = ""
      · simp [CreateProject, huser, hteam, hname] at hstatus
      · by_cases hrole : (getTeamRole db teamID userID).2 ≠ none ∨
            hasPermission (getTeamRole db teamID userID).1 RoleEditor = false
        · simp [CreateProject, huser, hteam, hname, hrole] at hstatus
        · cases o1 <;>
            simp [CreateProject, huser, hteam, hname, hrole, InsertOutcome.isErr] at hstatus
          have hr1 : (getTeamRole db teamID userID).2 = none := by
            by_contra h
            exact hrole (Or.inl h)
          have hr2 : (getTeamRole db teamID userID).1 ≥ RoleEditor := by
            have : hasPermission (getTeamRole db teamID userID).1 RoleEditor = true := by
              by_contra h
              exact hrole (Or.inr (by simpa using h))
            simpa [hasPermission] using this
          have hpm : findProjectMember db projectID userID = none := by
            unfold findProjectMember
            rw [List.find?_eq_none]
            intro x hx
            simp [hfresh x hx]
          refine ⟨?_, ?_, hr1, hr2⟩
          · simp only [CreateProject, huser, hteam, hname, hrole, InsertOutcome.isErr,
              if_false, Bool.false_eq_true]
          · simp only [CreateProject, huser, hteam, hname, hrole, InsertOutcome.isErr,
              insertDoc, if_false, Bool.false_eq_true, getProjectRole]
            have hpm' : ∀ (ps : List Project) (cols : List BoardColumn),
                findProjectMember { db with projects := ps, board_columns := cols }
                  projectID userID = none := fun _ _ => hpm
            rw [hpm']
            simp only [findProject]
            rw [find?_append_of_none]
            · simp only [hnil, if_false]
              rfl
            · intro p hp
              simp [hfreshp p hp]
            · simp

/-- Instance of C16: user 1 creates team 900 in `sampleDatabase` and is its
Owner. -/
theorem creator_role_after_creation_witness :
    getTeamRole (CreateTeam sampleDatabase "000000000000000000000001"
        (some { Name := "design", WorkspaceID := "w" }) ⟨900⟩ ⟨901⟩ 3
        InsertOutcome.inserted InsertOutcome.inserted).1 ⟨900⟩ ⟨1⟩ = (8, none) :=
  creator_role_after_creation.1 sampleDatabase "000000000000000000000001" ⟨1⟩
    (some { Name := "design", WorkspaceID := "w" }) ⟨900⟩ ⟨901⟩ 3
    InsertOutcome.inserted InsertOutcome.inserted (by decide) (by decide) (by decide)

/-- C16 as stated fails: user 1, Editor (2) of team 7, creates project 900 in
team 7; the handler answers 201 and the creator's effective role for the new
project is 2, not 8. -/
theorem team_project_creator_not_owner_counterexample :
    getTeamRole sampleDatabase ⟨7⟩ ⟨1⟩ = (2, none) ∧
    (CreateProject sampleDatabase "000000000000000000000001" "000000000000000000000007"
        (some { Name := "site", Description := "", IsPublic := false }) ⟨900⟩ 3
        InsertOutcome.inserted (fun i => ⟨901 + i⟩) (fun _ => InsertOutcome.inserted)).2 = 201 ∧
    getProjectRole (CreateProject sampleDatabase "000000000000000000000001"
        "000000000000000000000007"
        (some { Name := "site", Description := "", IsPublic := false }) ⟨900⟩ 3
        InsertOutcome.inserted (fun i => ⟨901 + i⟩) (fun _ => InsertOutcome.inserted)).1
        ⟨900⟩ ⟨1⟩ = (2, none) := by
  decide

/-! ## Theorems: admission to rooms -/

/-- C15, as the code has it: at connect time only the token is checked. A
connection gets a session exactly when token verification succeeds, and it is
then registered in the room of the key, for the chat handler and for the
whiteboard handler alike; no membership is consulted (the handlers do not read
the store), and what a registered connection's frames persist and broadcast does
not depend on the content of the store. -/
theorem realtime_admission_checks_token_only (st : Registry) (c : Conn)
    (key userName : String) :
    (∀ token : Option String,
      ((TeamChatWS.connect st c key token userName).2.2.isSome = true ↔ token.isSome = true) ∧
      ((WhiteboardWS.connect st c key token userName).2.2.isSome = true ↔
        token.isSome = true)) ∧
    (∀ userID : String,
      c ∈ ((TeamChatWS.connect st c key (some userID) userName).1.heap
            (getChatRoom st key).2).clients ∧
      c ∈ ((WhiteboardWS.connect st c key (some userID) userName).1.heap
            (getRoom st key).2).clients) ∧
    (∀ (db db2 : Database) (s : Session) (parsed : Option chatIncoming) (newID : ObjectID)
        (now : Time) (outcome : InsertOutcome),
      (TeamChatWS.onFrame st db s parsed newID now outcome).2
        = (TeamChatWS.onFrame st db2 s parsed newID now outcome).2) := by
  refine ⟨?_, ?_, ?_⟩
  · intro token
    cases token <;> simp [TeamChatWS.connect, WhiteboardWS.connect]
  · intro userID
    simp [TeamChatWS.connect, WhiteboardWS.connect, mem_register_clients]
  · intro db db2 s parsed newID now outcome
    cases parsed with
    | none => rfl
    | some incoming =>
      simp only [TeamChatWS.onFrame]
      by_cases ht : incoming.type = "message"
      · simp only [ht, if_true]
        by_cases hc : TrimSpace incoming.content = "" ∨
            (TrimSpace incoming.content).utf8ByteSize > 5000
        · simp only [hc, if_true]
        · simp only [hc, if_false]
          cases ObjectIDFromHex s.key with
          | none => rfl
          | some teamOID =>
            cases ObjectIDFromHex s.userID with
            | none => rfl
            | some userOID => rfl
      · simp only [ht, if_false]
        by_cases ht2 : incoming.type = "typing"
        · simp only [ht2, if_true]
        · simp only [ht2, if_false]

/-- C15 as stated fails: the user of `sampleUserHex` has no membership in the
team of `sampleTeamHex` and none granting access to the personal project 6, yet
with a valid token the connection is registered in the team's chat room, its
message is persisted and broadcast, and it is registered in the whiteboard room
of project 6. -/
theorem realtime_admits_non_member_counterexample :
    ObjectIDFromHex sampleTeamHex = some ⟨0x0123456789abcdef01234567⟩ ∧
    ObjectIDFromHex sampleUserHex = some ⟨0xaaaaaaaaaaaaaaaaaaaaaaaa⟩ ∧
    getTeamRole sampleDatabase ⟨0x0123456789abcdef01234567⟩ ⟨0xaaaaaaaaaaaaaaaaaaaaaaaa⟩
      = (0, some Error.ErrNoDocuments) ∧
    (TeamChatWS.connect Registry.init 1 sampleTeamHex (some sampleUserHex) "Alice").2.2
      = some sampleChatSession ∧
    1 ∈ (sampleChatRegistry.heap sampleChatSession.room).clients ∧
    inserts (TeamChatWS.onFrame sampleChatRegistry sampleDatabase sampleChatSession
        (some { type := "message", content := "hello" }) ⟨500⟩ 7
        InsertOutcome.inserted).2
      = [{ ID := ⟨500⟩, TeamID := ⟨0x0123456789abcdef01234567⟩,
           UserID := ⟨0xaaaaaaaaaaaaaaaaaaaaaaaa⟩, UserName := "Alice", Content := "hello",
           ReplyTo := none, EditedAt := none, Deleted := false, CreatedAt := 7 }] ∧
    ObjectIDFromHex "000000000000000000000006" = some ⟨6⟩ ∧
    getProjectRole sampleDatabase ⟨6⟩ ⟨0xaaaaaaaaaaaaaaaaaaaaaaaa⟩
      = (0, some Error.ErrForbidden) ∧
    1 ∈ ((WhiteboardWS.connect Registry.init 1 "000000000000000000000006"
          (some sampleUserHex) "Alice").1.heap 0).clients := by
  refine ⟨by decide, by decide, by decide, by decide, by decide, by decide, by decide,
    by decide, by decide⟩


/-! ## Theorems: API keys -/

theorem hextable_getD_isLowerHex (i : Nat) (hi : i < 16) :
    isLowerHex (hextable.getD i 0) = true := by
  interval_cases i <;> decide

theorem EncodeToString_length (src : GoBytes) :
    (EncodeToString src).length = 2 * src.length := by
  induction src with
  | nil => rfl
  | cons v rest ih =>
    simp only [EncodeToString, List.length_cons, ih]
    omega

theorem EncodeToString_isLowerHex (src : GoBytes) :
    ∀ ch ∈ EncodeToString src, isLowerHex ch = true := by
  induction src with
  | nil => intro ch h; simp [EncodeToString] at h
  | cons v rest ih =>
    intro ch h
    simp only [EncodeToString, List.mem_cons] at h
    rcases h with h | h | h
    · rw [h]
      exact hextable_getD_isLowerHex _ (by have := v.isLt; omega)
    · rw [h]
      exact hextable_getD_isLowerHex _ (Nat.mod_lt _ (by decide))
    · exact ih ch h

/-- C20: whenever the random source succeeds, `generateAPIKey` returns a raw key
that is "fpmb_" followed by exactly 64 lowercase hexadecimal characters, 69
bytes in all, together with the hexadecimal encoding, 64 lowercase hexadecimal
characters, of the SHA-256 digest of that raw key; `raw[:10]` in `CreateAPIKey`
is in range, and the key built there has as Prefix "fpmb_" followed by the first
five of the 64 characters, and as KeyHash that digest. -/
theorem generateAPIKey_shape (src : Nat → Byte) (Sum256 : GoBytes → Fin 32 → Byte)
    (userID newID : ObjectID) (name : String) (scopes : List String) (now : Time) :
    fpmbPrefix.asString = "fpmb_" ∧
    ∃ hex : GoBytes,
      hex = EncodeToString ((List.range 32).map src) ∧
      hex.length = 64 ∧ (∀ ch ∈ hex, isLowerHex ch = true) ∧
      (fpmbPrefix ++ hex).length = 69 ∧
      generateAPIKey (some src) Sum256
        = some (fpmbPrefix ++ hex, EncodeToString (List.ofFn (Sum256 (fpmbPrefix ++ hex)))) ∧
      (EncodeToString (List.ofFn (Sum256 (fpmbPrefix ++ hex)))).length = 64 ∧
      (∀ ch ∈ EncodeToString (List.ofFn (Sum256 (fpmbPrefix ++ hex))),
        isLowerHex ch = true) ∧
      sliceTo (fpmbPrefix ++ hex) 10 = some (fpmbPrefix ++ hex.take 5) ∧
      CreateAPIKey.newKey userID name scopes (some src) Sum256 newID now
        = NewAPIKey.built
            { ID := newID, UserID := userID, Name := name, Scopes := scopes,
              KeyHash := EncodeToString (List.ofFn (Sum256 (fpmbPrefix ++ hex))),
              Prefix := fpmbPrefix ++ hex.take 5, LastUsed := none, RevokedAt := none,
              CreatedAt := now }
            (fpmbPrefix ++ hex) := by
  have hlen : (EncodeToString ((List.range 32).map src)).length = 64 := by
    rw [EncodeToString_length]; simp
  have hslice : sliceTo (fpmbPrefix ++ EncodeToString ((List.range 32).map src)) 10
      = some (fpmbPrefix ++ (EncodeToString ((List.range 32).map src)).take 5) := by
    have h69 : (fpmbPrefix ++ EncodeToString ((List.range 32).map src)).length = 69 := by
      rw [List.length_append, hlen]; rfl
    have h5 : fpmbPrefix.length = 5 := rfl
    simp only [sliceTo, h69]
    rw [if_pos (by omega), List.take_append_eq_append_take, h5]
    have : List.take 10 fpmbPrefix = fpmbPrefix := List.take_of_length_le (by rw [h5]; omega)
    rw [this]
  refine ⟨by decide, _, rfl, hlen, EncodeToString_isLowerHex _, ?_, rfl, ?_,
    EncodeToString_isLowerHex _, hslice, ?_⟩
  · rw [List.length_append, hlen]; rfl
  · rw [EncodeToString_length]; simp
  · simp only [CreateAPIKey.newKey, generateAPIKey, hslice]


/-! ## Theorems: frames that are dropped, disconnects -/

/-- C22 fails on the code: a frame that parses with an error is dropped and a
frame that parses to an object is relayed, both without a runtime failure, but
the frame `null` (no parse error, `incoming` left nil) ends in the run-time panic
of a write to a nil map, for every registry state and session. -/
theorem whiteboard_null_frame_panics (st : Registry) (s : Session) :
    WhiteboardWS.onFrame st s wsParsed.nilMap
      = Except.error "assignment to entry in nil map" ∧
    (∀ effs, WhiteboardWS.onFrame st s wsParsed.nilMap ≠ Except.ok effs) ∧
    WhiteboardWS.onFrame st s wsParsed.err = Except.ok [] ∧
    (∀ incoming, ∃ effs,
      WhiteboardWS.onFrame st s (wsParsed.object incoming) = Except.ok effs) := by
  refine ⟨rfl, ?_, rfl, fun incoming => ⟨_, rfl⟩⟩
  intro effs h
  simp [WhiteboardWS.onFrame] at h

/-- C23: for every whiteboard frame whose parse returns an error, one iteration
of the receive loop completes normally with no effect at all: no frame is
written to any connection, nothing is closed, no store call is made; the
iteration takes the registry only as an input, so rooms and registry are as
before, and the loop goes on. -/
theorem whiteboard_unparseable_frame_dropped (st : Registry) (s : Session) :
    WhiteboardWS.onFrame st s wsParsed.err = Except.ok [] ∧
    (∀ effs, WhiteboardWS.onFrame st s wsParsed.err = Except.ok effs →
      ∀ conn, framesTo conn effs = []) := by
  refine ⟨rfl, ?_⟩
  intro effs h conn
  have : effs = [] := by
    simp only [WhiteboardWS.onFrame] at h
    exact (Except.ok.inj h).symm
  rw [this]; rfl

theorem TeamChatWS.onFrame_typing (st : Registry) (db : Database) (s : Session)
    (incoming : chatIncoming) (newID : ObjectID) (now : Time) (outcome : InsertOutcome)
    (htype : incoming.type = "typing") :
    TeamChatWS.onFrame st db s (some incoming) newID now outcome
      = (db, chatRoom.broadcast (st.heap s.room) (some s.c)
          (Frame.typing s.userID s.userName)) := by
  have hne : ¬ incoming.type = "message" := by rw [htype]; decide
  simp only [TeamChatWS.onFrame]
  rw [if_neg hne, if_pos htype]

/-- C24: a chat frame that does not parse, a frame whose type is neither
"message" nor "typing", and a "message" frame whose trimmed content is empty or
longer than 5000 bytes or whose session has a team id or user id that is not an
object id, all leave the store as it was and have no effect: no frame is written
to anyone, no persistence call is made; the iteration takes the registry only as
an input, so the room is as before, and the loop continues. -/
theorem chat_rejected_frame_dropped (st : Registry) (db : Database) (s : Session)
    (newID : ObjectID) (now : Time) (outcome : InsertOutcome) :
    TeamChatWS.onFrame st db s none newID now outcome = (db, []) ∧
    (∀ incoming : chatIncoming, incoming.type ≠ "message" → incoming.type ≠ "typing" →
      TeamChatWS.onFrame st db s (some incoming) newID now outcome = (db, [])) ∧
    (∀ incoming : chatIncoming, incoming.type = "message" →
      (TrimSpace incoming.content = "" ∨ (TrimSpace incoming.content).utf8ByteSize > 5000 ∨
        ObjectIDFromHex s.key = none ∨ ObjectIDFromHex s.userID = none) →
      TeamChatWS.onFrame st db s (some incoming) newID now outcome = (db, [])) ∧
    framesTo s.c ([] : List Effect) = [] ∧ inserts ([] : List Effect) = [] := by
  refine ⟨rfl, ?_, ?_, rfl, rfl⟩
  · intro incoming h1 h2
    simp only [TeamChatWS.onFrame]
    rw [if_neg h1, if_neg h2]
  · intro incoming htype hrej
    simp only [TeamChatWS.onFrame]
    rw [if_pos htype]
    by_cases hc : TrimSpace incoming.content = "" ∨
        (TrimSpace incoming.content).utf8ByteSize > 5000
    · rw [if_pos hc]
    · rw [if_neg hc]
      have hid : ObjectIDFromHex s.key = none ∨ ObjectIDFromHex s.userID = none := by
        rcases hrej with h | h | h | h
        · exact absurd (Or.inl h) hc
        · exact absurd (Or.inr h) hc
        · exact Or.inl h
        · exact Or.inr h
      rcases hid with h | h
      · rw [h]
      · rw [h]
        cases ObjectIDFromHex s.key <;> rfl

/-- Instance of C24: a "message" frame holding only blanks is dropped. -/
theorem chat_rejected_frame_dropped_witness :
    TeamChatWS.onFrame sampleChatRegistry sampleDatabase sampleChatSession
      (some { type := "message", content := "   " }) ⟨500⟩ 7 InsertOutcome.inserted
      = (sampleDatabase, []) :=
  (chat_rejected_frame_dropped sampleChatRegistry sampleDatabase sampleChatSession ⟨500⟩ 7
    InsertOutcome.inserted).2.2.1 { type := "message", content := "   " } rfl
      (Or.inl (by decide))

theorem WhiteboardWS.onClose_heap (st : Registry) (s : Session) :
    (WhiteboardWS.onClose st s).1.heap s.room = ⟨(st.heap s.room).clients.erase s.c⟩ := by
  simp only [WhiteboardWS.onClose, Registry.deregister]
  split <;> simp [Registry.deleteEntry]

theorem keys_length_eq_zero_iff (r : whiteboardRoom) :
    r.clients.keys.length = 0 ↔ ∀ conn, conn ∉ r.clients := by
  rw [List.length_eq_zero]
  constructor
  · intro h conn hc
    rw [AList.mem_keys, h] at hc
    exact absurd hc (List.not_mem_nil _)
  · intro h
    apply List.eq_nil_iff_forall_not_mem.2
    intro conn hc
    exact h conn (AList.mem_keys.2 hc)

/-- C25: on a whiteboard disconnect the connection is removed from the room of
its session; the only effects are writes of one "leave" frame, carrying the
leaver's userID and name and `userList` of the room after the removal, one to
each connection remaining in that room, none to the leaver or to anyone else;
the registry entry of the board is deleted when no connection remains in the
room and the registry map is unchanged when one remains. -/
theorem whiteboard_disconnect (st : Registry) (s : Session) :
    (∀ conn, conn ∈ ((WhiteboardWS.onClose st s).1.heap s.room).clients ↔
      conn ≠ s.c ∧ conn ∈ (st.heap s.room).clients) ∧
    (∀ conn, conn ∈ ((WhiteboardWS.onClose st s).1.heap s.room).clients →
      framesTo conn (WhiteboardWS.onClose st s).2
        = [Frame.leave s.userID s.userName
            ((WhiteboardWS.onClose st s).1.heap s.room).userList]) ∧
    (∀ conn, conn ∉ ((WhiteboardWS.onClose st s).1.heap s.room).clients →
      framesTo conn (WhiteboardWS.onClose st s).2 = []) ∧
    framesTo s.c (WhiteboardWS.onClose st s).2 = [] ∧
    (∀ e ∈ (WhiteboardWS.onClose st s).2, ∃ conn, e = Effect.write conn
      (Frame.leave s.userID s.userName
        ((WhiteboardWS.onClose st s).1.heap s.room).userList)) ∧
    ((∀ conn, conn ∉ ((WhiteboardWS.onClose st s).1.heap s.room).clients) →
      (WhiteboardWS.onClose st s).1.m = st.m.erase s.key ∧
      s.key ∉ (WhiteboardWS.onClose st s).1.m) ∧
    ((∃ conn, conn ∈ ((WhiteboardWS.onClose st s).1.heap s.room).clients) →
      (WhiteboardWS.onClose st s).1.m = st.m) := by
  have hheap := WhiteboardWS.onClose_heap st s
  have heff : (WhiteboardWS.onClose st s).2
      = ((WhiteboardWS.onClose st s).1.heap s.room).broadcast none
          (Frame.leave s.userID s.userName
            ((WhiteboardWS.onClose st s).1.heap s.room).userList) := by
    rw [hheap]
    simp [WhiteboardWS.onClose, Registry.deregister]
  have hmem : ∀ conn, conn ∈ ((WhiteboardWS.onClose st s).1.heap s.room).clients ↔
      conn ≠ s.c ∧ conn ∈ (st.heap s.room).clients := by
    intro conn
    rw [hheap]
    exact AList.mem_erase
  have hzero := keys_length_eq_zero_iff ⟨(st.heap s.room).clients.erase s.c⟩
  refine ⟨hmem, ?_, ?_, ?_, ?_, ?_, ?_⟩
  · intro conn hin
    rw [heff, framesTo_broadcast]
    simp [hin]
  · intro conn hnot
    rw [heff, framesTo_broadcast]
    simp [hnot]
  · rw [heff, framesTo_broadcast]
    have : s.c ∉ ((WhiteboardWS.onClose st s).1.heap s.room).clients :=
      fun h => ((hmem s.c).1 h).1 rfl
    simp [this]
  · intro e he
    rw [heff] at he
    simp only [whiteboardRoom.broadcast, List.mem_map] at he
    obtain ⟨conn, -, rfl⟩ := he
    exact ⟨conn, rfl⟩
  · intro hall
    rw [hheap] at hall
    have h0 : ((st.heap s.room).clients.erase s.c).keys.length = 0 := hzero.2 hall
    have hm : (WhiteboardWS.onClose st s).1.m = st.m.erase s.key := by
      simp only [WhiteboardWS.onClose, Registry.deregister, h0, decide_True, if_true,
        Registry.deleteEntry]
    refine ⟨hm, ?_⟩
    rw [hm, AList.mem_erase]
    exact fun h => h.1 rfl
  · rintro ⟨conn, hin⟩
    rw [hheap] at hin
    have h0 : ¬ ((st.heap s.room).clients.erase s.c).keys.length = 0 :=
      fun h => (hzero.1 h) conn hin
    simp only [WhiteboardWS.onClose, Registry.deregister, h0, decide_False]
    rfl

/-- Instance of C25: connection 1 is alone in the room of board "b1"; after its
disconnect the board has no registry entry. -/
theorem whiteboard_disconnect_witness :
    "b1" ∉ (WhiteboardWS.onClose
        (WhiteboardWS.connect Registry.init 1 "b1" (some "A") "Alice").1
        { c := 1, key := "b1", userID := "A", userName := "Alice", room := 0 }).1.m :=
  ((whiteboard_disconnect
      (WhiteboardWS.connect Registry.init 1 "b1" (some "A") "Alice").1
      { c := 1, key := "b1", userID := "A", userName := "Alice", room := 0 }).2.2.2.2.2.1
    (by
      intro conn
      rw [WhiteboardWS.onClose_heap]
      intro h
      have h2 := AList.mem_erase.1 h
      have h3 : conn ∈ ((WhiteboardWS.connect Registry.init 1 "b1" (some "A")
          "Alice").1.heap 0).clients := h2.2
      simp only [WhiteboardWS.connect, getRoom, Registry.init, Registry.register,
        AList.lookup_empty, Function.update_same, AList.insert_empty] at h3
      rw [AList.mem_keys, AList.keys_singleton, List.mem_singleton] at h3
      exact h2.1 h3)).2

/-! ## Theorems: ordinal test against display name -/

/-- C27: for every flags value in 1..15 and every required tier r in {1,2,4,8},
`hasPermission flags r` holds if and only if r is at most the tier value of
`roleName flags`. -/
theorem hasPermission_agrees_with_roleName (flags r : Int) (hlo : 1 ≤ flags)
    (hhi : flags ≤ 15) (hr : r = 1 ∨ r = 2 ∨ r = 4 ∨ r = 8) :
    hasPermission flags r = true ↔ r ≤ roleTier (roleName flags) := by
  interval_cases flags <;> rcases hr with h | h | h | h <;> subst h <;> decide

/-- Instance of C27: flags 6 (Editor and Admin bits) has display name "Admin"
and does not pass a check for Owner. -/
theorem hasPermission_agrees_with_roleName_witness :
    hasPermission 6 8 = true ↔ (8 : Int) ≤ roleTier (roleName 6) :=
  hasPermission_agrees_with_roleName 6 8 (by decide) (by decide)
    (Or.inr (Or.inr (Or.inr rfl)))

/-! ## Theorems: chat sessions whose ids are not object ids -/

/-- C30: in a chat session whose room key or whose token user id is not a
24-hex-digit object id, every frame of type "message" is dropped, whatever its
content: the store is unchanged, no persistence call is made and nothing is
written to anyone. A connection with such a key and user id is nevertheless
admitted by `connect`: it is registered in the room, gets a session, and its
user id is listed in the presence snapshot sent at the join; and its "typing"
frames still reach every other connection of the room. -/
theorem invalid_ids_drop_every_message (st : Registry) (db : Database) (s : Session)
    (incoming : chatIncoming) (newID : ObjectID) (now : Time) (outcome : InsertOutcome)
    (htype : incoming.type = "message")
    (hbad : ObjectIDFromHex s.key = none ∨ ObjectIDFromHex s.userID = none) :
    TeamChatWS.onFrame st db s (some incoming) newID now outcome = (db, []) ∧
    inserts (TeamChatWS.onFrame st db s (some incoming) newID now outcome).2 = [] ∧
    (∀ conn, framesTo conn (TeamChatWS.onFrame st db s (some incoming) newID now outcome).2
      = []) ∧
    (∀ (st0 : Registry) (c : Conn) (userName : String),
      c ∈ ((TeamChatWS.connect st0 c s.key (some s.userID) userName).1.heap
            (getChatRoom st0 s.key).2).clients ∧
      (TeamChatWS.connect st0 c s.key (some s.userID) userName).2.2
        = some { c := c, key := s.key, userID := s.userID, userName := userName,
                 room := (getChatRoom st0 s.key).2 } ∧
      framesTo c (TeamChatWS.connect st0 c s.key (some s.userID) userName).2.1
        = [Frame.presence (chatRoom.onlineUsers
            ((TeamChatWS.connect st0 c s.key (some s.userID) userName).1.heap
              (getChatRoom st0 s.key).2))] ∧
      s.userID ∈ (chatRoom.onlineUsers
          ((TeamChatWS.connect st0 c s.key (some s.userID) userName).1.heap
            (getChatRoom st0 s.key).2)).map UserEntry.user_id) ∧
    (∀ (typing : chatIncoming), typing.type = "typing" →
      ∀ conn, conn ∈ (st.heap s.room).clients → conn ≠ s.c →
        framesTo conn (TeamChatWS.onFrame st db s (some typing) newID now outcome).2
          = [Frame.typing s.userID s.userName]) := by
  have hdrop : TeamChatWS.onFrame st db s (some incoming) newID now outcome = (db, []) := by
    simp only [TeamChatWS.onFrame]
    rw [if_pos htype]
    by_cases hc : TrimSpace incoming.content = "" ∨
        (TrimSpace incoming.content).utf8ByteSize > 5000
    · rw [if_pos hc]
    · rw [if_neg hc]
      rcases hbad with h | h
      · rw [h]
      · rw [h]
        cases ObjectIDFromHex s.key <;> rfl
  refine ⟨hdrop, ?_, ?_, ?_, ?_⟩
  · rw [hdrop]; rfl
  · intro conn; rw [hdrop]; rfl
  · intro st0 c userName
    have hc : c ∈ ((TeamChatWS.connect st0 c s.key (some s.userID) userName).1.heap
        (getChatRoom st0 s.key).2).clients := by
      simp [TeamChatWS.connect, mem_register_clients]
    refine ⟨hc, rfl, ?_, ?_⟩
    · have hc' := hc
      simp only [TeamChatWS.connect] at hc' ⊢
      rw [framesTo_broadcastAll, if_pos hc']
    · rw [(onlineUsers_spec _).2.1]
      refine ⟨c, { conn := c, userID := s.userID, name := userName }, ?_, rfl⟩
      simp [TeamChatWS.connect, Registry.register]
  · intro typing ht conn hin hne
    rw [TeamChatWS.onFrame_typing st db s typing newID now outcome ht,
      framesTo_chat_broadcast]
    simp [hin, hne]

/-- Instance of C30: in the room "general" (not an object id) the message
"hello" of connection 1 is dropped. -/
theorem invalid_ids_drop_every_message_witness :
    TeamChatWS.onFrame
      (TeamChatWS.connect Registry.init 1 "general" (some sampleUserHex) "Alice").1
      sampleDatabase
      { c := 1, key := "general", userID := sampleUserHex, userName := "Alice", room := 0 }
      (some { type := "message", content := "hello" }) ⟨500⟩ 7 InsertOutcome.inserted
      = (sampleDatabase, []) :=
  (invalid_ids_drop_every_message
    (TeamChatWS.connect Registry.init 1 "general" (some sampleUserHex) "Alice").1
    sampleDatabase
    { c := 1, key := "general", userID := sampleUserHex, userName := "Alice", room := 0 }
    { type := "message", content := "hello" } ⟨500⟩ 7 InsertOutcome.inserted rfl
    (Or.inl (by decide))).1


/-! ## Theorems: interleaved sessions -/

/-- C21 fails on the code. Connection 1 joins board "b1" and starts to leave:
it is removed from the room and records `empty = true`. Before its cleanup runs,
connection 2 looks the room up (it is still registered) and registers in it.
The cleanup of connection 1 then deletes the entry of "b1" although the room
registered under it holds one client at that moment; afterwards connection 2 is
in the receive loop, registered in a room that is not registered under its
key. -/
theorem cleanup_deletes_room_in_use :
    ((Interleaved.start twoActivations).run [1, 1, 1, 2, 2]).reg.m.lookup "b1" = some 0 ∧
    ((Interleaved.start twoActivations).run [1, 1, 1, 2, 2]).acts 1
      = some { key := "b1", c := 1, userID := "A", userName := "Alice",
               pc := Pc.leaving 0 true } ∧
    ((Interleaved.start twoActivations).run [1, 1, 1, 2, 2]).acts 2
      = some { key := "b1", c := 2, userID := "B", userName := "Bob",
               pc := Pc.relaying 0 } ∧
    (((Interleaved.start twoActivations).run [1, 1, 1, 2, 2]).reg.heap 0).clients.keys
      = [2] ∧
    ((Interleaved.start twoActivations).run [1, 1, 1, 2, 2, 1]).reg.m.lookup "b1" = none ∧
    (((Interleaved.start twoActivations).run [1, 1, 1, 2, 2, 1]).reg.heap 0).clients.keys
      = [2] ∧
    ((Interleaved.start twoActivations).run [1, 1, 1, 2, 2, 1]).acts 2
      = some { key := "b1", c := 2, userID := "B", userName := "Bob",
               pc := Pc.relaying 0 } := by
  refine ⟨by decide, by decide, by decide, by decide, by decide, by decide, by decide⟩


/-! ## Theorems: membership handlers -/

theorem teamAdminGate_false_iff (db : Database) (userIDHex teamIDHex : String)
    (u t : ObjectID) (hu : ObjectIDFromHex userIDHex = some u)
    (ht : ObjectIDFromHex teamIDHex = some t) :
    teamAdminGate db userIDHex teamIDHex = false ↔
      ((getTeamRole db t u).2 ≠ none ∨ hasPermission (getTeamRole db t u).1 RoleAdmin = false) := by
  simp only [teamAdminGate, hu, ht]
  cases h1 : (getTeamRole db t u).2 <;> cases h2 : hasPermission (getTeamRole db t u).1 RoleAdmin <;>
    simp

theorem projectAdminGate_false_iff (db : Database) (userIDHex projectIDHex : String)
    (u p : ObjectID) (hu : ObjectIDFromHex userIDHex = some u)
    (hp : ObjectIDFromHex projectIDHex = some p) :
    projectAdminGate db userIDHex projectIDHex = false ↔
      ((getProjectRole db p u).2 ≠ none ∨
        hasPermission (getProjectRole db p u).1 RoleAdmin = false) := by
  simp only [projectAdminGate, hu, hp]
  cases h1 : (getProjectRole db p u).2 <;>
    cases h2 : hasPermission (getProjectRole db p u).1 RoleAdmin <;> simp

theorem InviteTeamMember_gated (db : Database) (userIDHex teamIDHex : String)
    (body : Option inviteTeamMemberBody) (memberID notifID : ObjectID)
    (now notifNow : Time) (o1 o2 : InsertOutcome)
    (hgate : teamAdminGate db userIDHex teamIDHex = false) :
    (InviteTeamMember db userIDHex teamIDHex body memberID notifID now notifNow o1 o2).1 = db ∧
    (∀ u t b, ObjectIDFromHex userIDHex = some u → ObjectIDFromHex teamIDHex = some t →
      body = some b → b.Email ≠ "" →
      InviteTeamMember db userIDHex teamIDHex body memberID notifID now notifNow o1 o2
        = (db, 403)) := by
  constructor
  · cases hu : ObjectIDFromHex userIDHex with
    | none => simp [InviteTeamMember, hu]
    | some u =>
      cases ht : ObjectIDFromHex teamIDHex with
      | none => simp [InviteTeamMember, hu, ht]
      | some t =>
        have hg := (teamAdminGate_false_iff db userIDHex teamIDHex u t hu ht).1 hgate
        cases body with
        | none => simp [InviteTeamMember, hu, ht]
        | some b =>
          by_cases hb : b.Email = ""
          · simp [InviteTeamMember, hu, ht, hb]
          · simp only [InviteTeamMember, hu, ht, hb, if_false, if_pos hg]
  · intro u t b hu ht hbody hb
    have hg := (teamAdminGate_false_iff db userIDHex teamIDHex u t hu ht).1 hgate
    subst hbody
    simp only [InviteTeamMember, hu, ht, hb, if_false, if_pos hg]

theorem UpdateTeamMemberRole_gated (db : Database) (userIDHex teamIDHex targetHex : String)
    (body : Option roleFlagsBody) (o : WriteOutcome)
    (hgate : teamAdminGate db userIDHex teamIDHex = false) :
    (UpdateTeamMemberRole db userIDHex teamIDHex targetHex body o).1 = db ∧
    (∀ u t x b, ObjectIDFromHex userIDHex = some u → ObjectIDFromHex teamIDHex = some t →
      ObjectIDFromHex targetHex = some x → body = some b →
      UpdateTeamMemberRole db userIDHex teamIDHex targetHex body o = (db, 403)) := by
  constructor
  · cases hu : ObjectIDFromHex userIDHex with
    | none => simp [UpdateTeamMemberRole, hu]
    | some u =>
      cases ht : ObjectIDFromHex teamIDHex with
      | none => simp [UpdateTeamMemberRole, hu, ht]
      | some t =>
        have hg := (teamAdminGate_false_iff db userIDHex teamIDHex u t hu ht).1 hgate
        cases hx : ObjectIDFromHex targetHex with
        | none => simp [UpdateTeamMemberRole, hu, ht, hx]
        | some x =>
          cases body with
          | none => simp [UpdateTeamMemberRole, hu, ht, hx]
          | some b => simp only [UpdateTeamMemberRole, hu, ht, hx, if_pos hg]
  · intro u t x b hu ht hx hbody
    have hg := (teamAdminGate_false_iff db userIDHex teamIDHex u t hu ht).1 hgate
    subst hbody
    simp only [UpdateTeamMemberRole, hu, ht, hx, if_pos hg]

theorem RemoveTeamMember_gated (db : Database) (userIDHex teamIDHex targetHex : String)
    (o : WriteOutcome) (hgate : teamAdminGate db userIDHex teamIDHex = false) :
    (RemoveTeamMember db userIDHex teamIDHex targetHex o).1 = db ∧
    (∀ u t x, ObjectIDFromHex userIDHex = some u → ObjectIDFromHex teamIDHex = some t →
      ObjectIDFromHex targetHex = some x →
      RemoveTeamMember db userIDHex teamIDHex targetHex o = (db, 403)) := by
  constructor
  · cases hu : ObjectIDFromHex userIDHex with
    | none => simp [RemoveTeamMember, hu]
    | some u =>
      cases ht : ObjectIDFromHex teamIDHex with
      | none => simp [RemoveTeamMember, hu, ht]
      | some t =>
        have hg := (teamAdminGate_false_iff db userIDHex teamIDHex u t hu ht).1 hgate
        cases hx : ObjectIDFromHex targetHex with
        | none => simp [RemoveTeamMember, hu, ht, hx]
        | some x => simp only [RemoveTeamMember, hu, ht, hx, if_pos hg]
  · intro u t x hu ht hx
    have hg := (teamAdminGate_false_iff db userIDHex teamIDHex u t hu ht).1 hgate
    simp only [RemoveTeamMember, hu, ht, hx, if_pos hg]

theorem AddProjectMember_gated (db : Database) (userIDHex projectIDHex : String)
    (body : Option addProjectMemberBody) (memberID : ObjectID) (now : Time)
    (o : InsertOutcome) (hgate : projectAdminGate db userIDHex projectIDHex = false) :
    (AddProjectMember db userIDHex projectIDHex body memberID now o).1 = db ∧
    (∀ u p b x, ObjectIDFromHex userIDHex = some u → ObjectIDFromHex projectIDHex = some p →
      body = some b → ObjectIDFromHex b.UserID = some x →
      AddProjectMember db userIDHex projectIDHex body memberID now o = (db, 403)) := by
  constructor
  · cases hu : ObjectIDFromHex userIDHex with
    | none => simp [AddProjectMember, hu]
    | some u =>
      cases hp : ObjectIDFromHex projectIDHex with
      | none => simp [AddProjectMember, hu, hp]
      | some p =>
        have hg := (projectAdminGate_false_iff db userIDHex projectIDHex u p hu hp).1 hgate
        cases body with
        | none => simp [AddProjectMember, hu, hp]
        | some b =>
          cases hx : ObjectIDFromHex b.UserID with
          | none => simp [AddProjectMember, hu, hp, hx]
          | some x => simp only [AddProjectMember, hu, hp, hx, if_pos hg]
  · intro u p b x hu hp hbody hx
    have hg := (projectAdminGate_false_iff db userIDHex projectIDHex u p hu hp).1 hgate
    subst hbody
    simp only [AddProjectMember, hu, hp, hx, if_pos hg]

theorem UpdateProjectMemberRole_gated (db : Database)
    (userIDHex projectIDHex targetHex : String) (body : Option roleFlagsBody)
    (o : WriteOutcome) (hgate : projectAdminGate db userIDHex projectIDHex = false) :
    (UpdateProjectMemberRole db userIDHex projectIDHex targetHex body o).1 = db ∧
    (∀ u p x, ObjectIDFromHex userIDHex = some u → ObjectIDFromHex projectIDHex = some p →
      ObjectIDFromHex targetHex = some x →
      UpdateProjectMemberRole db userIDHex projectIDHex targetHex body o = (db, 403)) := by
  constructor
  · cases hu : ObjectIDFromHex userIDHex with
    | none => simp [UpdateProjectMemberRole, hu]
    | some u =>
      cases hp : ObjectIDFromHex projectIDHex with
      | none => simp [UpdateProjectMemberRole, hu, hp]
      | some p =>
        have hg := (projectAdminGate_false_iff db userIDHex projectIDHex u p hu hp).1 hgate
        cases hx : ObjectIDFromHex targetHex with
        | none => simp [UpdateProjectMemberRole, hu, hp, hx]
        | some x => simp only [UpdateProjectMemberRole, hu, hp, hx, if_pos hg]
  · intro u p x hu hp hx
    have hg := (projectAdminGate_false_iff db userIDHex projectIDHex u p hu hp).1 hgate
    simp only [UpdateProjectMemberRole, hu, hp, hx, if_pos hg]

theorem RemoveProjectMember_gated (db : Database) (userIDHex projectIDHex targetHex : String)
    (o : WriteOutcome) (hgate : projectAdminGate db userIDHex projectIDHex = false) :
    (RemoveProjectMember db userIDHex projectIDHex targetHex o).1 = db ∧
    (∀ u p x, ObjectIDFromHex userIDHex = some u → ObjectIDFromHex projectIDHex = some p →
      ObjectIDFromHex targetHex = some x →
      RemoveProjectMember db userIDHex projectIDHex targetHex o = (db, 403)) := by
  constructor
  · cases hu : ObjectIDFromHex userIDHex with
    | none => simp [RemoveProjectMember, hu]
    | some u =>
      cases hp : ObjectIDFromHex projectIDHex with
      | none => simp [RemoveProjectMember, hu, hp]
      | some p =>
        have hg := (projectAdminGate_false_iff db userIDHex projectIDHex u p hu hp).1 hgate
        cases hx : ObjectIDFromHex targetHex with
        | none => simp [RemoveProjectMember, hu, hp, hx]
        | some x => simp only [RemoveProjectMember, hu, hp, hx, if_pos hg]
  · intro u p x hu hp hx
    have hg := (projectAdminGate_false_iff db userIDHex projectIDHex u p hu hp).1 hgate
    simp only [RemoveProjectMember, hu, hp, hx, if_pos hg]

theorem InviteTeamMember_validation (db : Database) (userIDHex teamIDHex : String)
    (body : Option inviteTeamMemberBody) (memberID notifID : ObjectID)
    (now notifNow : Time) (o1 o2 : InsertOutcome) :
    (ObjectIDFromHex userIDHex = none →
      InviteTeamMember db userIDHex teamIDHex body memberID notifID now notifNow o1 o2
        = (db, 401)) ∧
    (∀ u, ObjectIDFromHex userIDHex = some u →
      (ObjectIDFromHex teamIDHex = none ∨ body = none ∨ ∃ b, body = some b ∧ b.Email = "") →
      InviteTeamMember db userIDHex teamIDHex body memberID notifID now notifNow o1 o2
        = (db, 400)) := by
  constructor
  · intro hu
    simp [InviteTeamMember, hu]
  · intro u hu hbad
    cases ht : ObjectIDFromHex teamIDHex with
    | none => simp [InviteTeamMember, hu, ht]
    | some t =>
      rcases hbad with h | h | ⟨b, hb, he⟩
      · rw [ht] at h
        exact absurd h (by simp)
      · subst h
        simp [InviteTeamMember, hu, ht]
      · subst hb
        simp [InviteTeamMember, hu, ht, he]

theorem UpdateTeamMemberRole_validation (db : Database)
    (userIDHex teamIDHex targetHex : String) (body : Option roleFlagsBody) (o : WriteOutcome) :
    (ObjectIDFromHex userIDHex = none →
      UpdateTeamMemberRole db userIDHex teamIDHex targetHex body o = (db, 401)) ∧
    (∀ u, ObjectIDFromHex userIDHex = some u →
      (ObjectIDFromHex teamIDHex = none ∨ ObjectIDFromHex targetHex = none ∨ body = none) →
      UpdateTeamMemberRole db userIDHex teamIDHex targetHex body o = (db, 400)) := by
  constructor
  · intro hu
    simp [UpdateTeamMemberRole, hu]
  · intro u hu hbad
    cases ht : ObjectIDFromHex teamIDHex with
    | none => simp [UpdateTeamMemberRole, hu, ht]
    | some t =>
      cases hx : ObjectIDFromHex targetHex with
      | none => simp [UpdateTeamMemberRole, hu, ht, hx]
      | some x =>
        rcases hbad with h | h | h
        · rw [ht] at h
          exact absurd h (by simp)
        · rw [hx] at h
          exact absurd h (by simp)
        · subst h
          simp [UpdateTeamMemberRole, hu, ht, hx]

theorem RemoveTeamMember_validation (db : Database)
    (userIDHex teamIDHex targetHex : String) (o : WriteOutcome) :
    (ObjectIDFromHex userIDHex = none →
      RemoveTeamMember db userIDHex teamIDHex targetHex o = (db, 401)) ∧
    (∀ u, ObjectIDFromHex userIDHex = some u →
      (ObjectIDFromHex teamIDHex = none ∨ ObjectIDFromHex targetHex = none) →
      RemoveTeamMember db userIDHex teamIDHex targetHex o = (db, 400)) := by
  constructor
  · intro hu
    simp [RemoveTeamMember, hu]
  · intro u hu hbad
    cases ht : ObjectIDFromHex teamIDHex with
    | none => simp [RemoveTeamMember, hu, ht]
    | some t =>
      rcases hbad with h | h
      · rw [ht] at h
        exact absurd h (by simp)
      · simp [RemoveTeamMember, hu, ht, h]

theorem AddProjectMember_validation (db : Database) (userIDHex projectIDHex : String)
    (body : Option addProjectMemberBody) (memberID : ObjectID) (now : Time)
    (o : InsertOutcome) :
    (ObjectIDFromHex userIDHex = none →
      AddProjectMember db userIDHex projectIDHex body memberID now o = (db, 401)) ∧
    (∀ u, ObjectIDFromHex userIDHex = some u →
      (ObjectIDFromHex projectIDHex = none ∨ body = none ∨
        ∃ b, body = some b ∧ ObjectIDFromHex b.UserID = none) →
      AddProjectMember db userIDHex projectIDHex body memberID now o = (db, 400)) := by
  constructor
  · intro hu
    simp [AddProjectMember, hu]
  · intro u hu hbad
    cases hp : ObjectIDFromHex projectIDHex with
    | none => simp [AddProjectMember, hu, hp]
    | some p =>
      rcases hbad with h | h | ⟨b, hb, hx⟩
      · rw [hp] at h
        exact absurd h (by simp)
      · subst h
        simp [AddProjectMember, hu, hp]
      · subst hb
        simp [AddProjectMember, hu, hp, hx]

theorem UpdateProjectMemberRole_validation (db : Database)
    (userIDHex projectIDHex targetHex : String) (body : Option roleFlagsBody)
    (o : WriteOutcome) :
    (ObjectIDFromHex userIDHex = none →
      UpdateProjectMemberRole db userIDHex projectIDHex targetHex body o = (db, 401)) ∧
    (∀ u, ObjectIDFromHex userIDHex = some u →
      (ObjectIDFromHex projectIDHex = none ∨ ObjectIDFromHex targetHex = none) →
      UpdateProjectMemberRole db userIDHex projectIDHex targetHex body o = (db, 400)) := by
  constructor
  · intro hu
    simp [UpdateProjectMemberRole, hu]
  · intro u hu hbad
    cases hp : ObjectIDFromHex projectIDHex with
    | none => simp [UpdateProjectMemberRole, hu, hp]
    | some p =>
      rcases hbad with h | h
      · rw [hp] at h
        exact absurd h (by simp)
      · simp [UpdateProjectMemberRole, hu, hp, h]

theorem RemoveProjectMember_validation (db : Database)
    (userIDHex projectIDHex targetHex : String) (o : WriteOutcome) :
    (ObjectIDFromHex userIDHex = none →
      RemoveProjectMember db userIDHex projectIDHex targetHex o = (db, 401)) ∧
    (∀ u, ObjectIDFromHex userIDHex = some u →
      (ObjectIDFromHex projectIDHex = none ∨ ObjectIDFromHex targetHex = none) →
      RemoveProjectMember db userIDHex projectIDHex targetHex o = (db, 400)) := by
  constructor
  · intro hu
    simp [RemoveProjectMember, hu]
  · intro u hu hbad
    cases hp : ObjectIDFromHex projectIDHex with
    | none => simp [RemoveProjectMember, hu, hp]
    | some p =>
      rcases hbad with h | h
      · rw [hp] at h
        exact absurd h (by simp)
      · simp [RemoveProjectMember, hu, hp, h]

/-- C26, as the code has it: each of the six membership handlers leaves the
whole store, the membership collections included, unchanged unless the
requester's effective role lookup succeeds and `hasPermission(role, RoleAdmin)`
holds; when the request passes the checks that come before the gate (ids that
parse, a body that parses where the handler requires one, a non-empty e-mail
for an invitation, a target id that parses) and the gate fails, the answer is
403 Forbidden. A request stopped by one of the earlier checks is answered 401
(a requester id that does not parse) or 400 (any other of those checks) with
the store unchanged, whatever the requester's role. -/
theorem membership_writes_are_gated (db : Database) :
    (∀ userIDHex teamIDHex body memberID notifID now notifNow o1 o2,
      (teamAdminGate db userIDHex teamIDHex = false →
        (InviteTeamMember db userIDHex teamIDHex body memberID notifID now notifNow o1 o2).1
          = db ∧
        (∀ u t b, ObjectIDFromHex userIDHex = some u → ObjectIDFromHex teamIDHex = some t →
          body = some b → b.Email ≠ "" →
          InviteTeamMember db userIDHex teamIDHex body memberID notifID now notifNow o1 o2
            = (db, 403))) ∧
      (ObjectIDFromHex userIDHex = none →
        InviteTeamMember db userIDHex teamIDHex body memberID notifID now notifNow o1 o2
          = (db, 401)) ∧
      (∀ u, ObjectIDFromHex userIDHex = some u →
        (ObjectIDFromHex teamIDHex = none ∨ body = none ∨
          ∃ b, body = some b ∧ b.Email = "") →
        InviteTeamMember db userIDHex teamIDHex body memberID notifID now notifNow o1 o2
          = (db, 400))) ∧
    (∀ userIDHex teamIDHex targetHex body o,
      (teamAdminGate db userIDHex teamIDHex = false →
        (UpdateTeamMemberRole db userIDHex teamIDHex targetHex body o).1 = db ∧
        (∀ u t x b, ObjectIDFromHex userIDHex = some u → ObjectIDFromHex teamIDHex = some t →
          ObjectIDFromHex targetHex = some x → body = some b →
          UpdateTeamMemberRole db userIDHex teamIDHex targetHex body o = (db, 403))) ∧
      (ObjectIDFromHex userIDHex = none →
        UpdateTeamMemberRole db userIDHex teamIDHex targetHex body o = (db, 401)) ∧
      (∀ u, ObjectIDFromHex userIDHex = some u →
        (ObjectIDFromHex teamIDHex = none ∨ ObjectIDFromHex targetHex = none ∨ body = none) →
        UpdateTeamMemberRole db userIDHex teamIDHex targetHex body o = (db, 400))) ∧
    (∀ userIDHex teamIDHex targetHex o,
      (teamAdminGate db userIDHex teamIDHex = false →
        (RemoveTeamMember db userIDHex teamIDHex targetHex o).1 = db ∧
        (∀ u t x, ObjectIDFromHex userIDHex = some u → ObjectIDFromHex teamIDHex = some t →
          ObjectIDFromHex targetHex = some x →
          RemoveTeamMember db userIDHex teamIDHex targetHex o = (db, 403))) ∧
      (ObjectIDFromHex userIDHex = none →
        RemoveTeamMember db userIDHex teamIDHex targetHex o = (db, 401)) ∧
      (∀ u, ObjectIDFromHex userIDHex = some u →
        (ObjectIDFromHex teamIDHex = none ∨ ObjectIDFromHex targetHex = none) →
        RemoveTeamMember db userIDHex teamIDHex targetHex o = (db, 400))) ∧
    (∀ userIDHex projectIDHex body memberID now o,
      (projectAdminGate db userIDHex projectIDHex = false →
        (AddProjectMember db userIDHex projectIDHex body memberID now o).1 = db ∧
        (∀ u p b x, ObjectIDFromHex userIDHex = some u →
          ObjectIDFromHex projectIDHex = some p → body = some b →
          ObjectIDFromHex b.UserID = some x →
          AddProjectMember db userIDHex projectIDHex body memberID now o = (db, 403))) ∧
      (ObjectIDFromHex userIDHex = none →
        AddProjectMember db userIDHex projectIDHex body memberID now o = (db, 401)) ∧
      (∀ u, ObjectIDFromHex userIDHex = some u →
        (ObjectIDFromHex projectIDHex = none ∨ body = none ∨
          ∃ b, body = some b ∧ ObjectIDFromHex b.UserID = none) →
        AddProjectMember db userIDHex projectIDHex body memberID now o = (db, 400))) ∧
    (∀ userIDHex projectIDHex targetHex body o,
      (projectAdminGate db userIDHex projectIDHex = false →
        (UpdateProjectMemberRole db userIDHex projectIDHex targetHex body o).1 = db ∧
        (∀ u p x, ObjectIDFromHex userIDHex = some u →
          ObjectIDFromHex projectIDHex = some p → ObjectIDFromHex targetHex = some x →
          UpdateProjectMemberRole db userIDHex projectIDHex targetHex body o = (db, 403))) ∧
      (ObjectIDFromHex userIDHex = none →
        UpdateProjectMemberRole db userIDHex projectIDHex targetHex body o = (db, 401)) ∧
      (∀ u, ObjectIDFromHex userIDHex = some u →
        (ObjectIDFromHex projectIDHex = none ∨ ObjectIDFromHex targetHex = none) →
        UpdateProjectMemberRole db userIDHex projectIDHex targetHex body o = (db, 400))) ∧
    (∀ userIDHex projectIDHex targetHex o,
      (projectAdminGate db userIDHex projectIDHex = false →
        (RemoveProjectMember db userIDHex projectIDHex targetHex o).1 = db ∧
        (∀ u p x, ObjectIDFromHex userIDHex = some u →
          ObjectIDFromHex projectIDHex = some p → ObjectIDFromHex targetHex = some x →
          RemoveProjectMember db userIDHex projectIDHex targetHex o = (db, 403))) ∧
      (ObjectIDFromHex userIDHex = none →
        RemoveProjectMember db userIDHex projectIDHex targetHex o = (db, 401)) ∧
      (∀ u, ObjectIDFromHex userIDHex = some u →
        (ObjectIDFromHex projectIDHex = none ∨ ObjectIDFromHex targetHex = none) →
        RemoveProjectMember db userIDHex projectIDHex targetHex o = (db, 400))) :=
  ⟨fun userIDHex teamIDHex body memberID notifID now notifNow o1 o2 =>
      ⟨InviteTeamMember_gated db userIDHex teamIDHex body memberID notifID now notifNow o1 o2,
       InviteTeamMember_validation db userIDHex teamIDHex body memberID notifID now notifNow
        o1 o2⟩,
   fun userIDHex teamIDHex targetHex body o =>
      ⟨UpdateTeamMemberRole_gated db userIDHex teamIDHex targetHex body o,
       UpdateTeamMemberRole_validation db userIDHex teamIDHex targetHex body o⟩,
   fun userIDHex teamIDHex targetHex o =>
      ⟨RemoveTeamMember_gated db userIDHex teamIDHex targetHex o,
       RemoveTeamMember_validation db userIDHex teamIDHex targetHex o⟩,
   fun userIDHex projectIDHex body memberID now o =>
      ⟨AddProjectMember_gated db userIDHex projectIDHex body memberID now o,
       AddProjectMember_validation db userIDHex projectIDHex body memberID now o⟩,
   fun userIDHex projectIDHex targetHex body o =>
      ⟨UpdateProjectMemberRole_gated db userIDHex projectIDHex targetHex body o,
       UpdateProjectMemberRole_validation db userIDHex projectIDHex targetHex body o⟩,
   fun userIDHex projectIDHex targetHex o =>
      ⟨RemoveProjectMember_gated db userIDHex projectIDHex targetHex o,
       RemoveProjectMember_validation db userIDHex projectIDHex targetHex o⟩⟩

/-- Instance of C26: user 4, Viewer of team 7, asks to remove user 3; the answer
is 403 and the store is unchanged. -/
theorem membership_writes_are_gated_witness :
    RemoveTeamMember adminDatabase "000000000000000000000004" "000000000000000000000007"
      "000000000000000000000003" WriteOutcome.applied = (adminDatabase, 403) :=
  (((membership_writes_are_gated adminDatabase).2.2.1 "000000000000000000000004"
    "000000000000000000000007" "000000000000000000000003" WriteOutcome.applied).1
    (by decide)).2 ⟨4⟩ ⟨7⟩ ⟨3⟩ (by decide) (by decide) (by decide)

/-- C26 as stated fails: user 4, Viewer (1) of team 7, sends an invitation with
an empty e-mail; the gate would fail, the answer is 400 and not 403 Forbidden. -/
theorem gate_after_validation_counterexample :
    teamAdminGate adminDatabase "000000000000000000000004" "000000000000000000000007"
      = false ∧
    InviteTeamMember adminDatabase "000000000000000000000004" "000000000000000000000007"
      (some { Email := "", RoleFlags := 2 }) ⟨900⟩ ⟨901⟩ 3 4
      InsertOutcome.inserted InsertOutcome.inserted = (adminDatabase, 400) := by
  refine ⟨by decide, by decide⟩

/-- C29 fails on the code. User 3 is Admin of project 5 (through team 7) and has
no access to the personal project 6 of user 4. `DeleteColumn` called by user 3
for project 5 with the id of column 60, a column of project 6, answers 200,
leaves the columns as they were, and deletes card 600, a card of project 6. -/
theorem deleteColumn_deletes_cards_of_other_project :
    projectAdminGate adminDatabase "000000000000000000000003" "000000000000000000000005"
      = true ∧
    getProjectRole adminDatabase ⟨6⟩ ⟨3⟩ = (0, some Error.ErrForbidden) ∧
    ObjectIDFromHex "00000000000000000000003c" = some ⟨60⟩ ∧
    adminDatabase.cards.map (fun card => (card.ID, card.ColumnID, card.ProjectID))
      = [(⟨600⟩, ⟨60⟩, ⟨6⟩)] ∧
    (DeleteColumn adminDatabase "000000000000000000000003" "000000000000000000000005"
      "00000000000000000000003c" WriteOutcome.applied WriteOutcome.applied).2 = 200 ∧
    (DeleteColumn adminDatabase "000000000000000000000003" "000000000000000000000005"
      "00000000000000000000003c" WriteOutcome.applied WriteOutcome.applied).1.board_columns
      = adminDatabase.board_columns ∧
    (DeleteColumn adminDatabase "000000000000000000000003" "000000000000000000000005"
      "00000000000000000000003c" WriteOutcome.applied WriteOutcome.applied).1.cards = [] := by
  refine ⟨by decide, by decide, by decide, by decide, by decide, by decide, by decide⟩

end FPMB
